import Mathlib

/-!
Correlator: the packed triangular matrix, its dispatch cursor and the pair correlator.

A shallow embedding of `include/numerictypes.h`, `include/source_data.h`,
`include/accumulator.h`, `include/correlations.h`, `include/container_io.h`,
`include/date_index.h`, `include/signals.h` and of the worker loop of
`src/correlate.cpp`.

* `unsigned int` values are natural numbers below `UINT_MOD = 2 ^ 32`; every
  arithmetic operation of the source on them is followed by `% UINT_MOD`.
* `std::vector<T>` and `std::deque<T>` are lists.
* The floating type `T` of `RealType<T>` is idealised as an ordered field `K`
  with exact arithmetic plus one extra value `nan`; there are no infinities
  and no rounding.
* The streams of the standard library are states with the operations the source
  calls on them: a file of records for `BufferedRecordReader`, a file of memory
  images for the binary mode, a file of tokens or of characters for the text mode.
* The date parser of `boost::gregorian` is a parameter of `DateIndex.from_string`.
* The bytes of an object in memory are given by an `ObjectRep`, a parameter of the
  binary operators of the records.
-/

namespace Correlator

/-! ## numerictypes.h : unsigned helpers -/

/-- The modulus of `unsigned int` arithmetic (32 bits). -/
def UINT_MOD : Nat := 4294967296

/-- Unsigned subtraction `a - b` on `unsigned int`. -/
def usub (a b : Nat) : Nat := (a + UINT_MOD - b % UINT_MOD) % UINT_MOD

/-- The function `sum_first_n_numbers` of numerictypes.h:
`temp = n; temp += 1; temp *= n; temp >>= 1; return temp;` on `unsigned int`. -/
def sum_first_n_numbers (n : Nat) : Nat :=
  let temp := n
  let temp := (temp + 1) % UINT_MOD
  let temp := (temp * n) % UINT_MOD
  temp >>> 1

/-! ## numerictypes.h : RealType -/

/-- The struct `RealType<T>`, identified with its only field `value`: either the
invalid value `NAN` or a number of the ordered field `K` that idealises `T`. -/
inductive RealType (K : Type) where
  | nan : RealType K
  | num : K → RealType K
deriving DecidableEq, Repr

namespace RealType

variable {K : Type} [LinearOrderedField K]

/-- The constant `RealType<T>::invalid_value(NAN)`. -/
def invalid_value : RealType K := nan

/-- The default constructor `RealType() : value(invalid_value)`. -/
instance : Inhabited (RealType K) := ⟨invalid_value⟩

/-- The test `is_invalid(t) { return isnan(t); }`. -/
def is_invalid : RealType K → Bool
  | nan => true
  | num _ => false

/-- The test `is_valid(t) { return !isnan(t); }`. -/
def is_valid (t : RealType K) : Bool := !(is_invalid t)

/-- Primitive `+` of `T`: a NaN operand gives NaN. -/
def prim_add : RealType K → RealType K → RealType K
  | num a, num b => num (a + b)
  | _, _ => nan

/-- Primitive `-` of `T`: a NaN operand gives NaN. -/
def prim_sub : RealType K → RealType K → RealType K
  | num a, num b => num (a - b)
  | _, _ => nan

/-- Primitive `*` of `T`: a NaN operand gives NaN. -/
def prim_mul : RealType K → RealType K → RealType K
  | num a, num b => num (a * b)
  | _, _ => nan

/-- Primitive `/` of `T`: a NaN operand gives NaN.  The model has no infinities, so
a division by zero gives `nan` as well. -/
def prim_div : RealType K → RealType K → RealType K
  | num a, num b => if b = 0 then nan else num (a / b)
  | _, _ => nan

/-- Primitive `abs` of `T`. -/
def prim_abs : RealType K → RealType K
  | num a => num |a|
  | nan => nan

/-- Primitive comparison `a > b` of `T`: false when an operand is NaN. -/
def prim_gt : RealType K → RealType K → Bool
  | num a, num b => decide (a > b)
  | _, _ => false

/-- Primitive `sqrt` of `T` over a given square root `fsqrt` of `K`: NaN for NaN and
for negative arguments. -/
def prim_sqrt (fsqrt : K → K) : RealType K → RealType K
  | num a => if a < 0 then nan else num (fsqrt a)
  | nan => nan

/-- The operator `+=` (and `+` through `boost::additive`): the invalid value is an
additive identity. -/
def add (a x : RealType K) : RealType K :=
  if !(is_invalid x) then
    if is_invalid a then x
    else prim_add a x
  else a

/-- The operator `-=` (and `-` through `boost::additive`). -/
def sub (a x : RealType K) : RealType K :=
  if !(is_invalid x) then
    if is_invalid a then prim_sub (num 0) x
    else prim_sub a x
  else a

/-- The operator `*=` (and `*` through `boost::multiplicative`): the primitive
multiplication, NaN corrupts the result. -/
def mul (a x : RealType K) : RealType K := prim_mul a x

/-- The operator `/=` (and `/` through `boost::multiplicative`): the primitive
division, NaN corrupts the result. -/
def div (a x : RealType K) : RealType K := prim_div a x

end RealType

/-! ## source_data.h : NDayType -/

/-- The struct `NDayType<Real, N>`: the mean, the `N` residuals (a vector that every
constructor sizes to `N`) and the root mean square. -/
structure NDayType (K : Type) (N : Nat) where
  mean : RealType K
  residual : Fin N → RealType K
  root_mean_square : RealType K

/-- The default constructor `NDayType()`: everything invalid. -/
def NDayType.init (K : Type) (N : Nat) : NDayType K N :=
  { mean := RealType.nan, residual := fun _ => RealType.nan,
    root_mean_square := RealType.nan }

/-- The struct `StatisticalData<Real>`: the current value and the two residual sets. -/
structure StatisticalData (K : Type) where
  value : RealType K
  ten_day : NDayType K 10
  fifty_day : NDayType K 50

/-- The default constructor `StatisticalData() { }`: every member default-constructed. -/
def StatisticalData.init (K : Type) : StatisticalData K :=
  { value := RealType.nan, ten_day := NDayType.init K 10, fifty_day := NDayType.init K 50 }

/-! ## accumulator.h : MovingAverageN -/

/-- The class `MovingAverageN<Real, N>`: the deque `_running_value`, `_portion` and
`_mean`. -/
structure MovingAverageN (K : Type) (N : Nat) where
  running_value : List (RealType K)
  portion : RealType K
  mean : RealType K

namespace MovingAverageN

variable {K : Type} [LinearOrderedField K]

/-- The constructor `MovingAverageN()`: `if (0 != N) _portion = Real(1) / Real(N);`,
the other members are default-constructed. -/
def init (K : Type) [LinearOrderedField K] (N : Nat) : MovingAverageN K N :=
  { running_value := [],
    portion := if 0 ≠ N then RealType.div (RealType.num 1) (RealType.num (N : K))
               else RealType.invalid_value,
    mean := RealType.invalid_value }

/-- The loop of `update` run over the indices `is`: writes the residuals and
accumulates the sum of their squares into `root_mean_square`. -/
def residual_loop {N : Nat} (value_at : Fin N → RealType K) (nday : NDayType K N)
    (is : List (Fin N)) : NDayType K N :=
  is.foldl
    (fun nd i =>
      let res := RealType.sub (value_at i) nd.mean
      { nd with
        residual := Function.update nd.residual i res,
        root_mean_square := RealType.add nd.root_mean_square (RealType.mul res res) })
    nday

/-- The method `update(new_value, _nday)`; `fsqrt` is the square root of `K`. -/
def update {N : Nat} (fsqrt : K → K) (ma : MovingAverageN K N) (new_value : RealType K)
    (nday : NDayType K N) : MovingAverageN K N × NDayType K N :=
  let mean1 := RealType.add ma.mean (RealType.mul new_value ma.portion)
  let rv1 := ma.running_value ++ [new_value]
  let ma2 : MovingAverageN K N :=
    if N < rv1.length then
      { ma with
        mean := RealType.sub mean1 (RealType.mul (rv1.headD RealType.nan) ma.portion),
        running_value := rv1.tail }
    else
      { ma with mean := mean1, running_value := rv1 }
  if h : N = ma2.running_value.length then
    let nd0 : NDayType K N :=
      { nday with root_mean_square := RealType.invalid_value, mean := ma2.mean }
    let nd1 := residual_loop (fun i => ma2.running_value.get (Fin.cast h i)) nd0
      (List.finRange N)
    (ma2, { nd1 with root_mean_square := RealType.prim_sqrt fsqrt nd1.root_mean_square })
  else
    (ma2, nday)

/-- The method `reset()`. -/
def reset {N : Nat} (ma : MovingAverageN K N) : MovingAverageN K N :=
  { ma with running_value := [], mean := RealType.invalid_value }

/-- The accumulator and residual set after feeding the values `vs` in order. -/
def feed {N : Nat} (fsqrt : K → K) :
    List (RealType K) → MovingAverageN K N × NDayType K N → MovingAverageN K N × NDayType K N
  | [], s => s
  | v :: vs, s => feed fsqrt vs (update fsqrt s.1 v s.2)

end MovingAverageN

/-! ## accumulator.h : MovingAverages -/

/-- The class `MovingAverages<Real>`: the 10-day and the 50-day accumulator. -/
structure MovingAverages (K : Type) where
  ten : MovingAverageN K 10
  fifty : MovingAverageN K 50

namespace MovingAverages

variable {K : Type} [LinearOrderedField K]

/-- A freshly constructed `MovingAverages`. -/
def init (K : Type) [LinearOrderedField K] : MovingAverages K :=
  { ten := MovingAverageN.init K 10, fifty := MovingAverageN.init K 50 }

/-- The method `update(new_value, sdata)`: the value is stored, the accumulators are
updated only with a valid value. -/
def update (fsqrt : K → K) (mas : MovingAverages K) (new_value : RealType K)
    (sdata : StatisticalData K) : MovingAverages K × StatisticalData K :=
  let sdata1 := { sdata with value := new_value }
  if RealType.is_valid new_value then
    let r10 := MovingAverageN.update fsqrt mas.ten new_value sdata1.ten_day
    let r50 := MovingAverageN.update fsqrt mas.fifty new_value sdata1.fifty_day
    ({ ten := r10.1, fifty := r50.1 },
     { sdata1 with ten_day := r10.2, fifty_day := r50.2 })
  else
    (mas, sdata1)

/-- The accumulators and the statistical data after the updates `vs`, in order. -/
def feed (fsqrt : K → K) :
    List (RealType K) → MovingAverages K × StatisticalData K →
      MovingAverages K × StatisticalData K
  | [], s => s
  | v :: vs, s => feed fsqrt vs (update fsqrt s.1 v s.2)

end MovingAverages

/-! ## correlations.h : Correlations -/

/-- The struct `Correlations<Real>`: the two coefficients of a cell. -/
structure Correlations (K : Type) where
  ten_day : RealType K
  fifty_day : RealType K
deriving DecidableEq, Repr

/-- The constructor `Correlations() { }`: both members default-constructed, invalid. -/
instance (K : Type) : Inhabited (Correlations K) := ⟨⟨RealType.nan, RealType.nan⟩⟩

/-! ## correlations.h : RowColPair, Element, CrossCorrelation -/

/-- The struct `RowColPair`: two `unsigned int` fields. -/
structure RowColPair where
  row : Nat
  col : Nat
deriving DecidableEq, Repr

/-- The struct `CrossCorrelation::Element`: a coordinate and its linear index. -/
structure Element where
  rc : RowColPair
  index : Nat
deriving DecidableEq, Repr

/-- The class `CrossCorrelation`: the flat store `_slice` and the cursor
`_queued_element` (the mutex is not modelled, every operation is one atomic step). -/
structure CrossCorrelation (α : Type) where
  slice : List α
  queued_element : Element

/-- The call `std::vector::resize(k)`: truncate to `k` cells or pad with
default-constructed cells `d`. -/
def vector_resize {α : Type} (l : List α) (k : Nat) (d : α) : List α :=
  l.take k ++ List.replicate (k - l.length) d

/-- The default constructor `CrossCorrelation()`: empty store, cursor `(1, 0, 0)`. -/
def CrossCorrelation.init (α : Type) : CrossCorrelation α :=
  { slice := [], queued_element := ⟨⟨1, 0⟩, 0⟩ }

/-- The method `size_for(elements)`: reset the cursor to `(1, 0, 0)` and resize the
store to `sum_first_n_numbers(elements - 1)` cells. -/
def CrossCorrelation.size_for {α : Type} [Inhabited α] (m : CrossCorrelation α)
    (elements : Nat) : CrossCorrelation α :=
  { slice := vector_resize m.slice (sum_first_n_numbers (usub elements 1)) default,
    queued_element := ⟨⟨1, 0⟩, 0⟩ }

/-- The method `size()`. -/
def CrossCorrelation.size {α : Type} (m : CrossCorrelation α) : Nat := m.slice.length

/-- The index computed inside `at(const RowColPair&)`:
`unsigned int index = sum_first_n_numbers(rc.row - 1) + rc.col;`. -/
def at_rc_index (rc : RowColPair) : Nat :=
  (sum_first_n_numbers (usub rc.row 1) + rc.col) % UINT_MOD

/-- The method `at(const RowColPair&)`; a thrown `out_of_range` is `Except.error`
carrying the message. -/
def CrossCorrelation.at_rc {α : Type} (m : CrossCorrelation α) (rc : RowColPair) :
    Except String α :=
  if m.slice.isEmpty then
    Except.error "Empty slice! Get a new can..."
  else if rc.col ≥ rc.row then
    Except.error "Column greater than or equal to Row - in upper half."
  else if 0 = rc.row then
    Except.error "Row starts with one."
  else
    if h : m.slice.length ≤ at_rc_index rc then
      Except.error "Element outside of the slice."
    else
      Except.ok (m.slice.get ⟨at_rc_index rc, Nat.lt_of_not_le h⟩)

/-- The method `get_next_element(e)`: returns the boolean result together with the
element copied into `e`, and the matrix with the advanced cursor.  `col %= row`
with `row = 0` is undefined in the source; here it leaves `col` unchanged. -/
def CrossCorrelation.get_next_element {α : Type} (m : CrossCorrelation α) :
    (Bool × Element) × CrossCorrelation α :=
  let e := m.queued_element
  let col1 := (m.queued_element.rc.col + 1) % UINT_MOD
  let col2 := col1 % m.queued_element.rc.row
  let row1 := if 0 = col2 then (m.queued_element.rc.row + 1) % UINT_MOD
              else m.queued_element.rc.row
  let index1 := (m.queued_element.index + 1) % UINT_MOD
  ((decide (m.slice.length > e.index), e),
   { m with queued_element := ⟨⟨row1, col2⟩, index1⟩ })

/-- The matrix after `k` successive calls of `get_next_element`. -/
def CrossCorrelation.after_calls {α : Type} (m : CrossCorrelation α) :
    Nat → CrossCorrelation α
  | 0 => m
  | k + 1 => (CrossCorrelation.get_next_element (CrossCorrelation.after_calls m k)).2

/-- What call number `k` (counting from 0) of `get_next_element` returns. -/
def CrossCorrelation.nth_call {α : Type} (m : CrossCorrelation α) (k : Nat) :
    Bool × Element :=
  (CrossCorrelation.get_next_element (CrossCorrelation.after_calls m k)).1

/-- The results of the first `k` successive calls of `get_next_element`. -/
def CrossCorrelation.first_calls {α : Type} (m : CrossCorrelation α) (k : Nat) :
    List (Bool × Element) :=
  (List.range k).map (CrossCorrelation.nth_call m)

/-! ## correlations.h : CorrelatorN -/

namespace CorrelatorN

variable {K : Type} [LinearOrderedField K]

/-- The loop of `compute` run over the indices `is`:
`_temp_numerator += (nd_one.residual[i] * nd_two.residual[i]);`. -/
def numerator_loop {N : Nat} (nd_one nd_two : NDayType K N) (acc : RealType K)
    (is : List (Fin N)) : RealType K :=
  is.foldl
    (fun num i => RealType.add num (RealType.mul (nd_one.residual i) (nd_two.residual i)))
    acc

/-- The method `CorrelatorN<Real, N>::compute(nd_one, nd_two)`; `fmin` is
`Real::Limits::min()`, the smallest positive normal value of `T`.  The members
`_temp_numerator` and `_temp_divisor` are assigned before they are read, so the
result depends on the arguments only. -/
def compute {N : Nat} (fmin : K) (nd_one nd_two : NDayType K N) : RealType K :=
  if RealType.is_invalid nd_one.root_mean_square ||
     RealType.is_invalid nd_two.root_mean_square then
    RealType.invalid_value
  else
    let temp_divisor := RealType.mul nd_one.root_mean_square nd_two.root_mean_square
    if RealType.prim_gt (RealType.num fmin) (RealType.prim_abs temp_divisor) then
      RealType.invalid_value
    else
      let temp_numerator :=
        numerator_loop nd_one nd_two RealType.invalid_value (List.finRange N)
      RealType.div temp_numerator temp_divisor

/-- The same method, returning next to the result the operands of the final
division `_temp_numerator / _temp_divisor` when that statement is executed. -/
def compute_traced {N : Nat} (fmin : K) (nd_one nd_two : NDayType K N) :
    RealType K × Option (RealType K × RealType K) :=
  if RealType.is_invalid nd_one.root_mean_square ||
     RealType.is_invalid nd_two.root_mean_square then
    (RealType.invalid_value, none)
  else
    let temp_divisor := RealType.mul nd_one.root_mean_square nd_two.root_mean_square
    if RealType.prim_gt (RealType.num fmin) (RealType.prim_abs temp_divisor) then
      (RealType.invalid_value, none)
    else
      let temp_numerator :=
        numerator_loop nd_one nd_two RealType.invalid_value (List.finRange N)
      (RealType.div temp_numerator temp_divisor, some (temp_numerator, temp_divisor))

end CorrelatorN

/-! ## Specification helpers -/

/-- The triangular number `1 + 2 + ... + k`. -/
def tri : Nat → Nat
  | 0 => 0
  | k + 1 => tri k + (k + 1)

/-- The coordinates of the lower triangle of an `n × n` matrix, diagonal excluded:
`1 ≤ row < n` and `0 ≤ col < row`. -/
def valid_rc (n : Nat) (rc : RowColPair) : Prop :=
  1 ≤ rc.row ∧ rc.row < n ∧ rc.col < rc.row

instance (n : Nat) (rc : RowColPair) : Decidable (valid_rc n rc) := by
  unfold valid_rc; infer_instance

/-- The residual set of a series multiplied by `s`: the mean and every residual are
multiplied by `s`, the root mean square is kept. -/
def NDayType.scale {K : Type} [LinearOrderedField K] {N : Nat} (s : K)
    (nd : NDayType K N) : NDayType K N :=
  { mean := RealType.mul (RealType.num s) nd.mean,
    residual := fun i => RealType.mul (RealType.num s) (nd.residual i),
    root_mean_square := nd.root_mean_square }

/-- The product of a residual pair when both members are valid, 0 otherwise. -/
def pair_product {K : Type} [LinearOrderedField K] : RealType K → RealType K → K
  | RealType.num a, RealType.num b => a * b
  | _, _ => 0

/-! ## Sample data -/

/-- A default-constructed matrix sized with `size_for(n)`. -/
def fresh (n : Nat) : CrossCorrelation (Correlations ℚ) :=
  (CrossCorrelation.init (Correlations ℚ)).size_for n

/-- The value `numeric_limits<float>::min()`, `2^-126`. -/
def FLT_MIN : ℚ := 1 / 2 ^ 126

/-- The residuals 3, 4, 0, ..., 0 of a 10-day window. -/
def sample_residuals : Fin 10 → ℚ :=
  fun i => if i.val = 0 then 3 else if i.val = 1 then 4 else 0

/-- A full 10-day residual set: residuals 3, 4, 0, ..., 0 and root mean square 5. -/
def sample_nd : NDayType ℚ 10 :=
  { mean := RealType.num 2,
    residual := fun i => RealType.num (sample_residuals i),
    root_mean_square := RealType.num 5 }

/-- The residual set `sample_nd` with residual 0 replaced by the invalid value. -/
def sample_nd_gap : NDayType ℚ 10 :=
  { mean := RealType.num 2,
    residual := fun i => if i.val = 0 then RealType.nan
                         else RealType.num (sample_residuals i),
    root_mean_square := RealType.num 5 }

/-! ## numerictypes.h : IntegerType -/

/-- The struct `IntegerType<T>` with its field `value`.  The signed type `T` is
idealised as `Int`: signed overflow is undefined in the source and is not modelled. -/
structure IntegerType where
  value : Int
deriving DecidableEq, Repr

namespace IntegerType

/-- The constant `IntegerType<T>::invalid_value(-1)`. -/
def invalid_value : Int := -1

/-- The default constructor `IntegerType() : value(invalid_value)`. -/
instance : Inhabited IntegerType := ⟨⟨invalid_value⟩⟩

/-- The test `is_invalid(t) { return (invalid_value == t); }`. -/
def is_invalid (t : Int) : Bool := decide (invalid_value = t)

/-- The test `is_valid(t) { return (invalid_value != t); }`. -/
def is_valid (t : Int) : Bool := decide (invalid_value ≠ t)

/-- The operator `+=` (and `+` through `boost::additive`). -/
def add (a x : IntegerType) : IntegerType :=
  if !(is_invalid x.value) then
    if is_invalid a.value then ⟨x.value⟩
    else ⟨a.value + x.value⟩
  else a

/-- The operator `-=` (and `-` through `boost::additive`). -/
def sub (a x : IntegerType) : IntegerType :=
  if !(is_invalid x.value) then
    if is_invalid a.value then ⟨0 - x.value⟩
    else ⟨a.value - x.value⟩
  else a

/-- The expression `a * x`: `IntegerType` declares no `operator*`, both operands
convert through `operator T()` and the primitive product of `T` is taken. -/
def mul (a x : IntegerType) : Int := a.value * x.value

/-- The expression `a / x`: `IntegerType` declares no `operator/`, both operands
convert through `operator T()` and the primitive quotient of `T`, which truncates, is
taken.  A division by zero is undefined in the source; here it gives 0. -/
def div (a x : IntegerType) : Int := Int.tdiv a.value x.value

end IntegerType

/-- The method `MovingAverages::reset()`: both accumulators are reset. -/
def MovingAverages.reset {K : Type} [LinearOrderedField K] (mas : MovingAverages K) :
    MovingAverages K :=
  { ten := MovingAverageN.reset mas.ten, fifty := MovingAverageN.reset mas.fifty }

/-! ## accumulator.h : the two halves of MovingAverageN::update -/

namespace MovingAverageN

variable {K : Type} [LinearOrderedField K]

/-- The first half of `update`: the mean takes the portion of the new value, the value
is pushed, and beyond `N` values the oldest one is evicted. -/
def push {N : Nat} (ma : MovingAverageN K N) (new_value : RealType K) :
    MovingAverageN K N :=
  let mean1 := RealType.add ma.mean (RealType.mul new_value ma.portion)
  let rv1 := ma.running_value ++ [new_value]
  if N < rv1.length then
    { ma with
      mean := RealType.sub mean1 (RealType.mul (rv1.headD RealType.nan) ma.portion),
      running_value := rv1.tail }
  else
    { ma with mean := mean1, running_value := rv1 }

/-- The second half of `update`, run when the window holds `N` values: the residual
set is written from the mean and the window. -/
def write {N : Nat} (fsqrt : K → K) (ma : MovingAverageN K N)
    (h : N = ma.running_value.length) (nday : NDayType K N) : NDayType K N :=
  let nd0 : NDayType K N :=
    { nday with root_mean_square := RealType.invalid_value, mean := ma.mean }
  let nd1 := residual_loop (fun i => ma.running_value.get (Fin.cast h i)) nd0
    (List.finRange N)
  { nd1 with root_mean_square := RealType.prim_sqrt fsqrt nd1.root_mean_square }

end MovingAverageN

/-! ## Specification of the rolling window -/

/-- The last `N` entries of a list, the whole list when it is shorter. -/
def last_n {α : Type} (N : Nat) (l : List α) : List α := l.drop (l.length - N)

/-- The mean recomputed from scratch: the sum of the window divided by `N`. -/
def mean_from_scratch {K : Type} [LinearOrderedField K] (N : Nat) (w : List K) : K :=
  w.sum / N

/-- The accumulator that holds the window `w` of valid values: the buffer is `w`, the
portion is `1 / N` and the mean is `mean_from_scratch N w`, invalid for an empty
window. -/
def window_state {K : Type} [LinearOrderedField K] (N : Nat) (w : List K) :
    MovingAverageN K N :=
  { running_value := w.map RealType.num,
    portion := (MovingAverageN.init K N).portion,
    mean := if w = [] then RealType.nan else RealType.num (mean_from_scratch N w) }

/-- The residual set of the window `w`: the mean from scratch, the residuals
`w[i] - mean` and the root of the sum of their squares. -/
def residual_set_of {K : Type} [LinearOrderedField K] (fsqrt : K → K) (N : Nat)
    (w : List K) : NDayType K N :=
  { mean := RealType.num (mean_from_scratch N w),
    residual := fun i => RealType.num (w.getD i.val 0 - mean_from_scratch N w),
    root_mean_square :=
      RealType.num (fsqrt (∑ i : Fin N, (w.getD i.val 0 - mean_from_scratch N w) ^ 2)) }

/-! ## correlations.h : visit_element and Correlator -/

/-- The method `visit_element(e, v)`: the visitor is applied to the coordinate and the
cell of `e` only when `e.index` is inside the store. -/
def CrossCorrelation.visit_element {α : Type} (m : CrossCorrelation α) (e : Element)
    (v : RowColPair → α → α) : CrossCorrelation α :=
  if h : m.slice.length > e.index then
    { m with slice := m.slice.set e.index (v e.rc (m.slice.get ⟨e.index, h⟩)) }
  else m

/-- The method `Correlator<Real>::compute(cs, sd_one, sd_two)`: both coefficients of
`cs` are assigned. -/
def Correlator_compute {K : Type} [LinearOrderedField K] (fmin : K) (cs : Correlations K)
    (sd_one sd_two : StatisticalData K) : Correlations K :=
  { cs with
    ten_day := CorrelatorN.compute fmin sd_one.ten_day sd_two.ten_day,
    fifty_day := CorrelatorN.compute fmin sd_one.fifty_day sd_two.fifty_day }

/-! ## correlate.cpp : CorrelationsVisitor and CorrelationsThread -/

/-- The static method `CorrelationsVisitor::size()`: `_mean.size()` returned as
`unsigned int`. -/
def CorrelationsVisitor.size {K : Type} (mean : List (StatisticalData K)) : Nat :=
  mean.length % UINT_MOD

/-- The call operator of `CorrelationsVisitor` over the loaded statistical data
`_mean`: behind its bounds guard it correlates `_mean[rc.row]` with `_mean[rc.col]`
into the cell. -/
def CorrelationsVisitor.call {K : Type} [LinearOrderedField K] (fmin : K)
    (mean : List (StatisticalData K)) (rc : RowColPair) (corrs : Correlations K) :
    Correlations K :=
  if h : mean.length > rc.row ∧ mean.length > rc.col then
    Correlator_compute fmin corrs (mean.get ⟨rc.row, h.1⟩) (mean.get ⟨rc.col, h.2⟩)
  else corrs

/-- The sizing step of `CorrelationsThread::initialize_day` once the data are loaded:
`_correlation.size_for(CorrelationsVisitor::size())`. -/
def CorrelationsThread.initialize_day {K : Type} (m : CrossCorrelation (Correlations K))
    (mean : List (StatisticalData K)) : CrossCorrelation (Correlations K) :=
  m.size_for (CorrelationsVisitor.size mean)

/-- The body of the worker loop for a dispatched element: `visit_element(visited, v)`.
Next to the matrix a log records each dispatched element with a flag that is true when
the cell was written, that is when neither `visit_element` nor the visitor skipped
it. -/
def CorrelationsThread.loop_body {K : Type} [LinearOrderedField K] (fmin : K)
    (mean : List (StatisticalData K))
    (s : CrossCorrelation (Correlations K) × List (Element × Bool)) :
    CrossCorrelation (Correlations K) × List (Element × Bool) :=
  let r := s.1.get_next_element
  (r.2.visit_element r.1.2 (CorrelationsVisitor.call fmin mean),
   s.2 ++ [(r.1.2, decide (r.2.slice.length > r.1.2.index ∧
      mean.length > r.1.2.rc.row ∧ mean.length > r.1.2.rc.col))])

/-- The worker loop `while (_correlation.get_next_element(visited)) { visit_element }`
of `CorrelationsThread::operator()`, run by one worker, with `fuel` bounding the number
of calls of `get_next_element`; `none` when the fuel runs out. -/
def CorrelationsThread.worker_loop {K : Type} [LinearOrderedField K] (fmin : K)
    (mean : List (StatisticalData K)) :
    Nat → CrossCorrelation (Correlations K) × List (Element × Bool) →
      Option (CrossCorrelation (Correlations K) × List (Element × Bool))
  | 0, _ => none
  | fuel + 1, s =>
    if s.1.get_next_element.1.1 then
      CorrelationsThread.worker_loop fmin mean fuel
        (CorrelationsThread.loop_body fmin mean s)
    else some (s.1.get_next_element.2, s.2)

/-- The matrix and the log after `k` iterations of the worker loop. -/
def CorrelationsThread.loop_state {K : Type} [LinearOrderedField K] (fmin : K)
    (mean : List (StatisticalData K))
    (s : CrossCorrelation (Correlations K) × List (Element × Bool)) :
    Nat → CrossCorrelation (Correlations K) × List (Element × Bool)
  | 0 => s
  | k + 1 => CorrelationsThread.loop_body fmin mean
      (CorrelationsThread.loop_state fmin mean s k)

/-- A day with three loaded series. -/
def sample_day : List (StatisticalData ℚ) :=
  [⟨RealType.num 1, sample_nd, NDayType.init ℚ 50⟩,
   ⟨RealType.num 2, sample_nd, NDayType.init ℚ 50⟩,
   ⟨RealType.num 3, sample_nd_gap, NDayType.init ℚ 50⟩]

/-- A day with 65537 loaded series, all default-constructed. -/
def oversized_day : List (StatisticalData ℚ) :=
  List.replicate 65537 (StatisticalData.init ℚ)

/-! ## correlations.h : the transitivity predicate -/

namespace Correlations

variable {K : Type} [LinearOrderedField K]

end Correlations

/-! ## correlations.h : access by linear index, visitors with a state -/

/-- The method `at(const unsigned int index)`; a thrown `out_of_range` is
`Except.error` carrying the message. -/
def CrossCorrelation.at_index {α : Type} (m : CrossCorrelation α) (index : Nat) :
    Except String α :=
  if h : m.slice.length ≤ index then
    Except.error "Element outside of the slice."
  else
    Except.ok (m.slice.get ⟨index, Nat.lt_of_not_le h⟩)

/-- The method `visit_element(e, v)` for a function object that has a state of its
own (`Visitor& v` is taken by reference): `s` is the state of `v` before the call,
the result holds its state after the call and the matrix. -/
def CrossCorrelation.visit_element_stateful {α σ : Type} (m : CrossCorrelation α)
    (e : Element) (v : σ → RowColPair → α → σ × α) (s : σ) : σ × CrossCorrelation α :=
  if h : m.slice.length > e.index then
    let r := v s e.rc (m.slice.get ⟨e.index, h⟩)
    (r.1, { m with slice := m.slice.set e.index r.2 })
  else (s, m)

/-- A function object whose state is the record of its invocations: each call appends
the coordinate and the cell it was handed, and stores `fn rc cell` in the cell. -/
def recording_visitor {α : Type} (fn : RowColPair → α → α) :
    List (RowColPair × α) → RowColPair → α → List (RowColPair × α) × α :=
  fun log rc cell => (log ++ [(rc, cell)], fn rc cell)

/-! ## constants.h and date_index.h : DateIndex -/

/-- A calendar date `year-month-day` of `boost::gregorian::date`. -/
structure Date where
  year : Int
  month : Int
  day : Int
deriving DecidableEq, Repr

/-- The library function `boost::gregorian::date::julian_day()`: the Julian day
number of a date of the Gregorian calendar. -/
def Date.julian_day (d : Date) : Int :=
  let a := (14 - d.month) / 12
  let y := d.year + 4800 - a
  let m := d.month + 12 * a - 3
  d.day + (153 * m + 2) / 5 + 365 * y + y / 4 - y / 100 + y / 400 - 32045

/-- The constant `constants::start_date`, `from_simple_string("2011-03-16")`. -/
def constants.start_date : Date := ⟨2011, 3, 16⟩

/-- The constant `constants::end_date`, `from_simple_string("2012-03-16")`. -/
def constants.end_date : Date := ⟨2012, 3, 16⟩

namespace DateIndex

/-- The static member `s_zero_date = constants::start_date.julian_day()`. -/
def s_zero_date : Int := constants.start_date.julian_day

/-- The static member
`s_max_index = (int)(constants::end_date.julian_day() - s_zero_date)`. -/
def s_max_index : Int := constants.end_date.julian_day - s_zero_date

/-- The method `from_string(in_date)`.  The library parser
`boost::gregorian::from_simple_string` is the parameter `from_simple_string`; `none`
stands for a thrown exception (a string that is not a date), which `catch(...)` turns
into `-1`.  The difference of two Julian days of `boost` dates fits an `int`. -/
def from_string (from_simple_string : String → Option Date) (in_date : String) : Int :=
  match from_simple_string in_date with
  | some d => d.julian_day - s_zero_date
  | none => -1

/-- The method `valid(index)`: `return (0 <= index < s_max_index);`.  The expression
is `(0 <= index) < s_max_index`: the `bool` result of the first comparison, promoted
to the `int` 0 or 1, is compared with `s_max_index`. -/
def valid (index : Int) : Bool :=
  decide ((if 0 ≤ index then (1 : Int) else 0) < s_max_index)

/-- The method `interval()`. -/
def interval : Int := s_max_index + 1

/-- The method `first()`. -/
def first : Int := 0

/-- The method `last()`. -/
def last : Int := s_max_index

end DateIndex

/-- A parser that knows the date strings `2010-01-01`, `2011-03-16`, `2011-12-30` and
`2013-01-01`, and rejects every other string. -/
def sample_from_simple_string (s : String) : Option Date :=
  if s = "2010-01-01" then some ⟨2010, 1, 1⟩
  else if s = "2011-03-16" then some ⟨2011, 3, 16⟩
  else if s = "2011-12-30" then some ⟨2011, 12, 30⟩
  else if s = "2013-01-01" then some ⟨2013, 1, 1⟩
  else none

/-! ## container_io.h : BufferedRecordReader -/

/-- The number of values of the type `int`, 32 bits wide. -/
def INT_MOD : Int := 4294967296

/-- The largest `int`. -/
def INT_MAX : Int := 2147483647

/-- The `int` that a product of two `int` leaves: the exact product when it is an
`int`, and beyond the range of `int`, where the source has a signed overflow, the
value congruent to it modulo `2^32` in `[-2^31, 2^31)` that the two's-complement
multiplication of the machine leaves. -/
def int_mul (a b : Int) : Int :=
  (a * b + (INT_MAX + 1)) % INT_MOD - (INT_MAX + 1)

/-- The operations of `std::ifstream` that `BufferedRecordReader` calls, over stream
states `S`, records `R` and file names `F`: `is_open()`, `good()`, `close()`,
`open(filename)`, `seekg(offset)` and `_file >> _buffer`, which is handed the present
content of the buffer and returns the new one. -/
structure Ifstream (S R F : Type) where
  is_open : S → Bool
  good : S → Bool
  close : S → S
  open_file : S → F → S
  seekg : S → Int → S
  extract : S → R → S × R

/-- The class `BufferedRecordReader<RecordType>`: the members `_buffer`, `_lastread`
and `_file`. -/
structure BufferedRecordReader (S R : Type) where
  buffer : R
  lastread : IntegerType
  file : S

namespace BufferedRecordReader

variable {S R F : Type}

/-- The method `close()`: close the file if it is open, invalidate the index. -/
def close (io : Ifstream S R F) (r : BufferedRecordReader S R) : BufferedRecordReader S R :=
  { r with
    file := if io.is_open r.file then io.close r.file else r.file,
    lastread := ⟨IntegerType.invalid_value⟩ }

/-- The method `open(filename)`: `close()`, then `_file.open(filename)`; the result
is `_file.is_open()`. -/
def open_file (io : Ifstream S R F) (r : BufferedRecordReader S R) (filename : F) :
    Bool × BufferedRecordReader S R :=
  let r1 := close io r
  let f := io.open_file r1.file filename
  (io.is_open f, { r1 with file := f })

/-- The method `read(index, out)` for records of `size = RecordType::Size()` bytes:
the result holds the returned `bool`, the content of `out` after the call and the
reader after the call.  The offset `index * RecordType::Size()` is a product of two
`int`, formed in `int`. -/
def read (io : Ifstream S R F) (size : Int) (r : BufferedRecordReader S R) (index : Int)
    (out : R) : Bool × R × BufferedRecordReader S R :=
  if !(io.is_open r.file) || !(io.good r.file) || decide (0 > index) then (false, out, r)
  else if index = r.lastread.value then (true, r.buffer, r)
  else
    let f1 := io.seekg r.file (int_mul index size)
    if io.good f1 then
      let x := io.extract f1 r.buffer
      if io.good x.1 then
        (true, x.2, { buffer := x.2, lastread := ⟨index⟩, file := x.1 })
      else (false, out, { r with buffer := x.2, file := x.1 })
    else (false, out, { r with file := f1 })

end BufferedRecordReader

/-- The state of a `std::ifstream` over a file of records: whether a file is open,
whether no state flag is set, the read position in bytes, and the records of the
open file in file order. -/
structure RecordStream (R : Type) where
  opened : Bool
  ok : Bool
  pos : Int
  records : List R
deriving DecidableEq, Repr

/-- The `std::ifstream` operations on a file of records of `size` bytes each.  A file
name denotes `some records` or, when it cannot be opened, `none`.  `open` fails on a
stream that is open and clears the state flags when it succeeds; `seekg` does nothing
on a failed stream and fails on a negative offset; the extraction of a record at the
byte offset `j * size` delivers record `j` when the file has one and fails otherwise
(`read` seeks to no other offsets). -/
def record_stream (R : Type) (size : Int) : Ifstream (RecordStream R) R (Option (List R)) where
  is_open := fun s => s.opened
  good := fun s => s.ok
  close := fun s => { s with opened := false }
  open_file := fun s filename =>
    if s.opened then { s with ok := false }
    else match filename with
      | some records => { opened := true, ok := true, pos := 0, records := records }
      | none => { s with ok := false }
  seekg := fun s offset =>
    if !s.ok then s
    else if offset < 0 then { s with ok := false }
    else { s with pos := offset }
  extract := fun s buffer =>
    if !s.ok then (s, buffer)
    else match s.records[(s.pos / size).toNat]? with
      | some record =>
        if 0 < size ∧ 0 ≤ s.pos ∧ s.pos % size = 0 then
          ({ s with pos := s.pos + size }, record)
        else ({ s with ok := false }, buffer)
      | none => ({ s with ok := false }, buffer)

/-- The reader is open and healthy on the file `records`, and its buffer, when the
index of the last read is valid, holds the record of that index. -/
def BufferedRecordReader.serves {R : Type} (records : List R)
    (r : BufferedRecordReader (RecordStream R) R) : Prop :=
  r.file.opened = true ∧ r.file.ok = true ∧ r.file.records = records ∧
  (r.lastread.value = IntegerType.invalid_value ∨
    (0 ≤ r.lastread.value ∧ records[r.lastread.value.toNat]? = some r.buffer))

instance {R : Type} [DecidableEq R] (records : List R)
    (r : BufferedRecordReader (RecordStream R) R) :
    Decidable (BufferedRecordReader.serves records r) := by
  unfold BufferedRecordReader.serves
  infer_instance

/-- A reader that has just read record 1 of the file `[10, 20]`. -/
def sample_reader : BufferedRecordReader (RecordStream Nat) Nat :=
  { buffer := 20, lastread := ⟨1⟩,
    file := { opened := true, ok := true, pos := 8, records := [10, 20] } }

/-! ## numerictypes.h and correlations.h : text input and output -/

/-- The operations of a text `std::istream` that the input operators call, over
stream states `S`: `fail()`, `clear()`, the extraction `in >> t.value` of a number
(the number stored in `t.value`, a value without meaning when the extraction fails)
and the extraction `in >> dropped` of a string. -/
structure TextIstream (S K : Type) where
  fail : S → Bool
  clear : S → S
  extract_number : S → K × S
  extract_string : S → S

/-- The text branch of `operator>> (istream&, RealType<T>&)`: `in >> t.value`, and
when the stream has failed, the invalid value is stored, the state is cleared and one
string is extracted and dropped. -/
def RealType.read_text {S K : Type} (io : TextIstream S K) (s : S) : RealType K × S :=
  let x := io.extract_number s
  if io.fail x.2 then (RealType.nan, io.extract_string (io.clear x.2))
  else (RealType.num x.1, x.2)

/-- The text branch of `operator>> (istream&, Correlations<Real>&)`:
`in >> c.fifty_day >> c.ten_day`. -/
def Correlations.read_text {S K : Type} (io : TextIstream S K) (s : S) :
    Correlations K × S :=
  let f := RealType.read_text io s
  let t := RealType.read_text io f.2
  (⟨t.1, f.1⟩, t.2)

/-! ## container_io.h : save_to and load_from -/

/-- The function `save_to(c, filename)`: the file is opened for output, which empties
it, and `copy` sends the elements in order through an `ostream_iterator`, each one
written by the `operator<<` of the element type, `write`.  The result is the content
of the file, a list of items `χ`. -/
def save_to {α χ : Type} (write : α → List χ) (c : List α) : List χ :=
  c.foldl (fun outfile x => outfile ++ write x) []

/-- The loop of `load_from` over the two `istream_iterator`s: the iterator is at the
end of the stream when the stream has failed; otherwise it reads into the value it
holds with the `operator>>` of the element type, `read`, and when the stream has not
failed after that, the value is pushed onto `c`.  `fuel` bounds the number of
reads. -/
def load_from_loop {S α : Type} (read : S → α → α × S) (fail : S → Bool) :
    Nat → S → α → List α → Option (List α)
  | 0, _, _, _ => none
  | fuel + 1, iFile, value, c =>
    if fail iFile then some c
    else
      let x := read iFile value
      if fail x.2 then some c
      else load_from_loop read fail fuel x.2 x.1 (c ++ [x.1])

/-- The function `load_from(c, filename)`: `c` is cleared when it is not empty, then
filled from the stream `iFile` opened on the file. -/
def load_from {S α : Type} [Inhabited α] (read : S → α → α × S) (fail : S → Bool)
    (fuel : Nat) (c : List α) (iFile : S) : Option (List α) :=
  let c1 := if !c.isEmpty then [] else c
  load_from_loop read fail fuel iFile default c1

/-! ### Binary mode -/

/-- The state of a binary input stream over a file that was written as a sequence of
memory images of values of `α`: the images not yet read, and whether the stream has
failed. -/
structure ImageStream (α : Type) where
  images : List α
  failed : Bool
deriving DecidableEq, Repr

/-- The binary branch of `operator<< (ostream&, const Correlations<Real>&)`:
`out.write((char *)(&c), sizeof(Correlations<Real>))`, one memory image. -/
def Correlations.write_binary {K : Type} (c : Correlations K) : List (Correlations K) :=
  [c]

/-- The binary branch of `operator>> (istream&, Correlations<Real>&)`:
`in.read((char *)(&c), sizeof(Correlations<Real>))` fills `c` with the next image and
fails, leaving `c`, when the stream has failed or no image is left. -/
def Correlations.read_binary {K : Type} (s : ImageStream (Correlations K))
    (c : Correlations K) : Correlations K × ImageStream (Correlations K) :=
  if s.failed then (c, s)
  else match s.images with
    | [] => (c, { s with failed := true })
    | image :: rest => (image, { s with images := rest })

/-! ### Text mode, token by token -/

/-- The state of a text input stream over a file of characters: the characters not
yet read, and whether the stream has failed. -/
structure CharStream where
  chars : List Char
  failed : Bool
deriving DecidableEq, Repr

/-- The white space skipped before an extraction. -/
def skip_space (l : List Char) : List Char := l.dropWhile Char.isWhitespace

/-- The digits of an exponent: the value so far, whether a digit was seen, and the
characters left. -/
def scan_digits : List Char → Nat → Bool → Nat × Bool × List Char
  | [], n, seen => (n, seen, [])
  | c :: cs, n, seen =>
    if c.isDigit then scan_digits cs (10 * n + (c.toNat - 48)) true
    else (n, seen, c :: cs)

/-- The result of scanning a numeral: the digits of the mantissa as a number, how
many of them follow the decimal point, whether a digit of the mantissa was seen,
whether an exponent was begun, the sign, value and presence of the digits of the
exponent, and the characters left. -/
structure FloatScan where
  mantissa : Nat
  fraction_digits : Nat
  seen_mantissa : Bool
  seen_exponent : Bool
  exponent_negative : Bool
  exponent : Nat
  seen_exponent_digit : Bool
  rest : List Char
deriving DecidableEq, Repr

/-- The exponent of a numeral, after its `e`: an optional sign, then digits. -/
def scan_exponent (m f : Nat) : List Char → FloatScan
  | [] => ⟨m, f, true, true, false, 0, false, []⟩
  | c :: cs =>
    if c = '-' then
      ⟨m, f, true, true, true, (scan_digits cs 0 false).1, (scan_digits cs 0 false).2.1,
        (scan_digits cs 0 false).2.2⟩
    else if c = '+' then
      ⟨m, f, true, true, false, (scan_digits cs 0 false).1, (scan_digits cs 0 false).2.1,
        (scan_digits cs 0 false).2.2⟩
    else
      ⟨m, f, true, true, false, (scan_digits (c :: cs) 0 false).1,
        (scan_digits (c :: cs) 0 false).2.1, (scan_digits (c :: cs) 0 false).2.2⟩

/-- The mantissa of a numeral: digits, with one decimal point at most, up to an `e`
that follows a digit, or up to the first character that fits nowhere.  The characters
read are consumed whether or not they make up a numeral. -/
def scan_mantissa : List Char → Nat → Nat → Bool → Bool → FloatScan
  | [], m, f, seen, _ => ⟨m, f, seen, false, false, 0, false, []⟩
  | c :: cs, m, f, seen, point =>
    if c.isDigit then
      scan_mantissa cs (10 * m + (c.toNat - 48)) (if point then f + 1 else f) true point
    else if c = '.' ∧ point = false then scan_mantissa cs m f seen true
    else if (c = 'e' ∨ c = 'E') ∧ seen = true then scan_exponent m f cs
    else ⟨m, f, seen, false, false, 0, false, c :: cs⟩

/-- The value of a scanned numeral, when the characters read make up a numeral: a
mantissa with a digit, and a digit in the exponent when one was begun. -/
def FloatScan.value (K : Type) [Field K] (negative : Bool) (x : FloatScan) : Option K :=
  if x.seen_mantissa = true ∧ (x.seen_exponent = true → x.seen_exponent_digit = true) then
    some ((if negative then -1 else 1) * (x.mantissa : K) *
      10 ^ ((if x.exponent_negative then -(x.exponent : Int) else (x.exponent : Int))
        - (x.fraction_digits : Int)))
  else none

/-- The extraction of a floating-point number by the standard library: white space is
skipped, then a sign and the characters of a numeral are consumed as far as they go;
the extraction fails when the end of the file is reached first or the characters
consumed are not a numeral.  Magnitudes beyond the range of `T` are not modelled. -/
def extract_float (K : Type) [Field K] (s : CharStream) : K × CharStream :=
  if s.failed then (0, s)
  else match skip_space s.chars with
    | [] => (0, { chars := [], failed := true })
    | c :: cs =>
      let negative := decide (c = '-')
      let x := if c = '-' ∨ c = '+' then scan_mantissa cs 0 0 false false
               else scan_mantissa (c :: cs) 0 0 false false
      match x.value K negative with
      | some v => (v, { chars := x.rest, failed := false })
      | none => (0, { chars := x.rest, failed := true })

/-- The extraction of a `std::string`: white space is skipped, then the characters up
to the next white space are consumed; the extraction fails when there are none. -/
def extract_word (s : CharStream) : CharStream :=
  if s.failed then s
  else match skip_space s.chars with
    | [] => { chars := [], failed := true }
    | c :: cs => { chars := (c :: cs).dropWhile (fun d => !d.isWhitespace), failed := false }

/-- The text input operations on a file of characters. -/
def char_stream (K : Type) [Field K] : TextIstream CharStream K where
  fail := fun s => s.failed
  clear := fun s => { s with failed := false }
  extract_number := extract_float K
  extract_string := extract_word

/-- Successive reads of `count` values of `RealType` from a text stream. -/
def RealType.read_text_values {S K : Type} (io : TextIstream S K) :
    Nat → S → List (RealType K)
  | 0, _ => []
  | count + 1, s => (RealType.read_text io s).1
      :: RealType.read_text_values io count (RealType.read_text io s).2

/-! ## correlations.h : the significance predicate -/

/-- Primitive comparison `a <= b` of `T`: false when an operand is NaN. -/
def RealType.prim_le {K : Type} [LinearOrderedField K] : RealType K → RealType K → Bool
  | RealType.num a, RealType.num b => decide (a ≤ b)
  | _, _ => false

namespace Correlations

variable {K : Type} [LinearOrderedField K]

/-- The constant `ten_day_min_r = Real(0.8)`. -/
def ten_day_min_r : RealType K := RealType.num (8 / 10)

/-- The constant `fifty_day_min_r = Real(0.4)`. -/
def fifty_day_min_r : RealType K := RealType.num (4 / 10)

/-- The method `nday_correlated(value, min_value)`:
`(Real::is_valid(value)) && (min_value <= abs(value))`. -/
def nday_correlated (value min_value : RealType K) : Bool :=
  RealType.is_valid value && RealType.prim_le min_value (RealType.prim_abs value)

/-- The method `ten_day_correlated()`. -/
def ten_day_correlated (c : Correlations K) : Bool :=
  nday_correlated c.ten_day ten_day_min_r

/-- The method `fifty_day_correlated()`. -/
def fifty_day_correlated (c : Correlations K) : Bool :=
  nday_correlated c.fifty_day fifty_day_min_r

end Correlations

/-! ## source_data.h and date_index.h : the binary form of the records -/

/-- The object representation of the values of a type: `size` is `sizeof`, `bytes x`
are the bytes that `out.write((char *)(&x), sizeof(x))` sends, and `value` is the
value of an object whose memory holds the given bytes.  A byte is a natural number. -/
structure ObjectRep (α : Type) where
  size : Nat
  bytes : α → List Nat
  value : List Nat → α

/-- The state of a binary input stream: the bytes not yet read, and whether the
stream has failed. -/
structure ByteStream where
  bytes : List Nat
  failed : Bool
deriving DecidableEq, Repr

/-- The call `in.read((char *)(&x), sizeof(x))`: nothing happens on a failed stream;
when `sizeof(x)` bytes are left they are copied into `x`; otherwise the bytes left
are copied over the first bytes of `x` and the stream fails. -/
def istream_read {α : Type} (rep : ObjectRep α) (s : ByteStream) (x : α) : α × ByteStream :=
  if s.failed then (x, s)
  else if rep.size ≤ s.bytes.length then
    (rep.value (s.bytes.take rep.size), { s with bytes := s.bytes.drop rep.size })
  else
    (rep.value (s.bytes ++ (rep.bytes x).drop s.bytes.length),
      { bytes := [], failed := true })

/-- The function `NDayType<Real, N>::Size()`: `(N + 2) * sizeof(Real)`. -/
def NDayType.Size {K : Type} (rep : ObjectRep (RealType K)) (N : Nat) : Nat :=
  (N + 2) * rep.size

/-- The binary branch of `operator<< (ostream&, const NDayType<Real, N>&)`: the mean,
the residuals `0 .. N-1` and the root mean square are written, `sizeof(Real)` bytes
each. -/
def NDayType.write_binary {K : Type} {N : Nat} (rep : ObjectRep (RealType K))
    (nd : NDayType K N) : List Nat :=
  let out := rep.bytes nd.mean
  let out := (List.finRange N).foldl (fun o i => o ++ rep.bytes (nd.residual i)) out
  out ++ rep.bytes nd.root_mean_square

/-- The binary branch of `operator>> (istream&, NDayType<Real, N>&)`: the mean, the
residuals `0 .. N-1` and the root mean square are read, `sizeof(Real)` bytes each. -/
def NDayType.read_binary {K : Type} {N : Nat} (rep : ObjectRep (RealType K))
    (s : ByteStream) (nd : NDayType K N) : NDayType K N × ByteStream :=
  let m := istream_read rep s nd.mean
  let r := (List.finRange N).foldl
    (fun (st : (Fin N → RealType K) × ByteStream) i =>
      (Function.update st.1 i (istream_read rep st.2 (st.1 i)).1,
        (istream_read rep st.2 (st.1 i)).2))
    (nd.residual, m.2)
  let q := istream_read rep r.2 nd.root_mean_square
  ({ mean := m.1, residual := r.1, root_mean_square := q.1 }, q.2)

/-- The function `StatisticalData<Real>::Size()`:
`sizeof(Real) + TendMAType::Size() + FiftydMAType::Size()`. -/
def StatisticalData.Size {K : Type} (rep : ObjectRep (RealType K)) : Nat :=
  rep.size + NDayType.Size rep 10 + NDayType.Size rep 50

/-- The binary form of `operator<< (ostream&, const StatisticalData<Real>&)`: the
value, then `out << sd.fifty_day << sd.ten_day`. -/
def StatisticalData.write_binary {K : Type} (rep : ObjectRep (RealType K))
    (sd : StatisticalData K) : List Nat :=
  rep.bytes sd.value ++ NDayType.write_binary rep sd.fifty_day
    ++ NDayType.write_binary rep sd.ten_day

/-- The binary form of `operator>> (istream&, StatisticalData<Real>&)`: the value,
then `in >> sd.fifty_day >> sd.ten_day`. -/
def StatisticalData.read_binary {K : Type} (rep : ObjectRep (RealType K))
    (s : ByteStream) (sd : StatisticalData K) : StatisticalData K × ByteStream :=
  let v := istream_read rep s sd.value
  let f := NDayType.read_binary rep v.2 sd.fifty_day
  let t := NDayType.read_binary rep f.2 sd.ten_day
  ({ value := v.1, ten_day := t.1, fifty_day := f.1 }, t.2)

/-- The struct `DateIndexedType<Container>`: a date index (`int`) and a value. -/
structure DateIndexedType (C : Type) where
  index : Int
  value : C

/-- The default constructor `DateIndexedType() : index(0), value()`. -/
instance (C : Type) [Inhabited C] : Inhabited (DateIndexedType C) := ⟨⟨0, default⟩⟩

namespace DateIndexedType

variable {C : Type}

/-- The function `DateIndexedType<Container>::Size()`:
`sizeof(DateIndex::IndexType) + Container::Size()`; `value_size` is
`Container::Size()`. -/
def Size (int_rep : ObjectRep Int) (value_size : Nat) : Nat := int_rep.size + value_size

/-- The binary branch of `operator<< (ostream&, const DateIndexedType<C>&)`: the index
is written, then `out << a.value`, the operator `write_value` of `C`. -/
def write_binary (int_rep : ObjectRep Int) (write_value : C → List Nat)
    (a : DateIndexedType C) : List Nat :=
  int_rep.bytes a.index ++ write_value a.value

/-- The binary branch of `operator>> (istream&, DateIndexedType<C>&)`: the index is
read, then `in >> a.value`, the operator `read_value` of `C`. -/
def read_binary (int_rep : ObjectRep Int) (read_value : ByteStream → C → C × ByteStream)
    (s : ByteStream) (a : DateIndexedType C) : DateIndexedType C × ByteStream :=
  let i := istream_read int_rep s a.index
  let v := read_value i.2 a.value
  (⟨i.1, v.1⟩, v.2)

end DateIndexedType

/-- A number type of 255 values held in one byte: the byte 255 is the NaN. -/
def sample_real_rep : ObjectRep (RealType (Fin 255)) where
  size := 1
  bytes := fun t => match t with
    | RealType.num x => [x.val]
    | RealType.nan => [255]
  value := fun l => match l with
    | [b] => if h : b < 255 then RealType.num ⟨b, h⟩ else RealType.nan
    | _ => RealType.nan

/-- The `int` of 32 bits in two's complement, the low byte first. -/
def sample_int_rep : ObjectRep Int where
  size := 4
  bytes := fun i =>
    [(i % 4294967296).toNat % 256, (i % 4294967296).toNat / 256 % 256,
      (i % 4294967296).toNat / 65536 % 256, (i % 4294967296).toNat / 16777216 % 256]
  value := fun l => match l with
    | [b0, b1, b2, b3] =>
      if b0 + 256 * b1 + 65536 * b2 + 16777216 * b3 < 2147483648 then
        ((b0 + 256 * b1 + 65536 * b2 + 16777216 * b3 : Nat) : Int)
      else ((b0 + 256 * b1 + 65536 * b2 + 16777216 * b3 : Nat) : Int) - 4294967296
    | _ => 0

/-- A residual set over the one-byte numbers: mean 7, residuals `i`, and an invalid
root mean square. -/
def sample_byte_nd (N : Nat) (hN : N ≤ 255) : NDayType (Fin 255) N :=
  { mean := RealType.num 7,
    residual := fun i => RealType.num ⟨i.val, Nat.lt_of_lt_of_le i.isLt hN⟩,
    root_mean_square := RealType.nan }

/-- A record of statistical data over the one-byte numbers. -/
def sample_byte_sd : StatisticalData (Fin 255) :=
  { value := RealType.num 9, ten_day := sample_byte_nd 10 (by decide),
    fifty_day := sample_byte_nd 50 (by decide) }

/-! ## signals.h : Signal -/

/-- The struct `Signal<T>`: the vector `sample`. -/
structure Signal (T : Type) where
  sample : List T

namespace Signal

variable {T : Type}

/-- The constructor `Signal() : sample(DateIndex::interval())`: `interval()` samples,
each default-constructed. -/
def init (T : Type) [Inhabited T] : Signal T :=
  ⟨List.replicate DateIndex.interval.toNat default⟩

/-- The loop of `save_to` run for `i` from 0 below `n`: the record
`RecordType(i, sample[i])` is pushed when `T::is_valid(sample[i])`.  An index beyond
the vector, undefined in the source, is skipped. -/
def recording_loop (is_valid : T → Bool) (s : Signal T) (n : Nat) :
    List (DateIndexedType T) :=
  (List.range n).foldl
    (fun (record : List (DateIndexedType T)) (i : Nat) =>
      match s.sample[i]? with
      | some x => if is_valid x then record ++ [⟨Int.ofNat i, x⟩] else record
      | none => record)
    []

/-- The recording that `save_to` builds: the loop runs below `DateIndex::interval()`. -/
def recording (is_valid : T → Bool) (s : Signal T) : List (DateIndexedType T) :=
  recording_loop is_valid s DateIndex.interval.toNat

/-- The method `Signal::save_to(filename)`: the recording is handed to `::save_to`;
`write` is the `operator<<` of the records. -/
def save_to {χ : Type} (write : DateIndexedType T → List χ) (is_valid : T → Bool)
    (s : Signal T) : List χ :=
  Correlator.save_to write (recording is_valid s)

/-- The loop of `load_from`: `sample[r.index] = r.value` for every record in order.  A
negative index or one beyond the vector, undefined in the source, is skipped. -/
def assign (s : Signal T) (record : List (DateIndexedType T)) : Signal T :=
  record.foldl
    (fun s r => if 0 ≤ r.index then ⟨s.sample.set r.index.toNat r.value⟩ else s) s

/-- The method `Signal::load_from(filename)`: an empty recording is filled by
`::load_from` from the stream `iFile` opened on the file, then assigned; `read` is the
`operator>>` of the records. -/
def load_from {S : Type} [Inhabited T]
    (read : S → DateIndexedType T → DateIndexedType T × S) (fail : S → Bool) (fuel : Nat)
    (s : Signal T) (iFile : S) : Option (Signal T) :=
  (Correlator.load_from read fail fuel [] iFile).map (assign s)

/-- The signal that holds the valid samples of `s` at their indices and a
default-constructed sample at every other index below `interval()`. -/
def valid_part [Inhabited T] (is_valid : T → Bool) (s : Signal T) : Signal T :=
  ⟨(List.range DateIndex.interval.toNat).map
    (fun i => match s.sample[i]? with
      | some x => if is_valid x then x else default
      | none => default)⟩

end Signal

/-- A signal of numbers: sample `i` is `i / 2` for even `i` and invalid for odd
`i`. -/
def sample_signal : Signal (RealType ℚ) :=
  ⟨(List.range DateIndex.interval.toNat).map
    (fun (i : Nat) => if i % 2 = 0 then RealType.num ((i : ℚ) / 2) else RealType.nan)⟩

end Correlator

/-! # Theorems -/

namespace Correlator

/-! ## Triangular numbers -/

theorem tri_eq (k : Nat) : k * (k + 1) / 2 = tri k := by
  induction k with
  | zero => rfl
  | succ k ih =>
    have h : (k + 1) * (k + 1 + 1) = k * (k + 1) + 2 * (k + 1) := by ring
    rw [h, Nat.add_mul_div_left _ _ (by norm_num : 0 < 2), ih, tri]

theorem tri_pred (n : Nat) : n * (n - 1) / 2 = tri (n - 1) := by
  cases n with
  | zero => rfl
  | succ k => rw [Nat.add_sub_cancel, Nat.mul_comm, tri_eq]

theorem tri_two_mul (k : Nat) : 2 * tri k = k * (k + 1) := by
  induction k with
  | zero => rfl
  | succ k ih => rw [tri, Nat.mul_add, ih]; ring

theorem tri_mono {a b : Nat} (h : a ≤ b) : tri a ≤ tri b := by
  induction h with
  | refl => exact Nat.le_refl _
  | step _ ih => exact Nat.le_trans ih (Nat.le_add_right _ _)

theorem tri_succ_le {a b : Nat} (h : a < b) : tri a + (a + 1) ≤ tri b :=
  tri_mono (Nat.succ_le_of_lt h)

theorem lt_of_tri_lt {a b : Nat} (h : tri a < tri b) : a < b := by
  by_contra hc
  exact absurd (tri_mono (Nat.le_of_not_lt hc)) (Nat.not_le_of_gt h)

/-- A number has at most one decomposition `tri r + c` with `c ≤ r`. -/
theorem tri_decomp_unique {r c s d : Nat} (hc : c ≤ r) (hd : d ≤ s)
    (h : tri r + c = tri s + d) : r = s ∧ c = d := by
  have hrs : r = s := by
    rcases Nat.lt_trichotomy r s with hlt | heq | hgt
    · have := tri_succ_le hlt; omega
    · exact heq
    · have := tri_succ_le hgt; omega
  subst hrs
  exact ⟨rfl, by omega⟩

/-- Every number has a decomposition `tri r + c` with `c ≤ r`. -/
theorem tri_decomp_exists (i : Nat) : ∃ r c, c ≤ r ∧ tri r + c = i := by
  induction i with
  | zero => exact ⟨0, 0, Nat.le_refl _, rfl⟩
  | succ i ih =>
    obtain ⟨r, c, hc, h⟩ := ih
    by_cases hcr : c = r
    · exact ⟨r + 1, 0, Nat.zero_le _, by rw [tri]; omega⟩
    · exact ⟨r, c + 1, by omega, by omega⟩

theorem UINT_MOD_eq : UINT_MOD = 4294967296 := rfl

theorem usub_one {a : Nat} (h1 : 1 ≤ a) (h2 : a < UINT_MOD) : usub a 1 = a - 1 := by
  unfold usub
  rw [UINT_MOD_eq] at *
  omega

/-- Below 65536 the 32-bit product does not wrap and the source computes the
triangular number. -/
theorem sum_first_n_numbers_exact {n : Nat} (h : n < 65536) :
    sum_first_n_numbers n = tri n := by
  have h1 : (n + 1) % UINT_MOD = n + 1 := Nat.mod_eq_of_lt (by rw [UINT_MOD_eq]; omega)
  have h2 : (n + 1) * n < UINT_MOD := by
    rw [UINT_MOD_eq]
    calc (n + 1) * n ≤ 65536 * 65535 := Nat.mul_le_mul (by omega) (by omega)
      _ < 4294967296 := by norm_num
  simp only [sum_first_n_numbers, h1, Nat.mod_eq_of_lt h2, Nat.shiftRight_eq_div_pow, pow_one]
  rw [Nat.mul_comm, tri_eq]


/-! ## The dispatch cursor -/

theorem get_next_element_slice {α : Type} (m : CrossCorrelation α) :
    (CrossCorrelation.get_next_element m).2.slice = m.slice := rfl

theorem after_calls_slice {α : Type} (m : CrossCorrelation α) (k : Nat) :
    (CrossCorrelation.after_calls m k).slice = m.slice := by
  induction k with
  | zero => rfl
  | succ k ih => rw [CrossCorrelation.after_calls, get_next_element_slice, ih]

/-- One step of the cursor from `(r + 1, c)` with `c < r`: the column advances. -/
theorem get_next_element_same_row {α : Type} (m : CrossCorrelation α) (r c i : Nat)
    (hq : m.queued_element = ⟨⟨r + 1, c⟩, i⟩) (hc : c < r) (hr : r + 1 < UINT_MOD) :
    (CrossCorrelation.get_next_element m).2.queued_element =
      ⟨⟨r + 1, c + 1⟩, (i + 1) % UINT_MOD⟩ := by
  have h1 : (c + 1) % UINT_MOD = c + 1 := Nat.mod_eq_of_lt (by omega)
  have h3 : (c + 1) % (r + 1) = c + 1 := Nat.mod_eq_of_lt (by omega)
  simp [CrossCorrelation.get_next_element, hq, h1, h3]

/-- One step of the cursor from `(r + 1, r)`: the column wraps to 0 and the row
advances. -/
theorem get_next_element_next_row {α : Type} (m : CrossCorrelation α) (r i : Nat)
    (hq : m.queued_element = ⟨⟨r + 1, r⟩, i⟩) (hr : r + 2 < UINT_MOD) :
    (CrossCorrelation.get_next_element m).2.queued_element =
      ⟨⟨r + 2, 0⟩, (i + 1) % UINT_MOD⟩ := by
  have h1 : (r + 1) % UINT_MOD = r + 1 := Nat.mod_eq_of_lt (by omega)
  have h2 : (r + 1 + 1) % UINT_MOD = r + 2 := Nat.mod_eq_of_lt (by omega)
  simp [CrossCorrelation.get_next_element, hq, h1, h2]

/-- Closed form of the cursor after `k` calls from a reset cursor: it is
`(r + 1, c, k mod 2^32)` where `k = tri r + c` and `c ≤ r`. -/
theorem after_calls_cursor {α : Type} (m : CrossCorrelation α)
    (hq : m.queued_element = ⟨⟨1, 0⟩, 0⟩) (k : Nat) (hk : k < tri (UINT_MOD - 1)) :
    ∃ r c, c ≤ r ∧ tri r + c = k ∧
      (CrossCorrelation.after_calls m k).queued_element =
        ⟨⟨r + 1, c⟩, k % UINT_MOD⟩ := by
  induction k with
  | zero => exact ⟨0, 0, Nat.le_refl _, rfl, by rw [CrossCorrelation.after_calls, hq]; rfl⟩
  | succ k ih =>
    obtain ⟨r, c, hc, hk1, hst⟩ := ih (by omega)
    have hlt : tri r < tri (UINT_MOD - 1) := by omega
    have hr : r < UINT_MOD - 1 := lt_of_tri_lt hlt
    have hM := UINT_MOD_eq
    by_cases hcr : c = r
    · have hk2 : tri (r + 1) + 0 = k + 1 := by rw [tri]; omega
      have hlt2 : tri (r + 1) < tri (UINT_MOD - 1) := by omega
      have hr2 : r + 1 < UINT_MOD - 1 := lt_of_tri_lt hlt2
      refine ⟨r + 1, 0, Nat.zero_le _, hk2, ?_⟩
      subst hcr
      rw [CrossCorrelation.after_calls, get_next_element_next_row _ c _ hst (by omega)]
      simp
    · refine ⟨r, c + 1, by omega, by omega, ?_⟩
      rw [CrossCorrelation.after_calls,
        get_next_element_same_row _ r c _ hst (by omega) (by omega)]
      simp

/-- What call number `k` returns, from a reset cursor. -/
theorem nth_call_closed {α : Type} (m : CrossCorrelation α)
    (hq : m.queued_element = ⟨⟨1, 0⟩, 0⟩) (k : Nat) (hk : k < tri (UINT_MOD - 1)) :
    ∃ r c, c ≤ r ∧ tri r + c = k ∧
      CrossCorrelation.nth_call m k =
        (decide (m.slice.length > k % UINT_MOD), ⟨⟨r + 1, c⟩, k % UINT_MOD⟩) := by
  obtain ⟨r, c, hc, hk1, hst⟩ := after_calls_cursor m hq k hk
  refine ⟨r, c, hc, hk1, ?_⟩
  simp only [CrossCorrelation.nth_call, CrossCorrelation.get_next_element, hst,
    after_calls_slice]

theorem tri_UINT_bound : 8589934592 < tri (UINT_MOD - 1) := by
  rw [← tri_eq, UINT_MOD_eq]; norm_num


/-! ## size_for -/

theorem vector_resize_length {α : Type} (l : List α) (k : Nat) (d : α) :
    (vector_resize l k d).length = k := by
  simp only [vector_resize, List.length_append, List.length_take, List.length_replicate]
  omega

theorem size_for_length {α : Type} [Inhabited α] (m : CrossCorrelation α) (n : Nat) :
    (m.size_for n).slice.length = sum_first_n_numbers (usub n 1) :=
  vector_resize_length _ _ _

theorem size_for_cursor {α : Type} [Inhabited α] (m : CrossCorrelation α) (n : Nat) :
    (m.size_for n).queued_element = ⟨⟨1, 0⟩, 0⟩ := rfl

/-- Up to 65536 elements the store gets `tri (n - 1)` cells. -/
theorem size_for_length_exact {α : Type} [Inhabited α] (m : CrossCorrelation α) {n : Nat}
    (h1 : 1 ≤ n) (h : n ≤ 65536) : (m.size_for n).slice.length = tri (n - 1) := by
  rw [size_for_length, usub_one h1 (by rw [UINT_MOD_eq]; omega),
    sum_first_n_numbers_exact (by omega)]

/-- The index computed by `at` is exact for rows up to 65536. -/
theorem at_rc_index_exact {rc : RowColPair} (h1 : 1 ≤ rc.row) (h : rc.row ≤ 65536)
    (hc : rc.col < rc.row) : at_rc_index rc = tri (rc.row - 1) + rc.col := by
  have hb : tri (rc.row - 1) ≤ tri 65535 := tri_mono (by omega)
  have h65 : tri 65535 = 2147450880 := by rw [← tri_eq]
  rw [at_rc_index, usub_one h1 (by rw [UINT_MOD_eq]; omega),
    sum_first_n_numbers_exact (by omega)]
  exact Nat.mod_eq_of_lt (by rw [UINT_MOD_eq]; omega)


theorem tri_UINT_lt : UINT_MOD ≤ tri (UINT_MOD - 1) := by
  rw [← tri_eq, UINT_MOD_eq]; norm_num

/-- What call number `k < 2^32` returns, from a reset cursor. -/
theorem nth_call_small {α : Type} (m : CrossCorrelation α)
    (hq : m.queued_element = ⟨⟨1, 0⟩, 0⟩) (k : Nat) (hk : k < UINT_MOD) :
    ∃ r c, c ≤ r ∧ tri r + c = k ∧
      CrossCorrelation.nth_call m k = (decide (m.slice.length > k), ⟨⟨r + 1, c⟩, k⟩) := by
  obtain ⟨r, c, hc, hk1, hst⟩ :=
    nth_call_closed m hq k (Nat.lt_of_lt_of_le hk tri_UINT_lt)
  rw [Nat.mod_eq_of_lt hk] at hst
  exact ⟨r, c, hc, hk1, hst⟩

theorem tri_le_of_le_65536 {n : Nat} (h : n ≤ 65536) : tri (n - 1) < UINT_MOD := by
  have hb : tri (n - 1) ≤ tri 65535 := tri_mono (by omega)
  have h65 : tri 65535 = 2147450880 := by rw [← tri_eq]
  rw [UINT_MOD_eq]; omega

/-- The store made by `size_for(65537)` has 32768 cells: `65537 * 65536` wraps to
65536 in 32 bits. -/
theorem size_for_65537_length {α : Type} [Inhabited α] (m : CrossCorrelation α) :
    (m.size_for 65537).slice.length = 32768 := by
  rw [size_for_length]; rfl

theorem fresh_length (n : Nat) :
    (fresh n).slice.length = sum_first_n_numbers (usub n 1) :=
  size_for_length _ n

theorem fresh_65537_length : (fresh 65537).slice.length = 32768 :=
  size_for_65537_length _

/-- C3 (amended): for `2 ≤ n ≤ 65536`, after `size_for(n)` the flat store holds exactly
`n(n-1)/2` cells and the dispatch cursor is `(row = 1, col = 0, linear_index = 0)`,
whatever the store and the cursor were before the call. -/
theorem size_for_resets {α : Type} [Inhabited α] (m : CrossCorrelation α) (n : Nat)
    (h2 : 2 ≤ n) (h : n ≤ 65536) :
    (m.size_for n).slice.length = n * (n - 1) / 2 ∧
    (m.size_for n).queued_element = ⟨⟨1, 0⟩, 0⟩ := by
  refine ⟨?_, rfl⟩
  rw [size_for_length_exact m (by omega) h, tri_pred]

/-- C3 at `n = 4`, on a two-cell store with a stale cursor `(7, 3, 24)`. -/
theorem size_for_resets_witness :
    (2 ≤ 4 ∧ 4 ≤ 65536) ∧
    ((({ slice := [default, default], queued_element := ⟨⟨7, 3⟩, 24⟩ } :
        CrossCorrelation (Correlations ℚ)).size_for 4).slice.length = 4 * (4 - 1) / 2 ∧
     (({ slice := [default, default], queued_element := ⟨⟨7, 3⟩, 24⟩ } :
        CrossCorrelation (Correlations ℚ)).size_for 4).queued_element = ⟨⟨1, 0⟩, 0⟩) :=
  ⟨by decide, size_for_resets _ 4 (by decide) (by decide)⟩

/-- C3 (as stated) fails at `n = 65537`: the 32-bit product `65537 * 65536` wraps,
`size_for(65537)` leaves 32768 cells and not `65537 * 65536 / 2 = 2147516416`. -/
theorem size_for_65537_wraps :
    (fresh 65537).slice.length = 32768 ∧
    (fresh 65537).slice.length
      ≠ 65537 * (65537 - 1) / 2 :=
  ⟨fresh_65537_length, by rw [fresh_65537_length]; decide⟩


/-- C2 (amended): for `2 ≤ n ≤ 65537` the index computed by `at(row, col)` is
`row(row-1)/2 + col` on the valid coordinates, is injective there, and its image is
exactly the interval `[0, n(n-1)/2)`; for `n ≤ 65536` that interval is the index range of
the store made by `size_for(n)`. -/
theorem at_rc_index_bijective (n : Nat) (h2 : 2 ≤ n) (h : n ≤ 65537) :
    (∀ rc, valid_rc n rc →
      at_rc_index rc = rc.row * (rc.row - 1) / 2 + rc.col ∧
      at_rc_index rc < n * (n - 1) / 2) ∧
    (∀ rc1 rc2, valid_rc n rc1 → valid_rc n rc2 →
      at_rc_index rc1 = at_rc_index rc2 → rc1 = rc2) ∧
    (∀ i, i < n * (n - 1) / 2 → ∃ rc, valid_rc n rc ∧ at_rc_index rc = i) ∧
    (n ≤ 65536 → ∀ m : CrossCorrelation (Correlations ℚ),
      (m.size_for n).slice.length = n * (n - 1) / 2) := by
  have hidx : ∀ rc, valid_rc n rc → at_rc_index rc = tri (rc.row - 1) + rc.col :=
    fun rc hv => at_rc_index_exact hv.1 (by have := hv.2.1; omega) hv.2.2
  refine ⟨?_, ?_, ?_, ?_⟩
  · intro rc hv
    obtain ⟨hr1, hrn, hcr⟩ := hv
    rw [hidx rc ⟨hr1, hrn, hcr⟩, tri_pred, tri_pred]
    refine ⟨rfl, ?_⟩
    have := tri_succ_le (show rc.row - 1 < n - 1 by omega)
    omega
  · intro rc1 rc2 hv1 hv2 heq
    rw [hidx rc1 hv1, hidx rc2 hv2] at heq
    obtain ⟨hr1, _, hc1⟩ := hv1
    obtain ⟨hr2, _, hc2⟩ := hv2
    obtain ⟨hr, hc⟩ := tri_decomp_unique (by omega) (by omega) heq
    cases rc1; cases rc2
    simp only [RowColPair.mk.injEq]
    simp only at hr hc hr1 hr2
    exact ⟨by omega, hc⟩
  · intro i hi
    rw [tri_pred] at hi
    obtain ⟨r, c, hc, hrc⟩ := tri_decomp_exists i
    have hrn : r < n - 1 := by
      by_contra hge
      have := tri_mono (Nat.le_of_not_lt hge)
      omega
    have hv : valid_rc n ⟨r + 1, c⟩ := ⟨by simp, by simp; omega, by simp; omega⟩
    exact ⟨⟨r + 1, c⟩, hv, by rw [hidx _ hv]; simpa using hrc⟩
  · intro hn m
    rw [size_for_length_exact m (by omega) hn, tri_pred]

/-- C2 at `n = 4`. -/
theorem at_rc_index_bijective_witness :
    (2 ≤ 4 ∧ 4 ≤ 65537) ∧
    (∀ rc, valid_rc 4 rc →
      at_rc_index rc = rc.row * (rc.row - 1) / 2 + rc.col ∧
      at_rc_index rc < 4 * (4 - 1) / 2) ∧
    (∀ rc1 rc2, valid_rc 4 rc1 → valid_rc 4 rc2 →
      at_rc_index rc1 = at_rc_index rc2 → rc1 = rc2) ∧
    (∀ i, i < 4 * (4 - 1) / 2 → ∃ rc, valid_rc 4 rc ∧ at_rc_index rc = i) ∧
    (4 ≤ 65536 → ∀ m : CrossCorrelation (Correlations ℚ),
      (m.size_for 4).slice.length = 4 * (4 - 1) / 2) :=
  ⟨by decide, at_rc_index_bijective 4 (by decide) (by decide)⟩

/-- C2 (as stated) fails at `n = 65538`: the valid coordinates `(65537, 0)` and
`(256, 128)` get the same index 32768, because `65537 * 65536` wraps in 32 bits. -/
theorem at_rc_index_collision :
    valid_rc 65538 ⟨65537, 0⟩ ∧ valid_rc 65538 ⟨256, 128⟩ ∧
    at_rc_index ⟨65537, 0⟩ = 32768 ∧ at_rc_index ⟨256, 128⟩ = 32768 ∧
    (⟨65537, 0⟩ : RowColPair) ≠ ⟨256, 128⟩ ∧
    at_rc_index ⟨65537, 0⟩ ≠ 65537 * (65537 - 1) / 2 + 0 := by
  refine ⟨by decide, by decide, rfl, rfl, by decide, ?_⟩
  rw [show at_rc_index ⟨65537, 0⟩ = 32768 from rfl]
  decide


/-- C1 (amended): for `2 ≤ n ≤ 65536`, from a matrix freshly sized with `size_for(n)`,
`n(n-1)/2` successive calls of `get_next_element` all return true, and the coordinates
they return are pairwise distinct and are exactly the pairs with `1 ≤ row < n` and
`0 ≤ col < row`. -/
theorem get_next_element_visits_all {α : Type} [Inhabited α] (m : CrossCorrelation α)
    (n : Nat) (h2 : 2 ≤ n) (h : n ≤ 65536) :
    ((m.size_for n).first_calls (n * (n - 1) / 2)).length = n * (n - 1) / 2 ∧
    (∀ x ∈ (m.size_for n).first_calls (n * (n - 1) / 2), x.1 = true) ∧
    (((m.size_for n).first_calls (n * (n - 1) / 2)).map (fun x => x.2.rc)).Nodup ∧
    (∀ rc, rc ∈ ((m.size_for n).first_calls (n * (n - 1) / 2)).map (fun x => x.2.rc)
      ↔ valid_rc n rc) := by
  have hlen : (m.size_for n).slice.length = tri (n - 1) :=
    size_for_length_exact m (by omega) h
  have hL : tri (n - 1) < UINT_MOD := tri_le_of_le_65536 h
  have hcall : ∀ k, k < tri (n - 1) → ∃ r c, c ≤ r ∧ tri r + c = k ∧
      CrossCorrelation.nth_call (m.size_for n) k = (true, ⟨⟨r + 1, c⟩, k⟩) := by
    intro k hk
    obtain ⟨r, c, hc, hk1, hst⟩ :=
      nth_call_small (m.size_for n) rfl k (Nat.lt_trans hk hL)
    refine ⟨r, c, hc, hk1, ?_⟩
    rw [hst, hlen]
    simp [hk]
  rw [tri_pred]
  refine ⟨by simp [CrossCorrelation.first_calls], ?_, ?_, ?_⟩
  · intro x hx
    simp only [CrossCorrelation.first_calls, List.mem_map, List.mem_range] at hx
    obtain ⟨k, hk, rfl⟩ := hx
    obtain ⟨r, c, _, _, hst⟩ := hcall k hk
    rw [hst]
  · simp only [CrossCorrelation.first_calls, List.map_map]
    refine List.Nodup.map_on ?_ (List.nodup_range _)
    intro j hj k hk hjk
    rw [List.mem_range] at hj hk
    obtain ⟨r, c, hc, hj1, hstj⟩ := hcall j hj
    obtain ⟨s, d, hd, hk1, hstk⟩ := hcall k hk
    simp only [Function.comp, hstj, hstk, RowColPair.mk.injEq] at hjk
    obtain ⟨hrs, hcd⟩ := hjk
    have hrs2 : r = s := by omega
    rw [← hj1, ← hk1, hrs2, hcd]
  · intro rc
    simp only [CrossCorrelation.first_calls, List.map_map, List.mem_map, List.mem_range,
      Function.comp]
    constructor
    · rintro ⟨k, hk, rfl⟩
      obtain ⟨r, c, hc, hk1, hst⟩ := hcall k hk
      rw [hst]
      have hrn : r < n - 1 := by
        by_contra hge
        have := tri_mono (Nat.le_of_not_lt hge)
        omega
      exact ⟨by simp, by simp; omega, by simp; omega⟩
    · rintro ⟨hr1, hrn, hcr⟩
      have hlt : tri (rc.row - 1) + rc.col < tri (n - 1) := by
        have := tri_succ_le (show rc.row - 1 < n - 1 by omega)
        omega
      obtain ⟨r, c, hc, hk1, hst⟩ := hcall _ hlt
      obtain ⟨hr, hcc⟩ := tri_decomp_unique hc (show rc.col ≤ rc.row - 1 by omega) hk1
      refine ⟨_, hlt, ?_⟩
      rw [hst]
      cases rc
      simp only [RowColPair.mk.injEq] at *
      exact ⟨by omega, hcc⟩

/-- C1 at `n = 3`, from a default-constructed matrix. -/
theorem get_next_element_visits_all_witness :
    (2 ≤ 3 ∧ 3 ≤ 65536) ∧
    ((fresh 3).first_calls
        (3 * (3 - 1) / 2)).length = 3 * (3 - 1) / 2 ∧
    (∀ x ∈ (fresh 3).first_calls
        (3 * (3 - 1) / 2), x.1 = true) ∧
    (((fresh 3).first_calls
        (3 * (3 - 1) / 2)).map (fun x => x.2.rc)).Nodup ∧
    (∀ rc, rc ∈ ((fresh 3).first_calls
        (3 * (3 - 1) / 2)).map (fun x => x.2.rc) ↔ valid_rc 3 rc) :=
  ⟨by decide, get_next_element_visits_all _ 3 (by decide) (by decide)⟩

/-- C1 (as stated) fails at `n = 65537`: `size_for(65537)` leaves 32768 cells, so among
the first `65537 * 65536 / 2` calls the one numbered 32768 returns false. -/
theorem get_next_element_65537_exhausted :
    32768 < 65537 * (65537 - 1) / 2 ∧
    ((fresh 65537).nth_call 32768).1 = false ∧
    ¬ (∀ x ∈ (fresh 65537).first_calls
        (65537 * (65537 - 1) / 2), x.1 = true) := by
  have hcall : ((fresh 65537).nth_call
      32768).1 = false := by
    obtain ⟨r, c, _, _, hst⟩ :=
      nth_call_small (fresh 65537) rfl 32768
        (by rw [UINT_MOD_eq]; decide)
    rw [hst, fresh_65537_length]
    simp
  refine ⟨by decide, hcall, ?_⟩
  intro hall
  have hmem : (fresh 65537).nth_call 32768 ∈
      (fresh 65537).first_calls
        (65537 * (65537 - 1) / 2) := by
    simp only [CrossCorrelation.first_calls, List.mem_map, List.mem_range]
    exact ⟨32768, by decide, rfl⟩
  rw [hall _ hmem] at hcall
  exact Bool.noConfusion hcall


/-- What the call numbered `tri r + c` returns, from a reset cursor. -/
theorem nth_call_of_decomp {α : Type} (m : CrossCorrelation α)
    (hq : m.queued_element = ⟨⟨1, 0⟩, 0⟩) (r c : Nat) (hc : c ≤ r)
    (hk : tri r + c < UINT_MOD) :
    CrossCorrelation.nth_call m (tri r + c) =
      (decide (m.slice.length > tri r + c), ⟨⟨r + 1, c⟩, tri r + c⟩) := by
  obtain ⟨s, d, hd, hk1, hst⟩ := nth_call_small m hq (tri r + c) hk
  obtain ⟨hs, hdc⟩ := tri_decomp_unique hd hc hk1
  rw [hst, hs, hdc]

/-- C4 (amended): from a matrix freshly sized by `size_for`, of length `L`, for every
`k < 2^32` the call of `get_next_element` numbered `k` returns the pre-advance element,
whose linear index is `k` and whose coordinate satisfies `row(row-1)/2 + col = k` with
`col < row`, and returns true if and only if `k < L`; so among these calls the linear
indices strictly increase and a call after one that returned false returns false.  For
`n = 4` the six elements returned with true are (1,0),(2,0),(2,1),(3,0),(3,1),(3,2) at
indices 0..5 and the seventh call returns false. -/
theorem get_next_element_sequence {α : Type} [Inhabited α] (m : CrossCorrelation α)
    (n k : Nat) (hk : k < UINT_MOD) :
    ((m.size_for n).nth_call k).2 = ((m.size_for n).after_calls k).queued_element ∧
    ((m.size_for n).nth_call k).2.index = k ∧
    (((m.size_for n).nth_call k).2.rc.col < ((m.size_for n).nth_call k).2.rc.row ∧
      ((m.size_for n).nth_call k).2.rc.row * (((m.size_for n).nth_call k).2.rc.row - 1) / 2
        + ((m.size_for n).nth_call k).2.rc.col = k) ∧
    (((m.size_for n).nth_call k).1 = true ↔ k < (m.size_for n).slice.length) ∧
    (∀ j, j < k →
      ((m.size_for n).nth_call j).2.index < ((m.size_for n).nth_call k).2.index) ∧
    (∀ j, j ≤ k → ((m.size_for n).nth_call j).1 = false →
      ((m.size_for n).nth_call k).1 = false) ∧
    (m.size_for 4).first_calls 7 =
      [(true, ⟨⟨1, 0⟩, 0⟩), (true, ⟨⟨2, 0⟩, 1⟩), (true, ⟨⟨2, 1⟩, 2⟩), (true, ⟨⟨3, 0⟩, 3⟩),
       (true, ⟨⟨3, 1⟩, 4⟩), (true, ⟨⟨3, 2⟩, 5⟩), (false, ⟨⟨4, 0⟩, 6⟩)] := by
  obtain ⟨r, c, hc, hk1, hst⟩ := nth_call_small (m.size_for n) rfl k hk
  refine ⟨rfl, by rw [hst], ?_, by rw [hst]; simp, ?_, ?_, ?_⟩
  · rw [hst]
    simp only [Nat.add_sub_cancel]
    refine ⟨by omega, ?_⟩
    rw [Nat.mul_comm, tri_eq, hk1]
  · intro j hj
    obtain ⟨_, _, _, _, hstj⟩ := nth_call_small (m.size_for n) rfl j (Nat.lt_trans hj hk)
    rw [hst, hstj]
    exact hj
  · intro j hj
    obtain ⟨_, _, _, _, hstj⟩ :=
      nth_call_small (m.size_for n) rfl j (Nat.lt_of_le_of_lt hj hk)
    rw [hst, hstj]
    simp only [decide_eq_false_iff_not, not_lt, gt_iff_lt]
    intro hL
    omega
  · have hlen : (m.size_for 4).slice.length = 6 := by rw [size_for_length]; rfl
    have hM := UINT_MOD_eq
    have h0 := nth_call_of_decomp (m.size_for 4) rfl 0 0 (by decide) (by rw [hM]; decide)
    have h1 := nth_call_of_decomp (m.size_for 4) rfl 1 0 (by decide) (by rw [hM]; decide)
    have h2 := nth_call_of_decomp (m.size_for 4) rfl 1 1 (by decide) (by rw [hM]; decide)
    have h3 := nth_call_of_decomp (m.size_for 4) rfl 2 0 (by decide) (by rw [hM]; decide)
    have h4 := nth_call_of_decomp (m.size_for 4) rfl 2 1 (by decide) (by rw [hM]; decide)
    have h5 := nth_call_of_decomp (m.size_for 4) rfl 2 2 (by decide) (by rw [hM]; decide)
    have h6 := nth_call_of_decomp (m.size_for 4) rfl 3 0 (by decide) (by rw [hM]; decide)
    rw [hlen] at h0 h1 h2 h3 h4 h5 h6
    simp only [tri, Nat.zero_add, Nat.add_zero, Nat.reduceAdd, gt_iff_lt, Nat.reduceLT,
      decide_True, decide_False, Nat.lt_irrefl] at h0 h1 h2 h3 h4 h5 h6
    simp only [CrossCorrelation.first_calls, List.range_succ, List.range_zero,
      List.nil_append, List.cons_append, List.map_cons, List.map_nil,
      h0, h1, h2, h3, h4, h5, h6]

/-- C4 at `n = 4`, `k = 5`, from a default-constructed matrix. -/
theorem get_next_element_sequence_witness :
    5 < UINT_MOD ∧
    (((fresh 4).nth_call 5).2 = ((fresh 4).after_calls 5).queued_element ∧
    ((fresh 4).nth_call 5).2.index = 5 ∧
    (((fresh 4).nth_call 5).2.rc.col < ((fresh 4).nth_call 5).2.rc.row ∧
      ((fresh 4).nth_call 5).2.rc.row * (((fresh 4).nth_call 5).2.rc.row - 1) / 2
        + ((fresh 4).nth_call 5).2.rc.col = 5) ∧
    (((fresh 4).nth_call 5).1 = true ↔ 5 < (fresh 4).slice.length) ∧
    (∀ j, j < 5 →
      ((fresh 4).nth_call j).2.index < ((fresh 4).nth_call 5).2.index) ∧
    (∀ j, j ≤ 5 → ((fresh 4).nth_call j).1 = false →
      ((fresh 4).nth_call 5).1 = false) ∧
    (fresh 4).first_calls 7 =
      [(true, ⟨⟨1, 0⟩, 0⟩), (true, ⟨⟨2, 0⟩, 1⟩), (true, ⟨⟨2, 1⟩, 2⟩), (true, ⟨⟨3, 0⟩, 3⟩),
       (true, ⟨⟨3, 1⟩, 4⟩), (true, ⟨⟨3, 2⟩, 5⟩), (false, ⟨⟨4, 0⟩, 6⟩)]) :=
  ⟨by rw [UINT_MOD_eq]; decide,
   get_next_element_sequence (CrossCorrelation.init (Correlations ℚ)) 4 5
     (by rw [UINT_MOD_eq]; decide)⟩

/-- C4 (as stated) fails at `k = 2^32`: on the matrix sized for `n = 2` (one cell) the
call numbered 1 returns false, yet the call numbered 4294967296 hands out linear index
0 again (the 32-bit `index` has wrapped) and returns true although `k ≥ L`. -/
theorem get_next_element_index_wraps :
    (fresh 2).slice.length = 1 ∧
    ((fresh 2).nth_call 1).1 = false ∧
    ((fresh 2).nth_call 4294967296).1 = true ∧
    ((fresh 2).nth_call 4294967296).2.index
      = 0 ∧
    ¬ (((fresh 2).nth_call 4294967296).1 = true
        ↔ 4294967296 < (fresh 2).slice.length)
    := by
  have hlen : (fresh 2).slice.length = 1 := by
    rw [fresh_length]; rfl
  have h1 : ((fresh 2).nth_call 1).1
      = false := by
    obtain ⟨_, _, _, _, hst⟩ :=
      nth_call_small (fresh 2) rfl 1
        (by rw [UINT_MOD_eq]; decide)
    rw [hst, hlen]; rfl
  obtain ⟨r, c, _, _, hst⟩ :=
    nth_call_closed (fresh 2) rfl 4294967296
      (Nat.lt_trans (by decide) tri_UINT_bound)
  have hmod : 4294967296 % UINT_MOD = 0 := rfl
  rw [hmod, hlen] at hst
  refine ⟨hlen, h1, by rw [hst]; rfl, by rw [hst], ?_⟩
  rw [hst, hlen]
  simp


/-! ## Bounds-checked access -/

theorem at_rc_ok {α : Type} (m : CrossCorrelation α) (rc : RowColPair)
    (hcol : rc.col < rc.row) (hlt : at_rc_index rc < m.slice.length) :
    m.at_rc rc = Except.ok (m.slice.get ⟨at_rc_index rc, hlt⟩) := by
  have hne : m.slice.isEmpty = false := by
    cases hs : m.slice with
    | nil => rw [hs] at hlt; simp at hlt
    | cons _ _ => rfl
  have h1 : ¬ rc.col ≥ rc.row := by omega
  have h2 : ¬ 0 = rc.row := by omega
  have h3 : ¬ m.slice.length ≤ at_rc_index rc := by omega
  simp only [CrossCorrelation.at_rc, hne, h1, h2, h3]
  simp

theorem at_rc_error_of_col {α : Type} (m : CrossCorrelation α) (rc : RowColPair)
    (hcol : rc.col ≥ rc.row) : ∃ msg, m.at_rc rc = Except.error msg := by
  unfold CrossCorrelation.at_rc
  by_cases he : m.slice.isEmpty = true
  · exact ⟨_, by rw [if_pos he]⟩
  · exact ⟨_, by rw [if_neg he, if_pos hcol]⟩

theorem at_rc_error_of_index {α : Type} (m : CrossCorrelation α) (rc : RowColPair)
    (hidx : m.slice.length ≤ at_rc_index rc) : ∃ msg, m.at_rc rc = Except.error msg := by
  unfold CrossCorrelation.at_rc
  by_cases he : m.slice.isEmpty = true
  · exact ⟨_, by rw [if_pos he]⟩
  · by_cases hcol : rc.col ≥ rc.row
    · exact ⟨_, by rw [if_neg he, if_pos hcol]⟩
    · by_cases hrow : 0 = rc.row
      · exact ⟨_, by rw [if_neg he, if_neg hcol, if_pos hrow]⟩
      · exact ⟨_, by rw [if_neg he, if_neg hcol, if_neg hrow, dif_pos hidx]⟩

/-- C5 (amended): for `2 ≤ n ≤ 65536` and a matrix sized with `size_for(n)`,
`at(row, col)` returns the cell stored at linear index `row(row-1)/2 + col` when
`1 ≤ row < n` and `col < row`, and fails with `out_of_range` whenever `col ≥ row`,
`row = 0`, or `n ≤ row ≤ 65536`. -/
theorem at_rc_checked {α : Type} [Inhabited α] (m : CrossCorrelation α) (n : Nat)
    (h2 : 2 ≤ n) (h : n ≤ 65536) (rc : RowColPair) :
    (valid_rc n rc → ∃ cell,
      (m.size_for n).slice[rc.row * (rc.row - 1) / 2 + rc.col]? = some cell ∧
      (m.size_for n).at_rc rc = Except.ok cell) ∧
    ((rc.col ≥ rc.row ∨ rc.row = 0 ∨ (n ≤ rc.row ∧ rc.row ≤ 65536)) →
      ∃ msg, (m.size_for n).at_rc rc = Except.error msg) := by
  have hlen : (m.size_for n).slice.length = tri (n - 1) :=
    size_for_length_exact m (by omega) h
  constructor
  · rintro ⟨hr1, hrn, hcr⟩
    have hidx : at_rc_index rc = tri (rc.row - 1) + rc.col :=
      at_rc_index_exact hr1 (by omega) hcr
    have hlt : at_rc_index rc < (m.size_for n).slice.length := by
      have := tri_succ_le (show rc.row - 1 < n - 1 by omega)
      omega
    refine ⟨(m.size_for n).slice.get ⟨at_rc_index rc, hlt⟩, ?_, at_rc_ok _ rc hcr hlt⟩
    rw [tri_pred, ← hidx, List.getElem?_eq_getElem hlt]
    rfl
  · intro hcase
    by_cases hcol : rc.col ≥ rc.row
    · exact at_rc_error_of_col _ rc hcol
    · rcases hcase with h1 | h1 | ⟨h1, h3⟩
      · exact absurd h1 hcol
      · omega
      · apply at_rc_error_of_index
        rw [at_rc_index_exact (by omega) h3 (by omega), hlen]
        have := tri_mono (show n - 1 ≤ rc.row - 1 by omega)
        omega

/-- C5 at `n = 4`, `(row, col) = (3, 1)`. -/
theorem at_rc_checked_witness :
    (2 ≤ 4 ∧ 4 ≤ 65536) ∧
    (valid_rc 4 ⟨3, 1⟩ → ∃ cell,
      (fresh 4).slice[3 * (3 - 1) / 2 + 1]?
        = some cell ∧
      (fresh 4).at_rc ⟨3, 1⟩
        = Except.ok cell) ∧
    (((1 : Nat) ≥ 3 ∨ (3 : Nat) = 0 ∨ (4 ≤ 3 ∧ 3 ≤ 65536)) →
      ∃ msg, (fresh 4).at_rc ⟨3, 1⟩
        = Except.error msg) :=
  ⟨by decide, at_rc_checked (CrossCorrelation.init (Correlations ℚ)) 4 (by decide)
    (by decide) ⟨3, 1⟩⟩

/-- C5 (as stated) fails at `n = 65537`, `(row, col) = (65536, 0)`: the coordinate
satisfies `1 ≤ row < n` and `col < row`, but the store has only 32768 cells and the
access is answered with `out_of_range`. -/
theorem at_rc_65537_out_of_range :
    valid_rc 65537 ⟨65536, 0⟩ ∧
    (fresh 65537).at_rc ⟨65536, 0⟩
      = Except.error "Element outside of the slice." := by
  refine ⟨by decide, ?_⟩
  have hlen := fresh_65537_length
  have hne : (fresh 65537).slice.isEmpty
      = false := by
    cases hs : (fresh 65537).slice with
    | nil => rw [hs] at hlen; simp at hlen
    | cons _ _ => rfl
  have hidx : at_rc_index ⟨65536, 0⟩ = 2147450880 := rfl
  simp [CrossCorrelation.at_rc, hne, hidx, hlen]

/-- Beyond row 65536 the index wraps: on the matrix sized for `n = 300` (44850 cells)
`at(65537, 0)` is not refused, it returns cell 32768, the cell of `(256, 128)`. -/
theorem at_rc_wrapped_row_accepted :
    ∃ cell, (fresh 300).slice[32768]?
        = some cell ∧
      (fresh 300).at_rc ⟨65537, 0⟩
        = Except.ok cell := by
  have hlen : (fresh 300).slice.length = 44850 := by rw [fresh_length]; rfl
  have hidx : at_rc_index ⟨65537, 0⟩ = 32768 := rfl
  have hlt : at_rc_index ⟨65537, 0⟩ <
      (fresh 300).slice.length := by
    rw [hlen, hidx]; decide
  refine ⟨_, ?_, at_rc_ok _ ⟨65537, 0⟩ (by decide) hlt⟩
  rw [List.getElem?_eq_getElem (by rw [hlen]; decide)]
  rfl


/-! ## The pair correlator -/

section Correlator_lemmas

variable {K : Type} [LinearOrderedField K]

/-- The numerator loop: an invalid product is skipped, a valid one is added. -/
theorem numerator_loop_num {N : Nat} (nd_one nd_two : NDayType K N) (s : K)
    (is : List (Fin N)) :
    CorrelatorN.numerator_loop nd_one nd_two (RealType.num s) is =
      RealType.num
        (s + (is.map (fun i => pair_product (nd_one.residual i) (nd_two.residual i))).sum)
    := by
  induction is generalizing s with
  | nil => simp [CorrelatorN.numerator_loop]
  | cons i is ih =>
    have hstep : RealType.add (RealType.num s)
        (RealType.mul (nd_one.residual i) (nd_two.residual i)) =
        RealType.num (s + pair_product (nd_one.residual i) (nd_two.residual i)) := by
      cases h1 : nd_one.residual i <;> cases h2 : nd_two.residual i <;>
        simp [RealType.add, RealType.mul, RealType.prim_mul, RealType.prim_add,
          RealType.is_invalid, pair_product]
    have := ih (s + pair_product (nd_one.residual i) (nd_two.residual i))
    simp only [CorrelatorN.numerator_loop, List.foldl_cons, hstep, List.map_cons,
      List.sum_cons] at this ⊢
    rw [this, add_assoc]

/-- The numerator loop started from the invalid value stays invalid exactly as long
as every pair met has an invalid member. -/
theorem numerator_loop_nan {N : Nat} (nd_one nd_two : NDayType K N) (is : List (Fin N)) :
    CorrelatorN.numerator_loop nd_one nd_two RealType.nan is =
      if ∀ i ∈ is, RealType.is_invalid (nd_one.residual i) = true ∨
          RealType.is_invalid (nd_two.residual i) = true
      then RealType.nan
      else RealType.num
        ((is.map (fun i => pair_product (nd_one.residual i) (nd_two.residual i))).sum)
    := by
  induction is with
  | nil => simp [CorrelatorN.numerator_loop]
  | cons i is ih =>
    cases h1 : nd_one.residual i with
    | nan =>
      have hstep : RealType.add RealType.nan
          (RealType.mul (nd_one.residual i) (nd_two.residual i)) = RealType.nan := by
        cases h2 : nd_two.residual i <;>
          simp [h1, RealType.add, RealType.mul, RealType.prim_mul, RealType.is_invalid]
      simp only [CorrelatorN.numerator_loop, List.foldl_cons, hstep] at ih ⊢
      rw [ih]
      simp [h1, RealType.is_invalid, pair_product]
    | num a =>
      cases h2 : nd_two.residual i with
      | nan =>
        have hstep : RealType.add RealType.nan
            (RealType.mul (nd_one.residual i) (nd_two.residual i)) = RealType.nan := by
          simp [h1, h2, RealType.add, RealType.mul, RealType.prim_mul,
            RealType.is_invalid]
        simp only [CorrelatorN.numerator_loop, List.foldl_cons, hstep] at ih ⊢
        rw [ih]
        simp [h1, h2, RealType.is_invalid, pair_product]
      | num b =>
        have hstep : RealType.add RealType.nan
            (RealType.mul (nd_one.residual i) (nd_two.residual i)) =
            RealType.num (a * b) := by
          simp [h1, h2, RealType.add, RealType.mul, RealType.prim_mul,
            RealType.is_invalid]
        have hnum := numerator_loop_num nd_one nd_two (a * b) is
        simp only [CorrelatorN.numerator_loop, List.foldl_cons, hstep] at hnum ⊢
        rw [hnum]
        simp [h1, h2, RealType.is_invalid, pair_product]

/-- The result of `compute` when both root mean squares are valid and their product
passes the guard: the numerator divided by the product. -/
theorem compute_of_guard {N : Nat} (fmin : K) (hfmin : 0 < fmin)
    (nd_one nd_two : NDayType K N) (ra rb : K)
    (hra : nd_one.root_mean_square = RealType.num ra)
    (hrb : nd_two.root_mean_square = RealType.num rb) (hguard : fmin ≤ |ra * rb|) :
    ra * rb ≠ 0 ∧
    CorrelatorN.compute fmin nd_one nd_two =
      RealType.div
        (CorrelatorN.numerator_loop nd_one nd_two RealType.nan (List.finRange N))
        (RealType.num (ra * rb)) := by
  have hne : ra * rb ≠ 0 := by
    intro h0
    rw [h0, abs_zero] at hguard
    exact absurd hfmin (not_lt_of_le hguard)
  refine ⟨hne, ?_⟩
  have hng : ¬ fmin > |ra * rb| := not_lt_of_le hguard
  simp [CorrelatorN.compute, hra, hrb, RealType.is_invalid, RealType.mul,
    RealType.prim_mul, RealType.prim_abs, RealType.prim_gt, hng, RealType.invalid_value]

theorem compute_traced_fst {N : Nat} (fmin : K) (nd_one nd_two : NDayType K N) :
    (CorrelatorN.compute_traced fmin nd_one nd_two).1 =
      CorrelatorN.compute fmin nd_one nd_two := by
  unfold CorrelatorN.compute_traced CorrelatorN.compute
  split
  · rfl
  · simp only []
    split <;> rfl

end Correlator_lemmas


section Correlator_claims

variable {K : Type} [LinearOrderedField K]

/-- The value of `compute` on two residual sets whose root mean squares and residuals
are all valid and whose root mean square product passes the guard. -/
theorem compute_valid_of_values {N : Nat} (fmin : K) (hfmin : 0 < fmin) (hN : 0 < N)
    (nd_one nd_two : NDayType K N) (a b : Fin N → K) (ra rb : K)
    (hra : nd_one.root_mean_square = RealType.num ra)
    (hrb : nd_two.root_mean_square = RealType.num rb)
    (ha : ∀ i, nd_one.residual i = RealType.num (a i))
    (hb : ∀ i, nd_two.residual i = RealType.num (b i))
    (hguard : fmin ≤ |ra * rb|) :
    CorrelatorN.compute fmin nd_one nd_two =
      RealType.num ((∑ i, a i * b i) / (ra * rb)) := by
  obtain ⟨hne, hc⟩ := compute_of_guard fmin hfmin nd_one nd_two ra rb hra hrb hguard
  have hsome : ¬ ∀ i ∈ List.finRange N,
      RealType.is_invalid (nd_one.residual i) = true ∨
      RealType.is_invalid (nd_two.residual i) = true := by
    intro hall
    have h0 := hall ⟨0, hN⟩ (List.mem_finRange _)
    rw [ha, hb] at h0
    simp [RealType.is_invalid] at h0
  have hpp : (fun i => pair_product (nd_one.residual i) (nd_two.residual i)) =
      fun i => a i * b i := by
    funext i; rw [ha, hb]; rfl
  rw [hc, numerator_loop_nan, if_neg hsome, hpp, ← Fin.sum_univ_def]
  simp [RealType.div, RealType.prim_div, hne]

/-- C6: for two residual sets of the same window length `N ≥ 1` whose root mean squares
`ra`, `rb` and residuals `a i`, `b i` are all valid, with `|ra * rb|` at least the
smallest positive normal value `fmin`, `compute` returns
`(∑ i, a i * b i) / (ra * rb)`. -/
theorem compute_valid {N : Nat} (fmin : K) (hfmin : 0 < fmin) (hN : 0 < N)
    (nd_one nd_two : NDayType K N) (a b : Fin N → K) (ra rb : K)
    (hra : nd_one.root_mean_square = RealType.num ra)
    (hrb : nd_two.root_mean_square = RealType.num rb)
    (ha : ∀ i, nd_one.residual i = RealType.num (a i))
    (hb : ∀ i, nd_two.residual i = RealType.num (b i))
    (hguard : fmin ≤ |ra * rb|) :
    CorrelatorN.compute fmin nd_one nd_two =
      RealType.num ((∑ i, a i * b i) / (ra * rb)) :=
  compute_valid_of_values fmin hfmin hN nd_one nd_two a b ra rb hra hrb ha hb hguard

end Correlator_claims


section Correlator_claims2

variable {K : Type} [LinearOrderedField K]

/-- C7: for a residual set `A` with valid residuals `a i` whose root mean square `r`
satisfies `r^2 = ∑ i, (a i)^2` and passes the divide-by-zero guard, in exact arithmetic
`compute(A, A) = 1`, and `compute(A, s*A) = s` for `s = 1` and for `s = -1`, where `s*A`
multiplies every residual by `s` and keeps the root mean square. -/
theorem compute_self_and_negation {N : Nat} (fmin : K) (hfmin : 0 < fmin)
    (A : NDayType K N) (a : Fin N → K) (r : K)
    (hr : A.root_mean_square = RealType.num r)
    (ha : ∀ i, A.residual i = RealType.num (a i))
    (hrms : r ^ 2 = ∑ i, a i ^ 2) (hguard : fmin ≤ |r * r|) :
    CorrelatorN.compute fmin A A = RealType.num 1 ∧
    CorrelatorN.compute fmin A (NDayType.scale 1 A) = RealType.num 1 ∧
    CorrelatorN.compute fmin A (NDayType.scale (-1) A) = RealType.num (-1) := by
  have hrr : r * r ≠ 0 := by
    intro h0
    rw [h0, abs_zero] at hguard
    exact absurd hfmin (not_lt_of_le hguard)
  have hN : 0 < N := by
    rcases Nat.eq_zero_or_pos N with h0 | hpos
    · subst h0
      rw [Finset.univ_eq_empty, Finset.sum_empty] at hrms
      exact absurd (by rw [← pow_two, hrms]) hrr
    · exact hpos
  have hscale : ∀ s : K, CorrelatorN.compute fmin A (NDayType.scale s A) =
      RealType.num s := by
    intro s
    have hb : ∀ i, (NDayType.scale s A).residual i = RealType.num (s * a i) := by
      intro i
      simp [NDayType.scale, ha, RealType.mul, RealType.prim_mul]
    rw [compute_valid_of_values fmin hfmin hN A (NDayType.scale s A) a (fun i => s * a i)
      r r hr hr ha hb hguard]
    have hsum : ∑ i, a i * (s * a i) = s * (r * r) := by
      rw [← pow_two, hrms, Finset.mul_sum]
      exact Finset.sum_congr rfl (fun i _ => by ring)
    rw [hsum, mul_div_assoc, div_self hrr, mul_one]
  refine ⟨?_, hscale 1, hscale (-1)⟩
  rw [compute_valid_of_values fmin hfmin hN A A a a r r hr hr ha ha hguard]
  have hsum : ∑ i, a i * a i = r * r := by
    rw [← pow_two, hrms]
    exact Finset.sum_congr rfl (fun i _ => by ring)
  rw [hsum, div_self hrr]

/-- With valid root mean squares passing the guard and at least one residual pair
with two valid members, `compute` is the sum of the products of the valid pairs divided
by the product of the root mean squares. -/
theorem compute_of_valid_pair {N : Nat} (fmin : K) (hfmin : 0 < fmin)
    (nd_one nd_two : NDayType K N) (ra rb : K)
    (hra : nd_one.root_mean_square = RealType.num ra)
    (hrb : nd_two.root_mean_square = RealType.num rb)
    (hguard : fmin ≤ |ra * rb|) (i : Fin N)
    (h1 : RealType.is_valid (nd_one.residual i) = true)
    (h2 : RealType.is_valid (nd_two.residual i) = true) :
    CorrelatorN.compute fmin nd_one nd_two =
      RealType.num
        ((∑ i, pair_product (nd_one.residual i) (nd_two.residual i)) / (ra * rb)) := by
  obtain ⟨hne, hc⟩ := compute_of_guard fmin hfmin nd_one nd_two ra rb hra hrb hguard
  have hsome : ¬ ∀ i ∈ List.finRange N,
      RealType.is_invalid (nd_one.residual i) = true ∨
      RealType.is_invalid (nd_two.residual i) = true := by
    intro hall
    rcases hall i (List.mem_finRange _) with h | h
    · simp [RealType.is_valid, h] at h1
    · simp [RealType.is_valid, h] at h2
  rw [hc, numerator_loop_nan, if_neg hsome, ← Fin.sum_univ_def]
  simp [RealType.div, RealType.prim_div, hne]

/-- C8 (amended): in `compute`, with both root mean squares valid and their product
passing the guard, a residual pair with an invalid member is skipped by the sentinel
addition: the coefficient is invalid when every one of the `N` pairs has an invalid
member, and otherwise it is the sum of the products of the valid pairs divided by
`rmsA * rmsB`. -/
theorem compute_skips_invalid_pairs {N : Nat} (fmin : K) (hfmin : 0 < fmin)
    (nd_one nd_two : NDayType K N) (ra rb : K)
    (hra : nd_one.root_mean_square = RealType.num ra)
    (hrb : nd_two.root_mean_square = RealType.num rb)
    (hguard : fmin ≤ |ra * rb|) :
    ((∀ i, RealType.is_invalid (nd_one.residual i) = true ∨
           RealType.is_invalid (nd_two.residual i) = true) →
      CorrelatorN.compute fmin nd_one nd_two = RealType.invalid_value) ∧
    ((∃ i, RealType.is_valid (nd_one.residual i) = true ∧
           RealType.is_valid (nd_two.residual i) = true) →
      CorrelatorN.compute fmin nd_one nd_two =
        RealType.num
          ((∑ i, pair_product (nd_one.residual i) (nd_two.residual i)) / (ra * rb))) := by
  constructor
  · intro hall
    obtain ⟨_, hc⟩ := compute_of_guard fmin hfmin nd_one nd_two ra rb hra hrb hguard
    rw [hc, numerator_loop_nan, if_pos (fun i _ => hall i)]
    rfl
  · rintro ⟨i, h1, h2⟩
    exact compute_of_valid_pair fmin hfmin nd_one nd_two ra rb hra hrb hguard i h1 h2

end Correlator_claims2


section Window_lemmas

variable {K : Type} [LinearOrderedField K]

/-- An update that leaves the window short of `N` values appends the value and does
not touch the residual set. -/
theorem MovingAverageN.update_short {N : Nat} (fsqrt : K → K) (ma : MovingAverageN K N)
    (v : RealType K) (nd : NDayType K N) (h : ma.running_value.length + 1 < N) :
    (MovingAverageN.update fsqrt ma v nd).2 = nd ∧
    (MovingAverageN.update fsqrt ma v nd).1.running_value.length =
      ma.running_value.length + 1 := by
  have h1 : ¬ N < (ma.running_value ++ [v]).length := by
    rw [List.length_append, List.length_singleton]; omega
  have h2 : ¬ N = (ma.running_value ++ [v]).length := by
    rw [List.length_append, List.length_singleton]; omega
  simp only [MovingAverageN.update, if_neg h1, dif_neg h2]
  simp

/-- While fewer than 10 valid values have arrived, `sdata.ten_day` is not written. -/
theorem MovingAverages.feed_ten_day (fsqrt : K → K) (vs : List (RealType K))
    (s : MovingAverages K × StatisticalData K)
    (h : s.1.ten.running_value.length + vs.countP RealType.is_valid < 10) :
    (MovingAverages.feed fsqrt vs s).2.ten_day = s.2.ten_day := by
  induction vs generalizing s with
  | nil => rfl
  | cons v vs ih =>
    rw [MovingAverages.feed]
    by_cases hv : RealType.is_valid v = true
    · rw [List.countP_cons_of_pos _ _ hv] at h
      obtain ⟨hnd, hlen⟩ := MovingAverageN.update_short fsqrt s.1.ten v s.2.ten_day
        (by omega)
      have hstep : (MovingAverages.update fsqrt s.1 v s.2).2.ten_day = s.2.ten_day := by
        simp only [MovingAverages.update, hv, if_true]
        exact hnd
      have hlen2 : (MovingAverages.update fsqrt s.1 v s.2).1.ten.running_value.length =
          s.1.ten.running_value.length + 1 := by
        simp only [MovingAverages.update, hv, if_true]
        exact hlen
      rw [ih _ (by rw [hlen2]; omega), hstep]
    · rw [List.countP_cons_of_neg _ _ hv] at h
      have hstep : MovingAverages.update fsqrt s.1 v s.2 =
          (s.1, { s.2 with value := v }) := by
        simp only [MovingAverages.update, hv]
        rfl
      rw [ih _ (by rw [hstep]; exact h), hstep]

/-- While fewer than 50 valid values have arrived, `sdata.fifty_day` is not written. -/
theorem MovingAverages.feed_fifty_day (fsqrt : K → K) (vs : List (RealType K))
    (s : MovingAverages K × StatisticalData K)
    (h : s.1.fifty.running_value.length + vs.countP RealType.is_valid < 50) :
    (MovingAverages.feed fsqrt vs s).2.fifty_day = s.2.fifty_day := by
  induction vs generalizing s with
  | nil => rfl
  | cons v vs ih =>
    rw [MovingAverages.feed]
    by_cases hv : RealType.is_valid v = true
    · rw [List.countP_cons_of_pos _ _ hv] at h
      obtain ⟨hnd, hlen⟩ := MovingAverageN.update_short fsqrt s.1.fifty v s.2.fifty_day
        (by omega)
      have hstep : (MovingAverages.update fsqrt s.1 v s.2).2.fifty_day
          = s.2.fifty_day := by
        simp only [MovingAverages.update, hv, if_true]
        exact hnd
      have hlen2 : (MovingAverages.update fsqrt s.1 v s.2).1.fifty.running_value.length =
          s.1.fifty.running_value.length + 1 := by
        simp only [MovingAverages.update, hv, if_true]
        exact hlen
      rw [ih _ (by rw [hlen2]; omega), hstep]
    · rw [List.countP_cons_of_neg _ _ hv] at h
      have hstep : MovingAverages.update fsqrt s.1 v s.2 =
          (s.1, { s.2 with value := v }) := by
        simp only [MovingAverages.update, hv]
        rfl
      rw [ih _ (by rw [hstep]; exact h), hstep]

theorem compute_invalid_left {N : Nat} (fmin : K) (nd_one nd_two : NDayType K N)
    (h : RealType.is_invalid nd_one.root_mean_square = true) :
    CorrelatorN.compute fmin nd_one nd_two = RealType.invalid_value := by
  simp [CorrelatorN.compute, h]

theorem compute_invalid_right {N : Nat} (fmin : K) (nd_one nd_two : NDayType K N)
    (h : RealType.is_invalid nd_two.root_mean_square = true) :
    CorrelatorN.compute fmin nd_one nd_two = RealType.invalid_value := by
  simp [CorrelatorN.compute, h]

end Window_lemmas

section Correlator_claims3

variable {K : Type} [LinearOrderedField K]

/-- C9: `compute` returns invalid whenever the root mean square of either residual set
is invalid, whatever the residuals are; in particular it returns invalid, in either
argument position, for the 10-day (50-day) residual set of statistical data that were
default-constructed and then updated by fresh accumulators with a sequence holding
fewer than 10 (50) valid values. -/
theorem compute_invalid_rms {N : Nat} (fmin : K) (fsqrt : K → K) :
    (∀ nd_one nd_two : NDayType K N,
      (RealType.is_invalid nd_one.root_mean_square = true ∨
       RealType.is_invalid nd_two.root_mean_square = true) →
      CorrelatorN.compute fmin nd_one nd_two = RealType.invalid_value) ∧
    (∀ (vs : List (RealType K)) (other : NDayType K 10),
      vs.countP RealType.is_valid < 10 →
      CorrelatorN.compute fmin
        (MovingAverages.feed fsqrt vs (MovingAverages.init K, StatisticalData.init K)).2.ten_day
        other = RealType.invalid_value ∧
      CorrelatorN.compute fmin other
        (MovingAverages.feed fsqrt vs (MovingAverages.init K, StatisticalData.init K)).2.ten_day
        = RealType.invalid_value) ∧
    (∀ (vs : List (RealType K)) (other : NDayType K 50),
      vs.countP RealType.is_valid < 50 →
      CorrelatorN.compute fmin
        (MovingAverages.feed fsqrt vs
          (MovingAverages.init K, StatisticalData.init K)).2.fifty_day
        other = RealType.invalid_value ∧
      CorrelatorN.compute fmin other
        (MovingAverages.feed fsqrt vs
          (MovingAverages.init K, StatisticalData.init K)).2.fifty_day
        = RealType.invalid_value) := by
  refine ⟨?_, ?_, ?_⟩
  · intro nd_one nd_two h
    rcases h with h | h
    · exact compute_invalid_left fmin nd_one nd_two h
    · exact compute_invalid_right fmin nd_one nd_two h
  · intro vs other hvs
    have hnd := MovingAverages.feed_ten_day fsqrt vs
      (MovingAverages.init K, StatisticalData.init K)
      (by simpa [MovingAverages.init, MovingAverageN.init] using hvs)
    rw [hnd]
    exact ⟨compute_invalid_left fmin _ other rfl, compute_invalid_right fmin other _ rfl⟩
  · intro vs other hvs
    have hnd := MovingAverages.feed_fifty_day fsqrt vs
      (MovingAverages.init K, StatisticalData.init K)
      (by simpa [MovingAverages.init, MovingAverageN.init] using hvs)
    rw [hnd]
    exact ⟨compute_invalid_left fmin _ other rfl, compute_invalid_right fmin other _ rfl⟩

end Correlator_claims3


/-! ## Sample evaluations -/

theorem FLT_MIN_pos : 0 < FLT_MIN := by
  unfold FLT_MIN; positivity

theorem FLT_MIN_le_25 : FLT_MIN ≤ |(5 : ℚ) * 5| := by
  rw [abs_of_pos (by norm_num)]
  unfold FLT_MIN
  norm_num

theorem sample_rms_sq : (5 : ℚ) ^ 2 = ∑ i, sample_residuals i ^ 2 := by
  simp [Fin.sum_univ_succ, sample_residuals]
  norm_num

/-- C6 on `sample_nd` paired with itself. -/
theorem compute_valid_witness :
    (0 < FLT_MIN ∧ 0 < 10 ∧ FLT_MIN ≤ |(5 : ℚ) * 5|) ∧
    CorrelatorN.compute FLT_MIN sample_nd sample_nd =
      RealType.num ((∑ i, sample_residuals i * sample_residuals i) / (5 * 5)) :=
  ⟨⟨FLT_MIN_pos, by decide, FLT_MIN_le_25⟩,
   compute_valid FLT_MIN FLT_MIN_pos (by decide) sample_nd sample_nd sample_residuals
     sample_residuals 5 5 rfl rfl (fun _ => rfl) (fun _ => rfl) FLT_MIN_le_25⟩

/-- C7 on `sample_nd`, whose root mean square 5 satisfies `5^2 = 3^2 + 4^2`. -/
theorem compute_self_and_negation_witness :
    (0 < FLT_MIN ∧ (5 : ℚ) ^ 2 = ∑ i, sample_residuals i ^ 2 ∧ FLT_MIN ≤ |(5 : ℚ) * 5|) ∧
    CorrelatorN.compute FLT_MIN sample_nd sample_nd = RealType.num 1 ∧
    CorrelatorN.compute FLT_MIN sample_nd (NDayType.scale 1 sample_nd) = RealType.num 1 ∧
    CorrelatorN.compute FLT_MIN sample_nd (NDayType.scale (-1) sample_nd)
      = RealType.num (-1) :=
  ⟨⟨FLT_MIN_pos, sample_rms_sq, FLT_MIN_le_25⟩,
   compute_self_and_negation FLT_MIN FLT_MIN_pos sample_nd sample_residuals 5 rfl
     (fun _ => rfl) sample_rms_sq FLT_MIN_le_25⟩

/-- C8 (amended) on `sample_nd_gap` and `sample_nd`. -/
theorem compute_skips_invalid_pairs_witness :
    (0 < FLT_MIN ∧ FLT_MIN ≤ |(5 : ℚ) * 5|) ∧
    ((∀ i, RealType.is_invalid (sample_nd_gap.residual i) = true ∨
           RealType.is_invalid (sample_nd.residual i) = true) →
      CorrelatorN.compute FLT_MIN sample_nd_gap sample_nd = RealType.invalid_value) ∧
    ((∃ i, RealType.is_valid (sample_nd_gap.residual i) = true ∧
           RealType.is_valid (sample_nd.residual i) = true) →
      CorrelatorN.compute FLT_MIN sample_nd_gap sample_nd =
        RealType.num
          ((∑ i, pair_product (sample_nd_gap.residual i) (sample_nd.residual i))
            / (5 * 5))) :=
  ⟨⟨FLT_MIN_pos, FLT_MIN_le_25⟩,
   compute_skips_invalid_pairs FLT_MIN FLT_MIN_pos sample_nd_gap sample_nd 5 5 rfl rfl
     FLT_MIN_le_25⟩

/-- C8 (as stated) fails: residual 0 of `sample_nd_gap` is invalid while both root
mean squares and every other residual are valid, and `compute` returns the valid
coefficient `16/25`, the invalid pair being skipped. -/
theorem compute_ignores_invalid_pair :
    RealType.is_invalid (sample_nd_gap.residual 0) = true ∧
    RealType.is_valid sample_nd_gap.root_mean_square = true ∧
    RealType.is_valid sample_nd.root_mean_square = true ∧
    CorrelatorN.compute FLT_MIN sample_nd_gap sample_nd = RealType.num (16 / 25) ∧
    CorrelatorN.compute FLT_MIN sample_nd_gap sample_nd ≠ RealType.invalid_value := by
  have hsum : ∑ i, pair_product (sample_nd_gap.residual i) (sample_nd.residual i) = 16 := by
    simp [Fin.sum_univ_succ, sample_nd_gap, sample_nd, sample_residuals, pair_product]
    norm_num
  have hc : CorrelatorN.compute FLT_MIN sample_nd_gap sample_nd = RealType.num (16 / 25) := by
    rw [compute_of_valid_pair FLT_MIN FLT_MIN_pos sample_nd_gap sample_nd 5 5 rfl rfl
      FLT_MIN_le_25 1 rfl rfl, hsum]
    norm_num
  refine ⟨rfl, rfl, rfl, hc, ?_⟩
  rw [hc]
  exact fun h => RealType.noConfusion h

/-- C9 on a default-constructed residual set and on the 10-day residual set after the
updates 1, invalid, 2. -/
theorem compute_invalid_rms_witness :
    (RealType.is_invalid (NDayType.init ℚ 10).root_mean_square = true ∨
     RealType.is_invalid sample_nd.root_mean_square = true) ∧
    [RealType.num (1 : ℚ), RealType.nan, RealType.num 2].countP RealType.is_valid < 10 ∧
    CorrelatorN.compute FLT_MIN (NDayType.init ℚ 10) sample_nd = RealType.invalid_value ∧
    CorrelatorN.compute FLT_MIN
      (MovingAverages.feed (fun x => x) [RealType.num 1, RealType.nan, RealType.num 2]
        (MovingAverages.init ℚ, StatisticalData.init ℚ)).2.ten_day
      sample_nd = RealType.invalid_value :=
  ⟨Or.inl rfl, by decide,
   (@compute_invalid_rms ℚ _ 10 FLT_MIN (fun x => x)).1 (NDayType.init ℚ 10) sample_nd
      (Or.inl rfl),
   ((@compute_invalid_rms ℚ _ 10 FLT_MIN (fun x => x)).2.1
      [RealType.num 1, RealType.nan, RealType.num 2] sample_nd (by decide)).1⟩

theorem RealType.is_valid_num {K : Type} (x : K) : RealType.is_valid (RealType.num x) = true := rfl

theorem RealType.eq_nan_of_is_invalid {K : Type} {a : RealType K}
    (h : RealType.is_invalid a = true) : a = RealType.nan := by
  cases a with
  | nan => rfl
  | num x => exact absurd h (by simp [RealType.is_invalid])

theorem RealType.exists_num_of_is_valid {K : Type} {a : RealType K}
    (h : RealType.is_valid a = true) : ∃ x, a = RealType.num x := by
  cases a with
  | nan => exact absurd h (by simp [RealType.is_valid, RealType.is_invalid])
  | num x => exact ⟨x, rfl⟩

section Sentinel_claims

variable {K : Type} [LinearOrderedField K]

/-- C17: for sentinel numbers `a`, `b` of either kind: if `b` is invalid then
`a + b = a` and `a - b = a`; if `a` is invalid and `b` is valid then `a + b = b` and
`a - b = 0 - b`; if both are valid then `a + b` and `a - b` are the primitive sum and
difference of the values. -/
theorem sentinel_add_sub :
    (∀ a b : RealType K, RealType.is_invalid b = true →
      RealType.add a b = a ∧ RealType.sub a b = a) ∧
    (∀ a b : RealType K, RealType.is_invalid a = true → RealType.is_valid b = true →
      RealType.add a b = b ∧ RealType.sub a b = RealType.prim_sub (RealType.num 0) b) ∧
    (∀ a b : RealType K, RealType.is_valid a = true → RealType.is_valid b = true →
      RealType.add a b = RealType.prim_add a b ∧
      RealType.sub a b = RealType.prim_sub a b) ∧
    (∀ x y : K, RealType.add (RealType.num x) (RealType.num y) = RealType.num (x + y) ∧
      RealType.sub (RealType.num x) (RealType.num y) = RealType.num (x - y) ∧
      RealType.sub RealType.nan (RealType.num y) = RealType.num (0 - y)) ∧
    (∀ a b : IntegerType, IntegerType.is_invalid b.value = true →
      IntegerType.add a b = a ∧ IntegerType.sub a b = a) ∧
    (∀ a b : IntegerType, IntegerType.is_invalid a.value = true →
      IntegerType.is_valid b.value = true →
      IntegerType.add a b = b ∧ IntegerType.sub a b = ⟨0 - b.value⟩) ∧
    (∀ a b : IntegerType, IntegerType.is_valid a.value = true →
      IntegerType.is_valid b.value = true →
      IntegerType.add a b = ⟨a.value + b.value⟩ ∧
      IntegerType.sub a b = ⟨a.value - b.value⟩) := by
  refine ⟨?_, ?_, ?_, ?_, ?_, ?_, ?_⟩
  · intro a b hb
    simp [RealType.add, RealType.sub, hb]
  · intro a b ha hb
    have hb2 : RealType.is_invalid b = false := by
      simpa [RealType.is_valid] using hb
    simp [RealType.add, RealType.sub, ha, hb2]
  · intro a b ha hb
    have ha2 : RealType.is_invalid a = false := by
      simpa [RealType.is_valid] using ha
    have hb2 : RealType.is_invalid b = false := by
      simpa [RealType.is_valid] using hb
    simp [RealType.add, RealType.sub, ha2, hb2]
  · intro x y
    simp [RealType.add, RealType.sub, RealType.is_invalid, RealType.prim_add,
      RealType.prim_sub]
  · intro a b hb
    simp [IntegerType.add, IntegerType.sub, hb]
  · intro a b ha hb
    have hb2 : IntegerType.is_invalid b.value = false := by
      simpa [IntegerType.is_valid, IntegerType.is_invalid] using hb
    simp [IntegerType.add, IntegerType.sub, ha, hb2]
  · intro a b ha hb
    have ha2 : IntegerType.is_invalid a.value = false := by
      simpa [IntegerType.is_valid, IntegerType.is_invalid] using ha
    have hb2 : IntegerType.is_invalid b.value = false := by
      simpa [IntegerType.is_valid, IntegerType.is_invalid] using hb
    simp [IntegerType.add, IntegerType.sub, ha2, hb2]

/-- C18 (amended): for the floating sentinel type every multiplication or division
with an invalid operand is invalid, and `invalid + 5 = 5`, `invalid - 5 = -5`,
`invalid * 5` is invalid.  For the integer sentinel type `invalid + 5 = 5` and
`invalid - 5 = -5` as well, but `a * b` and `a / b` are the primitive operations on the
raw values: `invalid * 5 = -5` and `5 / invalid = -5`, which are valid. -/
theorem sentinel_mul_div :
    (∀ a x : RealType K, (RealType.is_invalid a = true ∨ RealType.is_invalid x = true) →
      RealType.is_invalid (RealType.mul a x) = true ∧
      RealType.is_invalid (RealType.div a x) = true) ∧
    RealType.add RealType.invalid_value (RealType.num (5 : K)) = RealType.num 5 ∧
    RealType.sub RealType.invalid_value (RealType.num (5 : K)) = RealType.num (-5) ∧
    RealType.is_invalid (RealType.mul RealType.invalid_value (RealType.num (5 : K)))
      = true ∧
    IntegerType.add ⟨IntegerType.invalid_value⟩ ⟨5⟩ = ⟨5⟩ ∧
    IntegerType.sub ⟨IntegerType.invalid_value⟩ ⟨5⟩ = ⟨-5⟩ ∧
    (∀ a x : IntegerType, IntegerType.mul a x = a.value * x.value ∧
      IntegerType.div a x = Int.tdiv a.value x.value) ∧
    IntegerType.mul ⟨IntegerType.invalid_value⟩ ⟨5⟩ = -5 ∧
    IntegerType.div ⟨5⟩ ⟨IntegerType.invalid_value⟩ = -5 ∧
    IntegerType.is_valid (-5) = true := by
  refine ⟨?_, ?_, ?_, rfl, by decide, by decide, fun _ _ => ⟨rfl, rfl⟩, by decide,
    by decide, by decide⟩
  · intro a x h
    rcases h with h | h
    · rw [RealType.eq_nan_of_is_invalid h]
      cases x <;> exact ⟨rfl, rfl⟩
    · rw [RealType.eq_nan_of_is_invalid h]
      cases a <;> exact ⟨rfl, rfl⟩
  · simp [RealType.add, RealType.invalid_value, RealType.is_invalid]
  · simp [RealType.sub, RealType.invalid_value, RealType.is_invalid, RealType.prim_sub]

/-- C18 (as stated) fails for the integer sentinel type: `invalid * 5` is the primitive
product `-1 * 5 = -5`, a valid number. -/
theorem integer_invalid_times_five_valid :
    IntegerType.is_invalid (default : IntegerType).value = true ∧
    IntegerType.mul default ⟨5⟩ = -5 ∧
    IntegerType.is_valid (IntegerType.mul default ⟨5⟩) = true ∧
    IntegerType.is_invalid (IntegerType.mul default ⟨5⟩) = false := by
  decide

end Sentinel_claims

/-- C19: for every primitive value `x` of each sentinel type
`is_valid(x) == !is_invalid(x)`, and a default-constructed sentinel number is
invalid. -/
theorem sentinel_valid_iff_not_invalid {K : Type} :
    (∀ x : RealType K, RealType.is_valid x = !RealType.is_invalid x) ∧
    RealType.is_invalid (default : RealType K) = true ∧
    (∀ x : Int, IntegerType.is_valid x = !IntegerType.is_invalid x) ∧
    IntegerType.is_invalid (default : IntegerType).value = true := by
  refine ⟨fun _ => rfl, rfl, ?_, by decide⟩
  intro x
  simp [IntegerType.is_valid, IntegerType.is_invalid]

/-! ## Skipped values and reset -/

section Accumulator_frame

variable {K : Type} [LinearOrderedField K]

theorem MovingAverages.update_invalid (fsqrt : K → K) (mas : MovingAverages K)
    (v : RealType K) (sdata : StatisticalData K) (hv : RealType.is_invalid v = true) :
    MovingAverages.update fsqrt mas v sdata = (mas, { sdata with value := v }) := by
  have h : RealType.is_valid v = false := by simp [RealType.is_valid, hv]
  simp [MovingAverages.update, h]

/-- The accumulators and the two residual sets after an update depend only on the
accumulators and the two residual sets before it. -/
theorem MovingAverages.update_congr (fsqrt : K → K) (mas : MovingAverages K)
    (v : RealType K) (sd sd2 : StatisticalData K)
    (h10 : sd.ten_day = sd2.ten_day) (h50 : sd.fifty_day = sd2.fifty_day) :
    (MovingAverages.update fsqrt mas v sd).1 = (MovingAverages.update fsqrt mas v sd2).1 ∧
    (MovingAverages.update fsqrt mas v sd).2.ten_day =
      (MovingAverages.update fsqrt mas v sd2).2.ten_day ∧
    (MovingAverages.update fsqrt mas v sd).2.fifty_day =
      (MovingAverages.update fsqrt mas v sd2).2.fifty_day := by
  by_cases hv : RealType.is_valid v = true
  · simp [MovingAverages.update, hv, h10, h50]
  · simp [MovingAverages.update, hv, h10, h50]

theorem MovingAverages.feed_congr (fsqrt : K → K) (vs : List (RealType K))
    (s s2 : MovingAverages K × StatisticalData K) (h1 : s.1 = s2.1)
    (h10 : s.2.ten_day = s2.2.ten_day) (h50 : s.2.fifty_day = s2.2.fifty_day) :
    (MovingAverages.feed fsqrt vs s).1 = (MovingAverages.feed fsqrt vs s2).1 ∧
    (MovingAverages.feed fsqrt vs s).2.ten_day =
      (MovingAverages.feed fsqrt vs s2).2.ten_day ∧
    (MovingAverages.feed fsqrt vs s).2.fifty_day =
      (MovingAverages.feed fsqrt vs s2).2.fifty_day := by
  induction vs generalizing s s2 with
  | nil => exact ⟨h1, h10, h50⟩
  | cons v vs ih =>
    rw [MovingAverages.feed, MovingAverages.feed, h1]
    obtain ⟨g1, g10, g50⟩ := MovingAverages.update_congr fsqrt s2.1 v s.2 s2.2 h10 h50
    exact ih _ _ g1 g10 g50

theorem MovingAverages.feed_filter (fsqrt : K → K) (vs : List (RealType K))
    (s : MovingAverages K × StatisticalData K) :
    (MovingAverages.feed fsqrt vs s).1 =
      (MovingAverages.feed fsqrt (vs.filter RealType.is_valid) s).1 ∧
    (MovingAverages.feed fsqrt vs s).2.ten_day =
      (MovingAverages.feed fsqrt (vs.filter RealType.is_valid) s).2.ten_day ∧
    (MovingAverages.feed fsqrt vs s).2.fifty_day =
      (MovingAverages.feed fsqrt (vs.filter RealType.is_valid) s).2.fifty_day := by
  induction vs generalizing s with
  | nil => exact ⟨rfl, rfl, rfl⟩
  | cons v vs ih =>
    by_cases hv : RealType.is_valid v = true
    · rw [List.filter_cons_of_pos hv, MovingAverages.feed, MovingAverages.feed]
      exact ih _
    · rw [List.filter_cons_of_neg hv, MovingAverages.feed]
      have hinv : RealType.is_invalid v = true := by
        simpa [RealType.is_valid] using hv
      rw [MovingAverages.update_invalid fsqrt s.1 v s.2 hinv]
      obtain ⟨g1, g10, g50⟩ := ih s
      obtain ⟨e1, e10, e50⟩ := MovingAverages.feed_congr fsqrt vs
        (s.1, { s.2 with value := v }) s rfl rfl rfl
      exact ⟨e1.trans g1, e10.trans g10, e50.trans g50⟩

/-- C15: `MovingAverages::update` called with an invalid value stores that value in
`sdata.value` and leaves both accumulators and both residual sets unchanged;
consequently the accumulators and residual sets produced for an input stream equal
those produced for the subsequence of its valid values. -/
theorem update_skips_invalid (fsqrt : K → K) :
    (∀ (mas : MovingAverages K) (v : RealType K) (sdata : StatisticalData K),
      RealType.is_invalid v = true →
      MovingAverages.update fsqrt mas v sdata = (mas, { sdata with value := v }) ∧
      (MovingAverages.update fsqrt mas v sdata).2.value = v ∧
      (MovingAverages.update fsqrt mas v sdata).1 = mas ∧
      (MovingAverages.update fsqrt mas v sdata).2.ten_day = sdata.ten_day ∧
      (MovingAverages.update fsqrt mas v sdata).2.fifty_day = sdata.fifty_day) ∧
    (∀ (vs : List (RealType K)) (s : MovingAverages K × StatisticalData K),
      (MovingAverages.feed fsqrt vs s).1 =
        (MovingAverages.feed fsqrt (vs.filter RealType.is_valid) s).1 ∧
      (MovingAverages.feed fsqrt vs s).2.ten_day =
        (MovingAverages.feed fsqrt (vs.filter RealType.is_valid) s).2.ten_day ∧
      (MovingAverages.feed fsqrt vs s).2.fifty_day =
        (MovingAverages.feed fsqrt (vs.filter RealType.is_valid) s).2.fifty_day) := by
  constructor
  · intro mas v sdata hv
    rw [MovingAverages.update_invalid fsqrt mas v sdata hv]
    exact ⟨rfl, rfl, rfl, rfl, rfl⟩
  · exact fun vs s => MovingAverages.feed_filter fsqrt vs s

theorem MovingAverageN.update_portion {N : Nat} (fsqrt : K → K) (ma : MovingAverageN K N)
    (v : RealType K) (nd : NDayType K N) :
    (MovingAverageN.update fsqrt ma v nd).1.portion = ma.portion := by
  unfold MovingAverageN.update
  simp only []
  split <;> split <;> rfl

theorem MovingAverageN.feed_portion {N : Nat} (fsqrt : K → K) (vs : List (RealType K))
    (s : MovingAverageN K N × NDayType K N) :
    (MovingAverageN.feed fsqrt vs s).1.portion = s.1.portion := by
  induction vs generalizing s with
  | nil => rfl
  | cons v vs ih => rw [MovingAverageN.feed, ih, MovingAverageN.update_portion]

/-- The reset of an accumulator that was constructed and then fed is the freshly
constructed accumulator. -/
theorem MovingAverageN.reset_feed {N : Nat} (fsqrt : K → K) (ws : List (RealType K))
    (nd0 : NDayType K N) :
    MovingAverageN.reset (MovingAverageN.feed fsqrt ws (MovingAverageN.init K N, nd0)).1 =
      MovingAverageN.init K N := by
  have hp := MovingAverageN.feed_portion fsqrt ws (MovingAverageN.init K N, nd0)
  simp only [MovingAverageN.reset, MovingAverageN.init] at hp ⊢
  rw [hp]

theorem MovingAverages.update_keeps_portions (fsqrt : K → K) (mas : MovingAverages K)
    (v : RealType K) (sd : StatisticalData K) :
    (MovingAverages.update fsqrt mas v sd).1.ten.portion = mas.ten.portion ∧
    (MovingAverages.update fsqrt mas v sd).1.fifty.portion = mas.fifty.portion := by
  by_cases hv : RealType.is_valid v = true
  · simp only [MovingAverages.update, hv, if_true]
    exact ⟨MovingAverageN.update_portion _ _ _ _, MovingAverageN.update_portion _ _ _ _⟩
  · simp [MovingAverages.update, hv]

theorem MovingAverages.feed_keeps_portions (fsqrt : K → K) (vs : List (RealType K))
    (s : MovingAverages K × StatisticalData K) :
    (MovingAverages.feed fsqrt vs s).1.ten.portion = s.1.ten.portion ∧
    (MovingAverages.feed fsqrt vs s).1.fifty.portion = s.1.fifty.portion := by
  induction vs generalizing s with
  | nil => exact ⟨rfl, rfl⟩
  | cons v vs ih =>
    rw [MovingAverages.feed]
    obtain ⟨h1, h2⟩ := ih (MovingAverages.update fsqrt s.1 v s.2)
    obtain ⟨g1, g2⟩ := MovingAverages.update_keeps_portions fsqrt s.1 v s.2
    exact ⟨h1.trans g1, h2.trans g2⟩

theorem MovingAverages.reset_after_feed (fsqrt : K → K) (ws : List (RealType K))
    (sd0 : StatisticalData K) :
    MovingAverages.reset (MovingAverages.feed fsqrt ws (MovingAverages.init K, sd0)).1 =
      MovingAverages.init K := by
  obtain ⟨h1, h2⟩ := MovingAverages.feed_keeps_portions fsqrt ws (MovingAverages.init K, sd0)
  simp only [MovingAverages.reset, MovingAverageN.reset, MovingAverages.init,
    MovingAverageN.init] at h1 h2 ⊢
  rw [h1, h2]

/-- C16: after `reset()` the buffer is empty and the running mean is invalid, and for
every sequence of values and every supplied residual set, feeding the sequence to an
accumulator that was constructed, fed anything and then reset writes exactly what
feeding it to a newly constructed accumulator writes; the same for the pair of
accumulators of `MovingAverages`. -/
theorem reset_is_fresh {N : Nat} (fsqrt : K → K) :
    (∀ ma : MovingAverageN K N,
      (MovingAverageN.reset ma).running_value = [] ∧
      RealType.is_invalid (MovingAverageN.reset ma).mean = true) ∧
    (∀ (ws vs : List (RealType K)) (nd0 nd : NDayType K N),
      MovingAverageN.feed fsqrt vs
        (MovingAverageN.reset
          (MovingAverageN.feed fsqrt ws (MovingAverageN.init K N, nd0)).1, nd) =
      MovingAverageN.feed fsqrt vs (MovingAverageN.init K N, nd)) ∧
    (∀ (ws vs : List (RealType K)) (sd0 sd : StatisticalData K),
      MovingAverages.feed fsqrt vs
        (MovingAverages.reset
          (MovingAverages.feed fsqrt ws (MovingAverages.init K, sd0)).1, sd) =
      MovingAverages.feed fsqrt vs (MovingAverages.init K, sd)) := by
  refine ⟨fun ma => ⟨rfl, rfl⟩, ?_, ?_⟩
  · intro ws vs nd0 nd
    rw [MovingAverageN.reset_feed]
  · intro ws vs sd0 sd
    rw [MovingAverages.reset_after_feed]

end Accumulator_frame

/-! ## The rolling window -/

section Window_closed_form

variable {K : Type} [LinearOrderedField K]

theorem MovingAverageN.update_eq {N : Nat} (fsqrt : K → K) (ma : MovingAverageN K N)
    (v : RealType K) (nd : NDayType K N) :
    MovingAverageN.update fsqrt ma v nd =
      if h : N = (MovingAverageN.push ma v).running_value.length then
        (MovingAverageN.push ma v, MovingAverageN.write fsqrt (MovingAverageN.push ma v) h nd)
      else (MovingAverageN.push ma v, nd) := rfl

theorem last_n_length {α : Type} (N : Nat) (l : List α) :
    (last_n N l).length = min l.length N := by
  simp only [last_n, List.length_drop]
  omega

theorem last_n_of_length_le {α : Type} {N : Nat} {l : List α} (h : l.length ≤ N) :
    last_n N l = l := by
  simp [last_n, Nat.sub_eq_zero_of_le h]

theorem last_n_append {α : Type} (N : Nat) (a b : List α) :
    last_n N (last_n N a ++ b) = last_n N (a ++ b) := by
  simp only [last_n]
  rw [← List.drop_append_of_le_length (Nat.sub_le _ _), List.drop_drop]
  congr 1
  simp only [List.length_drop, List.length_append]
  omega

theorem init_portion {N : Nat} (hN : 0 < N) :
    (MovingAverageN.init K N).portion = RealType.num (1 / (N : K)) := by
  have h0 : ¬ 0 = N := by omega
  have hK : (N : K) ≠ 0 := Nat.cast_ne_zero.mpr (by omega)
  simp [MovingAverageN.init, h0, RealType.div, RealType.prim_div, hK]

theorem window_state_nil (N : Nat) : window_state N ([] : List K) = MovingAverageN.init K N := by
  simp [window_state, MovingAverageN.init, RealType.invalid_value]

end Window_closed_form

section Window_closed_form2

variable {K : Type} [LinearOrderedField K]

/-- Pushing a valid value into the accumulator of the window `w` gives the
accumulator of the window `last_n N (w ++ [v])`. -/
theorem push_window {N : Nat} (hN : 0 < N) (w : List K) (hw : w.length ≤ N) (v : K) :
    MovingAverageN.push (window_state N w) (RealType.num v) =
      window_state N (last_n N (w ++ [v])) := by
  have hp := @init_portion K _ N hN
  rcases Nat.lt_or_ge w.length N with hlt | hge
  · have hl : last_n N (w ++ [v]) = w ++ [v] :=
      last_n_of_length_le (by rw [List.length_append, List.length_singleton]; omega)
    have hnot : ¬ N < (List.map RealType.num w ++ [RealType.num v]).length := by
      simp only [List.length_append, List.length_map, List.length_singleton]; omega
    rw [hl]
    simp only [MovingAverageN.push, window_state, if_neg hnot, hp]
    cases w with
    | nil =>
      simp [RealType.add, RealType.mul, RealType.prim_mul, RealType.is_invalid,
        mean_from_scratch]
      ring
    | cons a l =>
      simp [RealType.add, RealType.mul, RealType.prim_mul, RealType.prim_add,
        RealType.is_invalid, mean_from_scratch]
      ring
  · have hlen : w.length = N := by omega
    cases w with
    | nil => simp at hlen; omega
    | cons a l =>
      have h1 : (a :: l ++ [v]).length - N = 1 := by
        simp only [List.length_append, List.length_cons, List.length_singleton,
          List.length_nil] at hlen ⊢
        omega
      have hl : last_n N (a :: l ++ [v]) = l ++ [v] := by
        rw [last_n, h1]
        rfl
      have hyes : N < (List.map RealType.num (a :: l) ++ [RealType.num v]).length := by
        simp only [List.length_append, List.length_map, List.length_singleton]; omega
      rw [hl]
      simp only [MovingAverageN.push, window_state, if_pos hyes, hp]
      simp [RealType.add, RealType.sub, RealType.mul, RealType.prim_mul,
        RealType.prim_add, RealType.prim_sub, RealType.is_invalid, mean_from_scratch]
      ring

end Window_closed_form2

theorem NDayType.ext_fields {K : Type} {N : Nat} {a b : NDayType K N} (h1 : a.mean = b.mean)
    (h2 : ∀ i, a.residual i = b.residual i)
    (h3 : a.root_mean_square = b.root_mean_square) : a = b := by
  cases a; cases b
  simp only [NDayType.mk.injEq]
  exact ⟨h1, funext h2, h3⟩

section Window_closed_form3

variable {K : Type} [LinearOrderedField K]

/-- The residual loop over valid values with a valid mean, once the accumulated sum of
squares is a number: every index met gets the residual `x i - μ` and its square is
added. -/
theorem residual_loop_num {N : Nat} (x : Fin N → K) (μ : K) (is : List (Fin N))
    (nd : NDayType K N) (s : K) (hm : nd.mean = RealType.num μ)
    (hs : nd.root_mean_square = RealType.num s) :
    (MovingAverageN.residual_loop (fun i => RealType.num (x i)) nd is).mean
      = RealType.num μ ∧
    (∀ j, (MovingAverageN.residual_loop (fun i => RealType.num (x i)) nd is).residual j =
      if j ∈ is then RealType.num (x j - μ) else nd.residual j) ∧
    (MovingAverageN.residual_loop (fun i => RealType.num (x i)) nd is).root_mean_square =
      RealType.num (s + (is.map (fun i => (x i - μ) ^ 2)).sum) := by
  induction is generalizing nd s with
  | nil => simp [MovingAverageN.residual_loop, hm, hs]
  | cons i is ih =>
    have hstep := ih
      { nd with
        residual := Function.update nd.residual i
          (RealType.sub (RealType.num (x i)) nd.mean),
        root_mean_square := RealType.add nd.root_mean_square
          (RealType.mul (RealType.sub (RealType.num (x i)) nd.mean)
            (RealType.sub (RealType.num (x i)) nd.mean)) }
      (s + (x i - μ) ^ 2) hm
      (by simp [hm, hs, RealType.sub, RealType.add, RealType.mul, RealType.prim_sub,
            RealType.prim_add, RealType.prim_mul, RealType.is_invalid, pow_two])
    obtain ⟨h1, h2, h3⟩ := hstep
    simp only [MovingAverageN.residual_loop, List.foldl_cons] at h1 h2 h3 ⊢
    refine ⟨h1, ?_, ?_⟩
    · intro j
      rw [h2 j]
      by_cases hj : j ∈ is
      · simp [hj]
      · by_cases hji : j = i
        · subst hji
          simp [hj, hm, RealType.sub, RealType.prim_sub, RealType.is_invalid]
        · simp [hj, hji]
    · rw [h3, List.map_cons, List.sum_cons, add_assoc]

/-- The residual loop started with an invalid sum of squares, over a non-empty list of
indices. -/
theorem residual_loop_nan {N : Nat} (x : Fin N → K) (μ : K) (i : Fin N)
    (is : List (Fin N)) (nd : NDayType K N) (hm : nd.mean = RealType.num μ)
    (hs : nd.root_mean_square = RealType.nan) :
    (MovingAverageN.residual_loop (fun i => RealType.num (x i)) nd (i :: is)).mean
      = RealType.num μ ∧
    (∀ j, (MovingAverageN.residual_loop (fun i => RealType.num (x i)) nd
        (i :: is)).residual j =
      if j ∈ i :: is then RealType.num (x j - μ) else nd.residual j) ∧
    (MovingAverageN.residual_loop (fun i => RealType.num (x i)) nd
        (i :: is)).root_mean_square =
      RealType.num (((i :: is).map (fun i => (x i - μ) ^ 2)).sum) := by
  obtain ⟨h1, h2, h3⟩ := residual_loop_num x μ is
      { nd with
        residual := Function.update nd.residual i
          (RealType.sub (RealType.num (x i)) nd.mean),
        root_mean_square := RealType.add nd.root_mean_square
          (RealType.mul (RealType.sub (RealType.num (x i)) nd.mean)
            (RealType.sub (RealType.num (x i)) nd.mean)) }
      ((x i - μ) ^ 2) hm
      (by simp [hm, hs, RealType.sub, RealType.add, RealType.mul, RealType.prim_sub,
            RealType.prim_mul, RealType.is_invalid, pow_two])
  simp only [MovingAverageN.residual_loop, List.foldl_cons] at h1 h2 h3 ⊢
  refine ⟨h1, ?_, ?_⟩
  · intro j
    rw [h2 j]
    by_cases hj : j ∈ is
    · simp [hj]
    · by_cases hji : j = i
      · subst hji
        simp [hj, hm, RealType.sub, RealType.prim_sub, RealType.is_invalid]
      · simp [hj, hji]
  · rw [h3, List.map_cons, List.sum_cons]

/-- Writing the residual set from the accumulator of a full window of valid values
gives the residual set of that window. -/
theorem write_window {N : Nat} (fsqrt : K → K) (hN : 0 < N) (w : List K)
    (h : N = (window_state N w).running_value.length) (nd : NDayType K N) :
    MovingAverageN.write fsqrt (window_state N w) h nd = residual_set_of fsqrt N w := by
  have hlen : w.length = N := by
    simpa [window_state] using h.symm
  have hne : w ≠ [] := by
    intro h0; rw [h0] at hlen; simp at hlen; omega
  have hval : (fun i : Fin N => (window_state N w).running_value.get (Fin.cast h i)) =
      fun i => RealType.num (w.getD i.val 0) := by
    funext i
    have hi : i.val < w.length := by rw [hlen]; exact i.isLt
    simp [window_state, List.getD_eq_getElem?_getD, List.getElem?_eq_getElem hi]
  obtain ⟨i0, is, hfin⟩ : ∃ i0 is, List.finRange N = i0 :: is := by
    cases hf : List.finRange N with
    | nil =>
      have := congrArg List.length hf
      simp at this; omega
    | cons i0 is => exact ⟨i0, is, rfl⟩
  have hmem : ∀ j : Fin N, j ∈ i0 :: is := by
    intro j; rw [← hfin]; exact List.mem_finRange j
  obtain ⟨h1, h2, h3⟩ := residual_loop_nan (fun i : Fin N => w.getD i.val 0)
    (mean_from_scratch N w) i0 is
    { nd with root_mean_square := RealType.invalid_value,
              mean := (window_state N w).mean }
    (by simp [window_state, hne]) rfl
  apply NDayType.ext_fields
  · simp only [MovingAverageN.write, hval, hfin]
    exact h1
  · intro j
    simp only [MovingAverageN.write, hval, hfin]
    rw [h2 j, if_pos (hmem j)]
    rfl
  · simp only [MovingAverageN.write, hval, hfin]
    rw [h3, ← hfin, ← Fin.sum_univ_def]
    have hnn : ¬ (∑ i : Fin N, (w.getD i.val 0 - mean_from_scratch N w) ^ 2) < 0 :=
      not_lt_of_le (Finset.sum_nonneg (fun i _ => sq_nonneg _))
    simp only [RealType.prim_sqrt, if_neg hnn, residual_set_of]

end Window_closed_form3

section Window_closed_form4

variable {K : Type} [LinearOrderedField K]

/-- One update of the accumulator of the window `w` with a valid value. -/
theorem update_window {N : Nat} (fsqrt : K → K) (hN : 0 < N) (w : List K)
    (hw : w.length ≤ N) (v : K) (nd : NDayType K N) :
    MovingAverageN.update fsqrt (window_state N w) (RealType.num v) nd =
      (window_state N (last_n N (w ++ [v])),
       if (w ++ [v]).length < N then nd
       else residual_set_of fsqrt N (last_n N (w ++ [v]))) := by
  rw [MovingAverageN.update_eq, push_window hN w hw v]
  have hl := last_n_length N (w ++ [v])
  by_cases hfull : (w ++ [v]).length < N
  · have hne : ¬ N = (window_state N (last_n N (w ++ [v]))).running_value.length := by
      simp only [window_state, List.length_map, hl]; omega
    rw [dif_neg hne, if_pos hfull]
  · have heq : N = (window_state N (last_n N (w ++ [v]))).running_value.length := by
      simp only [window_state, List.length_map, hl]; omega
    rw [dif_pos heq, if_neg hfull, write_window fsqrt hN _ heq nd]

/-- Closed form of feeding valid values `vs` to the accumulator of the window `w`. -/
theorem feed_window {N : Nat} (fsqrt : K → K) (hN : 0 < N) (vs w : List K)
    (hw : w.length ≤ N) (nd : NDayType K N) :
    MovingAverageN.feed fsqrt (vs.map RealType.num) (window_state N w, nd) =
      (window_state N (last_n N (w ++ vs)),
       if vs = [] ∨ (w ++ vs).length < N then nd
       else residual_set_of fsqrt N (last_n N (w ++ vs))) := by
  induction vs generalizing w nd with
  | nil => simp [MovingAverageN.feed, last_n_of_length_le hw]
  | cons v vs ih =>
    rw [List.map_cons, MovingAverageN.feed, update_window fsqrt hN w hw v nd]
    have hl := last_n_length N (w ++ [v])
    rw [ih (last_n N (w ++ [v])) (by rw [hl]; exact Nat.min_le_right _ _), last_n_append,
      List.append_assoc, List.singleton_append]
    congr 1
    simp only [List.length_append, List.length_cons, List.length_nil, hl] at *
    by_cases hvs : vs = []
    · subst hvs
      simp
    · have hpos : 0 < vs.length := List.length_pos.mpr hvs
      by_cases hshort : w.length + (vs.length + 1) < N
      · have h1 : min (w.length + 1) N + vs.length < N := by omega
        have h2 : w.length + (0 + 1) < N := by omega
        simp [hvs, hshort, h1, h2]
      · have h1 : ¬ min (w.length + 1) N + vs.length < N := by omega
        simp [hvs, hshort, h1]

/-- Closed form of feeding valid values to a freshly constructed accumulator. -/
theorem feed_fresh {N : Nat} (fsqrt : K → K) (hN : 0 < N) (vs : List K)
    (nd : NDayType K N) :
    MovingAverageN.feed fsqrt (vs.map RealType.num) (MovingAverageN.init K N, nd) =
      (window_state N (last_n N vs),
       if vs.length < N then nd else residual_set_of fsqrt N (last_n N vs)) := by
  rw [← window_state_nil, feed_window fsqrt hN vs [] (Nat.zero_le _) nd]
  simp only [List.nil_append]
  congr 1
  by_cases hvs : vs = []
  · subst hvs
    simp [hN]
  · simp [hvs]

end Window_closed_form4

section Window_claims

variable {K : Type} [LinearOrderedField K]

theorem getD_ofFn {N : Nat} (v : Fin N → K) (i : Fin N) :
    (List.ofFn v).getD i.val 0 = v i := by
  have hi : i.val < (List.ofFn v).length := by rw [List.length_ofFn]; exact i.isLt
  rw [List.getD_eq_getElem _ _ hi, List.getElem_ofFn]

/-- C11: for a window length `N ≥ 1` (so for 10 and 50), a freshly constructed
`MovingAverageN` and any `N` valid values `v 0 .. v (N-1)` fed in order through `update`,
the residual set written by the `N`-th update has `mean = (∑ v) / N`,
`residual[i] = v i - mean` for every `i`, and the residuals sum to 0. -/
theorem fresh_window_mean_residuals {N : Nat} (fsqrt : K → K) (hN : 0 < N)
    (v : Fin N → K) (nd0 : NDayType K N) :
    (MovingAverageN.feed fsqrt (List.ofFn (fun i => RealType.num (v i)))
        (MovingAverageN.init K N, nd0)).2.mean = RealType.num ((∑ i, v i) / N) ∧
    (∀ i, (MovingAverageN.feed fsqrt (List.ofFn (fun i => RealType.num (v i)))
        (MovingAverageN.init K N, nd0)).2.residual i =
      RealType.num (v i - (∑ j, v j) / N)) ∧
    ∑ i, (v i - (∑ j, v j) / N) = 0 := by
  have hmap : List.ofFn (fun i => RealType.num (v i)) =
      (List.ofFn v).map RealType.num := by
    rw [List.map_ofFn]; rfl
  have hlen : (List.ofFn v).length = N := List.length_ofFn v
  have hnot : ¬ (List.ofFn v).length < N := by omega
  have hmean : mean_from_scratch N (List.ofFn v) = (∑ i, v i) / N := by
    rw [mean_from_scratch, List.sum_ofFn]
  rw [hmap, feed_fresh fsqrt hN, if_neg hnot, last_n_of_length_le (Nat.le_of_eq hlen)]
  refine ⟨?_, ?_, ?_⟩
  · simp only [residual_set_of, hmean]
  · intro i
    simp only [residual_set_of, hmean, getD_ofFn]
  · have hK : (N : K) ≠ 0 := Nat.cast_ne_zero.mpr (by omega)
    rw [Finset.sum_sub_distrib, Finset.sum_const, Finset.card_univ, Fintype.card_fin,
      nsmul_eq_mul, mul_div_cancel₀ _ hK, sub_self]

/-- C12: after feeding `m ≥ N` valid values to a fresh `MovingAverageN` (`N ≥ 1`), the
buffer holds exactly the last `N` values in arrival order (after any number of updates
its length is at most `N`), the incrementally maintained mean equals the mean recomputed
from scratch over the last `N` values, and `residual[i] = v (m - N + i) - mean`. -/
theorem window_holds_last_values {N : Nat} (fsqrt : K → K) (hN : 0 < N) (vs : List K)
    (hm : N ≤ vs.length) (nd0 : NDayType K N) :
    (MovingAverageN.feed fsqrt (vs.map RealType.num)
        (MovingAverageN.init K N, nd0)).1.running_value =
      (vs.drop (vs.length - N)).map RealType.num ∧
    (∀ us : List K, (MovingAverageN.feed fsqrt (us.map RealType.num)
        (MovingAverageN.init K N, nd0)).1.running_value.length ≤ N) ∧
    (MovingAverageN.feed fsqrt (vs.map RealType.num)
        (MovingAverageN.init K N, nd0)).1.mean =
      RealType.num ((vs.drop (vs.length - N)).sum / N) ∧
    (MovingAverageN.feed fsqrt (vs.map RealType.num)
        (MovingAverageN.init K N, nd0)).2.mean =
      RealType.num ((vs.drop (vs.length - N)).sum / N) ∧
    (∀ i : Fin N, ∃ x, vs[vs.length - N + i.val]? = some x ∧
      (MovingAverageN.feed fsqrt (vs.map RealType.num)
        (MovingAverageN.init K N, nd0)).2.residual i =
      RealType.num (x - (vs.drop (vs.length - N)).sum / N)) := by
  have hnot : ¬ vs.length < N := by omega
  have hne : last_n N vs ≠ [] := by
    intro h0
    have := last_n_length N vs
    rw [h0] at this
    simp at this
    omega
  refine ⟨?_, ?_, ?_, ?_, ?_⟩
  · rw [feed_fresh fsqrt hN]; rfl
  · intro us
    rw [feed_fresh fsqrt hN]
    simp only [window_state, List.length_map, last_n_length]
    exact Nat.min_le_right _ _
  · rw [feed_fresh fsqrt hN]
    simp only [window_state, if_neg hne]
    rfl
  · rw [feed_fresh fsqrt hN, if_neg hnot]; rfl
  · intro i
    have hi : vs.length - N + i.val < vs.length := by have := i.isLt; omega
    refine ⟨vs[vs.length - N + i.val], List.getElem?_eq_getElem hi, ?_⟩
    rw [feed_fresh fsqrt hN, if_neg hnot]
    have hi2 : i.val < (last_n N vs).length := by
      rw [last_n_length]; have := i.isLt; omega
    have hget : (last_n N vs).getD i.val 0 = vs[vs.length - N + i.val] := by
      rw [List.getD_eq_getElem _ _ hi2]
      simp only [last_n, List.getElem_drop]
    simp only [residual_set_of, hget]
    rfl

end Window_claims

section Window_claims2

variable {K : Type} [LinearOrderedField K]

/-- C13: with `fsqrt` a square root on the non-negative numbers, whenever an update of
an accumulator fed with valid values leaves the window full (`N ≥ 1`, at least `N`
values fed), the rms it writes is a non-negative number with
`rms^2 = ∑ i, residual[i]^2`.  For `N = 10` and the inputs 1, 2, ..., 10 the result is
mean 5.5, residuals -4.5, -3.5, ..., 4.5 and `rms = fsqrt 82.5`, for every `fsqrt`. -/
theorem rms_is_root_of_sum {N : Nat} (fsqrt : K → K)
    (hsqrt : ∀ x, 0 ≤ x → 0 ≤ fsqrt x ∧ fsqrt x ^ 2 = x) (hN : 0 < N) (vs : List K)
    (hm : N ≤ vs.length) (nd0 : NDayType K N) :
    (∃ (r : Fin N → K) (rho : K),
      (∀ i, (MovingAverageN.feed fsqrt (vs.map RealType.num)
        (MovingAverageN.init K N, nd0)).2.residual i = RealType.num (r i)) ∧
      (MovingAverageN.feed fsqrt (vs.map RealType.num)
        (MovingAverageN.init K N, nd0)).2.root_mean_square = RealType.num rho ∧
      0 ≤ rho ∧ rho ^ 2 = ∑ i, r i ^ 2) ∧
    (∀ (g : K → K) (nd10 : NDayType K 10),
      (MovingAverageN.feed g
          (([1, 2, 3, 4, 5, 6, 7, 8, 9, 10] : List K).map RealType.num)
          (MovingAverageN.init K 10, nd10)).2.mean = RealType.num (11 / 2) ∧
      (∀ i : Fin 10, (MovingAverageN.feed g
          (([1, 2, 3, 4, 5, 6, 7, 8, 9, 10] : List K).map RealType.num)
          (MovingAverageN.init K 10, nd10)).2.residual i =
        RealType.num ((i.val : K) + 1 - 11 / 2)) ∧
      (MovingAverageN.feed g
          (([1, 2, 3, 4, 5, 6, 7, 8, 9, 10] : List K).map RealType.num)
          (MovingAverageN.init K 10, nd10)).2.root_mean_square =
        RealType.num (g (165 / 2))) := by
  constructor
  · rw [feed_fresh fsqrt hN, if_neg (by omega)]
    have hnn : 0 ≤ ∑ i : Fin N,
        ((last_n N vs).getD i.val 0 - mean_from_scratch N (last_n N vs)) ^ 2 :=
      Finset.sum_nonneg (fun i _ => sq_nonneg _)
    obtain ⟨h1, h2⟩ := hsqrt _ hnn
    exact ⟨fun i => (last_n N vs).getD i.val 0 - mean_from_scratch N (last_n N vs), _,
      fun _ => rfl, rfl, h1, h2⟩
  · intro g nd10
    have hmean : mean_from_scratch 10 ([1, 2, 3, 4, 5, 6, 7, 8, 9, 10] : List K)
        = 11 / 2 := by
      simp [mean_from_scratch]; norm_num
    rw [feed_fresh g (by decide), if_neg (by simp), last_n_of_length_le (by simp)]
    simp only [residual_set_of, hmean]
    refine ⟨trivial, ?_, ?_⟩
    · intro i
      fin_cases i <;> simp <;> norm_num
    · congr 2
      simp [Fin.sum_univ_succ]
      norm_num

end Window_claims2

/-! ## Instances of the accumulator and sentinel theorems -/

/-- C11 at `N = 2` with the values 1 and 3. -/
theorem fresh_window_mean_residuals_witness :
    0 < 2 ∧
    ((MovingAverageN.feed (fun x : ℚ => x) (List.ofFn (fun i => RealType.num (![1, 3] i)))
        (MovingAverageN.init ℚ 2, NDayType.init ℚ 2)).2.mean
        = RealType.num ((∑ i, (![1, 3] : Fin 2 → ℚ) i) / (2 : ℕ)) ∧
    (∀ i, (MovingAverageN.feed (fun x : ℚ => x)
        (List.ofFn (fun i => RealType.num (![1, 3] i)))
        (MovingAverageN.init ℚ 2, NDayType.init ℚ 2)).2.residual i =
      RealType.num ((![1, 3] : Fin 2 → ℚ) i - (∑ j, (![1, 3] : Fin 2 → ℚ) j) / (2 : ℕ))) ∧
    ∑ i, ((![1, 3] : Fin 2 → ℚ) i - (∑ j, (![1, 3] : Fin 2 → ℚ) j) / (2 : ℕ)) = 0) :=
  ⟨by decide,
   fresh_window_mean_residuals (fun x : ℚ => x) (by decide) ![1, 3] (NDayType.init ℚ 2)⟩

/-- C12 at `N = 2` with the values 1, 2, 3. -/
theorem window_holds_last_values_witness :
    (0 < 2 ∧ 2 ≤ ([1, 2, 3] : List ℚ).length) ∧
    ((MovingAverageN.feed (fun x : ℚ => x) (([1, 2, 3] : List ℚ).map RealType.num)
        (MovingAverageN.init ℚ 2, NDayType.init ℚ 2)).1.running_value =
      (([1, 2, 3] : List ℚ).drop (([1, 2, 3] : List ℚ).length - 2)).map RealType.num ∧
    (∀ us : List ℚ, (MovingAverageN.feed (fun x : ℚ => x) (us.map RealType.num)
        (MovingAverageN.init ℚ 2, NDayType.init ℚ 2)).1.running_value.length ≤ 2) ∧
    (MovingAverageN.feed (fun x : ℚ => x) (([1, 2, 3] : List ℚ).map RealType.num)
        (MovingAverageN.init ℚ 2, NDayType.init ℚ 2)).1.mean =
      RealType.num ((([1, 2, 3] : List ℚ).drop (([1, 2, 3] : List ℚ).length - 2)).sum
        / (2 : ℕ)) ∧
    (MovingAverageN.feed (fun x : ℚ => x) (([1, 2, 3] : List ℚ).map RealType.num)
        (MovingAverageN.init ℚ 2, NDayType.init ℚ 2)).2.mean =
      RealType.num ((([1, 2, 3] : List ℚ).drop (([1, 2, 3] : List ℚ).length - 2)).sum
        / (2 : ℕ)) ∧
    (∀ i : Fin 2, ∃ x, ([1, 2, 3] : List ℚ)[([1, 2, 3] : List ℚ).length - 2 + i.val]?
        = some x ∧
      (MovingAverageN.feed (fun x : ℚ => x) (([1, 2, 3] : List ℚ).map RealType.num)
        (MovingAverageN.init ℚ 2, NDayType.init ℚ 2)).2.residual i =
      RealType.num (x - (([1, 2, 3] : List ℚ).drop (([1, 2, 3] : List ℚ).length - 2)).sum
        / (2 : ℕ)))) :=
  ⟨by decide,
   window_holds_last_values (fun x : ℚ => x) (by decide) [1, 2, 3] (by decide)
     (NDayType.init ℚ 2)⟩

/-- C13 over the real numbers with `Real.sqrt`, at `N = 2` with the values 1 and 3. -/
theorem rms_is_root_of_sum_witness :
    ((∀ x : ℝ, 0 ≤ x → 0 ≤ Real.sqrt x ∧ Real.sqrt x ^ 2 = x) ∧ 0 < 2 ∧
      2 ≤ ([1, 3] : List ℝ).length) ∧
    ∃ (r : Fin 2 → ℝ) (rho : ℝ),
      (∀ i, (MovingAverageN.feed Real.sqrt (([1, 3] : List ℝ).map RealType.num)
        (MovingAverageN.init ℝ 2, NDayType.init ℝ 2)).2.residual i = RealType.num (r i)) ∧
      (MovingAverageN.feed Real.sqrt (([1, 3] : List ℝ).map RealType.num)
        (MovingAverageN.init ℝ 2, NDayType.init ℝ 2)).2.root_mean_square
        = RealType.num rho ∧
      0 ≤ rho ∧ rho ^ 2 = ∑ i, r i ^ 2 :=
  ⟨⟨fun x hx => ⟨Real.sqrt_nonneg x, Real.sq_sqrt hx⟩, by decide, by decide⟩,
   (rms_is_root_of_sum Real.sqrt (fun x hx => ⟨Real.sqrt_nonneg x, Real.sq_sqrt hx⟩)
     (by decide) [1, 3] (by decide) (NDayType.init ℝ 2)).1⟩

/-- C15 on the stream 1, invalid, 2. -/
theorem update_skips_invalid_witness :
    RealType.is_invalid (RealType.nan : RealType ℚ) = true ∧
    MovingAverages.update (fun x : ℚ => x) (MovingAverages.init ℚ) RealType.nan
        (StatisticalData.init ℚ) =
      (MovingAverages.init ℚ, { StatisticalData.init ℚ with value := RealType.nan }) ∧
    (MovingAverages.feed (fun x : ℚ => x) [RealType.num 1, RealType.nan, RealType.num 2]
        (MovingAverages.init ℚ, StatisticalData.init ℚ)).2.ten_day =
      (MovingAverages.feed (fun x : ℚ => x)
        ([RealType.num 1, RealType.nan, RealType.num 2].filter RealType.is_valid)
        (MovingAverages.init ℚ, StatisticalData.init ℚ)).2.ten_day :=
  ⟨rfl,
   ((update_skips_invalid (fun x : ℚ => x)).1 (MovingAverages.init ℚ) RealType.nan
      (StatisticalData.init ℚ) rfl).1,
   ((update_skips_invalid (fun x : ℚ => x)).2
      [RealType.num 1, RealType.nan, RealType.num 2]
      (MovingAverages.init ℚ, StatisticalData.init ℚ)).2.1⟩

/-- C17 at the values 2 and 5. -/
theorem sentinel_add_sub_witness :
    RealType.is_invalid (RealType.nan : RealType ℚ) = true ∧
    RealType.is_valid (RealType.num (5 : ℚ)) = true ∧
    RealType.add (RealType.num (2 : ℚ)) RealType.nan = RealType.num 2 ∧
    RealType.sub (RealType.num (2 : ℚ)) RealType.nan = RealType.num 2 ∧
    RealType.add RealType.nan (RealType.num (5 : ℚ)) = RealType.num 5 ∧
    RealType.sub RealType.nan (RealType.num (5 : ℚ)) =
      RealType.prim_sub (RealType.num 0) (RealType.num 5) ∧
    IntegerType.add ⟨-1⟩ ⟨5⟩ = ⟨5⟩ ∧ IntegerType.sub ⟨-1⟩ ⟨5⟩ = ⟨0 - 5⟩ :=
  ⟨rfl, rfl,
   ((@sentinel_add_sub ℚ _).1 (RealType.num 2) RealType.nan rfl).1,
   ((@sentinel_add_sub ℚ _).1 (RealType.num 2) RealType.nan rfl).2,
   ((@sentinel_add_sub ℚ _).2.1 RealType.nan (RealType.num 5) rfl rfl).1,
   ((@sentinel_add_sub ℚ _).2.1 RealType.nan (RealType.num 5) rfl rfl).2,
   ((@sentinel_add_sub ℚ _).2.2.2.2.2.1 ⟨-1⟩ ⟨5⟩ (by decide) (by decide)).1,
   ((@sentinel_add_sub ℚ _).2.2.2.2.2.1 ⟨-1⟩ ⟨5⟩ (by decide) (by decide)).2⟩

/-- C18 (amended) at an invalid left operand and the value 5. -/
theorem sentinel_mul_div_witness :
    (RealType.is_invalid (RealType.nan : RealType ℚ) = true ∨
      RealType.is_invalid (RealType.num (5 : ℚ)) = true) ∧
    RealType.is_invalid (RealType.mul RealType.nan (RealType.num (5 : ℚ))) = true ∧
    RealType.is_invalid (RealType.div RealType.nan (RealType.num (5 : ℚ))) = true :=
  ⟨Or.inl rfl, (@sentinel_mul_div ℚ _).1 RealType.nan (RealType.num 5) (Or.inl rfl)⟩

/-! ## The worker loop -/

theorem visit_element_cursor {α : Type} (m : CrossCorrelation α) (e : Element)
    (v : RowColPair → α → α) : (m.visit_element e v).queued_element = m.queued_element := by
  unfold CrossCorrelation.visit_element
  split <;> rfl

theorem visit_element_length {α : Type} (m : CrossCorrelation α) (e : Element)
    (v : RowColPair → α → α) : (m.visit_element e v).slice.length = m.slice.length := by
  unfold CrossCorrelation.visit_element
  split
  · simp
  · rfl

/-- The store after `visit_element`: the cell of `e` is replaced by the visitor's
result, every other cell is kept. -/
theorem visit_element_getElem? {α : Type} (m : CrossCorrelation α) (e : Element)
    (v : RowColPair → α → α) (j : Nat) :
    (m.visit_element e v).slice[j]? =
      if j = e.index then (m.slice[j]?).map (v e.rc) else m.slice[j]? := by
  unfold CrossCorrelation.visit_element
  by_cases h : m.slice.length > e.index
  · rw [dif_pos h]
    by_cases hj : j = e.index
    · subst hj
      simp only [if_pos, List.getElem?_eq_getElem h, Option.map_some', List.get_eq_getElem]
      rw [List.getElem?_eq_getElem (by rw [List.length_set]; exact h), List.getElem_set_self]
    · rw [if_neg hj]
      simp only []
      rw [List.getElem?_set_ne (Ne.symm hj)]
  · rw [dif_neg h]
    by_cases hj : j = e.index
    · subst hj
      rw [if_pos rfl, List.getElem?_eq_none (by omega)]
      rfl
    · rw [if_neg hj]

/-- The result of `get_next_element` and the next cursor depend only on the cursor and
the length of the store. -/
theorem get_next_element_congr {α β : Type} (m : CrossCorrelation α)
    (m2 : CrossCorrelation β) (hq : m.queued_element = m2.queued_element)
    (hl : m.slice.length = m2.slice.length) :
    m.get_next_element.1 = m2.get_next_element.1 ∧
    m.get_next_element.2.queued_element = m2.get_next_element.2.queued_element := by
  simp only [CrossCorrelation.get_next_element, hq, hl, and_self]

section Worker_loop

variable {K : Type} [LinearOrderedField K]

/-- The matrix after `k` iterations of the loop body has the cursor after `k` calls
and the store length of the initial matrix. -/
theorem loop_state_cursor (fmin : K) (mean : List (StatisticalData K))
    (m0 : CrossCorrelation (Correlations K)) (k : Nat) :
    (CorrelationsThread.loop_state fmin mean (m0, []) k).1.queued_element =
      (m0.after_calls k).queued_element ∧
    (CorrelationsThread.loop_state fmin mean (m0, []) k).1.slice.length =
      m0.slice.length := by
  induction k with
  | zero => exact ⟨rfl, rfl⟩
  | succ k ih =>
    obtain ⟨hq, hl⟩ := ih
    have hl2 : (CorrelationsThread.loop_state fmin mean (m0, []) k).1.slice.length =
        (m0.after_calls k).slice.length := by rw [hl, after_calls_slice]
    obtain ⟨_, h2⟩ := get_next_element_congr _ _ hq hl2
    simp only [CorrelationsThread.loop_state, CorrelationsThread.loop_body,
      visit_element_cursor, visit_element_length, CrossCorrelation.after_calls]
    exact ⟨h2, by rw [get_next_element_slice, hl]⟩

/-- The call of `get_next_element` made in iteration `k` returns what call number `k`
on the initial matrix returns. -/
theorem loop_state_call (fmin : K) (mean : List (StatisticalData K))
    (m0 : CrossCorrelation (Correlations K)) (k : Nat) :
    (CorrelationsThread.loop_state fmin mean (m0, []) k).1.get_next_element.1 =
      m0.nth_call k := by
  obtain ⟨hq, hl⟩ := loop_state_cursor fmin mean m0 k
  have hl2 : (CorrelationsThread.loop_state fmin mean (m0, []) k).1.slice.length =
      (m0.after_calls k).slice.length := by rw [hl, after_calls_slice]
  exact (get_next_element_congr _ _ hq hl2).1

/-- While the calls return true, the fuelled loop follows the iterated loop body. -/
theorem worker_loop_steps (fmin : K) (mean : List (StatisticalData K))
    (m0 : CrossCorrelation (Correlations K)) (k : Nat)
    (htrue : ∀ j, j < k → (m0.nth_call j).1 = true) (fuel : Nat) :
    CorrelationsThread.worker_loop fmin mean (fuel + k) (m0, []) =
      CorrelationsThread.worker_loop fmin mean fuel
        (CorrelationsThread.loop_state fmin mean (m0, []) k) := by
  induction k generalizing fuel with
  | zero => rfl
  | succ k ih =>
    rw [show fuel + (k + 1) = (fuel + 1) + k by omega,
      ih (fun j hj => htrue j (by omega)) (fuel + 1), CorrelationsThread.worker_loop]
    have hk := htrue k (by omega)
    rw [← loop_state_call fmin mean m0 k] at hk
    rw [if_pos hk]
    rfl

end Worker_loop

section Worker_loop2

variable {K : Type} [LinearOrderedField K]

/-- The log after `k` iterations lists the elements of the first `k` calls, each with
its written flag. -/
theorem loop_state_log (fmin : K) (mean : List (StatisticalData K))
    (m0 : CrossCorrelation (Correlations K)) (k : Nat) :
    (CorrelationsThread.loop_state fmin mean (m0, []) k).2 =
      (List.range k).map (fun j => ((m0.nth_call j).2,
        decide (m0.slice.length > (m0.nth_call j).2.index ∧
          mean.length > (m0.nth_call j).2.rc.row ∧
          mean.length > (m0.nth_call j).2.rc.col))) := by
  induction k with
  | zero => rfl
  | succ k ih =>
    have hcall := loop_state_call fmin mean m0 k
    have hlen := (loop_state_cursor fmin mean m0 k).2
    simp only [CorrelationsThread.loop_state, CorrelationsThread.loop_body, ih, hcall,
      get_next_element_slice, hlen, List.range_succ, List.map_append, List.map_cons,
      List.map_nil]

/-- The store after `k` iterations: the first `k` cells hold the visitor's result, the
others are untouched. -/
theorem loop_state_slice (fmin : K) (mean : List (StatisticalData K))
    (m0 : CrossCorrelation (Correlations K)) (k : Nat)
    (hidx : ∀ i, i < k → (m0.nth_call i).2.index = i) (j : Nat) :
    (CorrelationsThread.loop_state fmin mean (m0, []) k).1.slice[j]? =
      if j < k then
        (m0.slice[j]?).map (CorrelationsVisitor.call fmin mean (m0.nth_call j).2.rc)
      else m0.slice[j]? := by
  induction k generalizing j with
  | zero => simp [CorrelationsThread.loop_state]
  | succ k ih =>
    have hcall := loop_state_call fmin mean m0 k
    have hih := fun j => ih (fun i hi => hidx i (by omega)) j
    have hk := hidx k (by omega)
    simp only [CorrelationsThread.loop_state, CorrelationsThread.loop_body]
    rw [visit_element_getElem?, hcall, hk, get_next_element_slice, hih j]
    by_cases hj : j = k
    · subst hj
      simp
    · by_cases hlt : j < k
      · simp [hj, hlt, Nat.lt_succ_of_lt hlt]
      · have h2 : ¬ j < k + 1 := by omega
        simp [hj, hlt, h2]

/-- On a matrix with a reset cursor and fewer than `2^32` cells the loop returns with
any fuel above the number of cells: the log lists the elements of the first calls and
every cell holds the visitor's result. -/
theorem worker_loop_returns (fmin : K) (mean : List (StatisticalData K))
    (m0 : CrossCorrelation (Correlations K)) (hq : m0.queued_element = ⟨⟨1, 0⟩, 0⟩)
    (hL : m0.slice.length < UINT_MOD) (fuel : Nat) (hfuel : m0.slice.length < fuel) :
    ∃ m1, CorrelationsThread.worker_loop fmin mean fuel (m0, []) =
        some (m1, (List.range m0.slice.length).map (fun j => ((m0.nth_call j).2,
          decide (m0.slice.length > (m0.nth_call j).2.index ∧
            mean.length > (m0.nth_call j).2.rc.row ∧
            mean.length > (m0.nth_call j).2.rc.col)))) ∧
      ∀ j, m1.slice[j]? =
        (m0.slice[j]?).map (CorrelationsVisitor.call fmin mean (m0.nth_call j).2.rc) := by
  have hcalls : ∀ j, j < UINT_MOD → (m0.nth_call j).1 = decide (m0.slice.length > j) ∧
      (m0.nth_call j).2.index = j := by
    intro j hj
    obtain ⟨r, c, _, _, hst⟩ := nth_call_small m0 hq j hj
    rw [hst]
    exact ⟨rfl, rfl⟩
  have htrue : ∀ j, j < m0.slice.length → (m0.nth_call j).1 = true := by
    intro j hj
    rw [(hcalls j (by omega)).1]
    simpa using hj
  have hfalse : (m0.nth_call m0.slice.length).1 = false := by
    rw [(hcalls _ hL).1]
    simp
  obtain ⟨f, rfl⟩ : ∃ f, fuel = f + 1 + m0.slice.length := ⟨fuel - 1 - m0.slice.length, by omega⟩
  rw [worker_loop_steps fmin mean m0 m0.slice.length htrue (f + 1),
    CorrelationsThread.worker_loop]
  have hlast := loop_state_call fmin mean m0 m0.slice.length
  rw [← hlast] at hfalse
  rw [if_neg (by rw [hfalse]; exact Bool.false_ne_true), loop_state_log]
  refine ⟨_, rfl, ?_⟩
  intro j
  rw [get_next_element_slice,
    loop_state_slice fmin mean m0 m0.slice.length (fun i hi => (hcalls i (by omega)).2) j]
  by_cases hj : j < m0.slice.length
  · rw [if_pos hj]
  · rw [if_neg hj, List.getElem?_eq_none (by omega)]
    rfl

end Worker_loop2

section Worker_loop3

variable {K : Type} [LinearOrderedField K]

/-- On a matrix sized for `1 ≤ n ≤ 65536`, call number `j < tri (n - 1)` returns true
with the coordinate `(r + 1, c)` of index `j`, whose row is below `n`. -/
theorem sized_nth_call {α : Type} [Inhabited α] (m : CrossCorrelation α) {n : Nat}
    (h1 : 1 ≤ n) (h : n ≤ 65536) (j : Nat) (hj : j < tri (n - 1)) :
    ∃ r c, c ≤ r ∧ tri r + c = j ∧ r + 1 < n ∧
      (m.size_for n).nth_call j = (true, ⟨⟨r + 1, c⟩, j⟩) := by
  have hlen : (m.size_for n).slice.length = tri (n - 1) := size_for_length_exact m h1 h
  obtain ⟨r, c, hc, hk1, hst⟩ :=
    nth_call_small (m.size_for n) rfl j (Nat.lt_trans hj (tri_le_of_le_65536 h))
  have hrn : r < n - 1 := by
    by_contra hge
    have := tri_mono (Nat.le_of_not_lt hge)
    omega
  refine ⟨r, c, hc, hk1, by omega, ?_⟩
  rw [hst, hlen]
  simp [hj]

theorem visitor_call_in_range (fmin : K) (mean : List (StatisticalData K))
    (rc : RowColPair) (corrs : Correlations K) (hr : rc.row < mean.length)
    (hc : rc.col < mean.length) :
    CorrelationsVisitor.call fmin mean rc corrs =
      ⟨CorrelatorN.compute fmin (mean.get ⟨rc.row, hr⟩).ten_day
          (mean.get ⟨rc.col, hc⟩).ten_day,
       CorrelatorN.compute fmin (mean.get ⟨rc.row, hr⟩).fifty_day
          (mean.get ⟨rc.col, hc⟩).fifty_day⟩ := by
  have hg : mean.length > rc.row ∧ mean.length > rc.col := ⟨hr, hc⟩
  simp only [CorrelationsVisitor.call, dif_pos hg, Correlator_compute]

/-- C20 (amended): for a day with `2 ≤ n ≤ 65536` loaded series and the matrix sized
with `size_for(n)`, the worker loop of one worker returns with any fuel above
`n(n-1)/2`; it dispatches `n(n-1)/2` elements, the visitor writes the cell of every one
of them (no guard skips), the coordinates dispatched are pairwise distinct and are
exactly the pairs with `0 ≤ col < row < n`, and at the end the cell of `(row, col)`
holds `ten_day = compute(series[row].ten_day, series[col].ten_day)` and
`fifty_day = compute(series[row].fifty_day, series[col].fifty_day)`. -/
theorem worker_loop_fills_matrix (fmin : K) (mean : List (StatisticalData K))
    (m : CrossCorrelation (Correlations K)) (h2 : 2 ≤ mean.length)
    (h : mean.length ≤ 65536) (fuel : Nat)
    (hfuel : mean.length * (mean.length - 1) / 2 < fuel) :
    ∃ m1 log,
      CorrelationsThread.worker_loop fmin mean fuel
        (CorrelationsThread.initialize_day m mean, []) = some (m1, log) ∧
      log.length = mean.length * (mean.length - 1) / 2 ∧
      (∀ x ∈ log, x.2 = true) ∧
      (log.map (fun x => x.1.rc)).Nodup ∧
      (∀ rc, rc ∈ log.map (fun x => x.1.rc) ↔ valid_rc mean.length rc) ∧
      (∀ rc, valid_rc mean.length rc → ∃ sr sc,
        mean[rc.row]? = some sr ∧ mean[rc.col]? = some sc ∧
        m1.slice[rc.row * (rc.row - 1) / 2 + rc.col]? =
          some ⟨CorrelatorN.compute fmin sr.ten_day sc.ten_day,
                CorrelatorN.compute fmin sr.fifty_day sc.fifty_day⟩) := by
  have hsize : CorrelationsVisitor.size mean = mean.length :=
    Nat.mod_eq_of_lt (by rw [UINT_MOD_eq]; omega)
  have hinit : CorrelationsThread.initialize_day m mean = m.size_for mean.length := by
    rw [CorrelationsThread.initialize_day, hsize]
  have hlen : (m.size_for mean.length).slice.length = tri (mean.length - 1) :=
    size_for_length_exact m (by omega) h
  have hL : tri (mean.length - 1) < UINT_MOD := tri_le_of_le_65536 h
  have hcall := fun j hj => sized_nth_call m (show 1 ≤ mean.length by omega) h j hj
  rw [tri_pred] at hfuel ⊢
  obtain ⟨m1, hloop, hcells⟩ := worker_loop_returns fmin mean (m.size_for mean.length) rfl
    (by rw [hlen]; exact hL) fuel (by rw [hlen]; exact hfuel)
  rw [hlen] at hloop
  refine ⟨m1, _, by rw [hinit]; exact hloop, by simp, ?_, ?_, ?_, ?_⟩
  · intro x hx
    simp only [List.mem_map, List.mem_range] at hx
    obtain ⟨j, hj, rfl⟩ := hx
    obtain ⟨r, c, hc, _, hrn, hst⟩ := hcall j hj
    simp only [hst, decide_eq_true_eq]
    exact ⟨hj, by omega, by omega⟩
  · simp only [List.map_map]
    refine List.Nodup.map_on ?_ (List.nodup_range _)
    intro i hi j hj hij
    rw [List.mem_range] at hi hj
    obtain ⟨r, c, hc, hi1, _, hsti⟩ := hcall i hi
    obtain ⟨s, d, hd, hj1, _, hstj⟩ := hcall j hj
    simp only [Function.comp, hsti, hstj, RowColPair.mk.injEq] at hij
    obtain ⟨hrs, hcd⟩ := hij
    have hrs2 : r = s := by omega
    rw [← hi1, ← hj1, hrs2, hcd]
  · intro rc
    simp only [List.map_map, List.mem_map, List.mem_range, Function.comp]
    constructor
    · rintro ⟨j, hj, rfl⟩
      obtain ⟨r, c, hc, _, hrn, hst⟩ := hcall j hj
      rw [hst]
      exact ⟨by simp, by simpa using hrn, by simp; omega⟩
    · rintro ⟨hr1, hrn, hcr⟩
      have hlt : tri (rc.row - 1) + rc.col < tri (mean.length - 1) := by
        have := tri_succ_le (show rc.row - 1 < mean.length - 1 by omega)
        omega
      obtain ⟨r, c, hc, hk1, _, hst⟩ := hcall _ hlt
      obtain ⟨hr, hcc⟩ := tri_decomp_unique hc (show rc.col ≤ rc.row - 1 by omega) hk1
      refine ⟨_, hlt, ?_⟩
      rw [hst]
      cases rc
      simp only [RowColPair.mk.injEq] at *
      exact ⟨by omega, hcc⟩
  · rintro rc ⟨hr1, hrn, hcr⟩
    have hcn : rc.col < mean.length := by omega
    have hlt : tri (rc.row - 1) + rc.col < tri (mean.length - 1) := by
      have := tri_succ_le (show rc.row - 1 < mean.length - 1 by omega)
      omega
    obtain ⟨r, c, hc, hk1, _, hst⟩ := hcall _ hlt
    obtain ⟨hr, hcc⟩ := tri_decomp_unique hc (show rc.col ≤ rc.row - 1 by omega) hk1
    have hrc : ((m.size_for mean.length).nth_call (tri (rc.row - 1) + rc.col)).2.rc
        = rc := by
      rw [hst]
      cases rc
      simp only [RowColPair.mk.injEq] at *
      exact ⟨by omega, hcc⟩
    refine ⟨mean.get ⟨rc.row, hrn⟩, mean.get ⟨rc.col, hcn⟩,
      List.getElem?_eq_getElem hrn, List.getElem?_eq_getElem hcn, ?_⟩
    rw [tri_pred, hcells, hrc, List.getElem?_eq_getElem (by rw [hlen]; exact hlt),
      Option.map_some', visitor_call_in_range fmin mean rc _ hrn hcn]

end Worker_loop3

/-- C20 on a day with three series, run with fuel 4. -/
theorem worker_loop_fills_matrix_witness :
    (2 ≤ sample_day.length ∧ sample_day.length ≤ 65536 ∧
      sample_day.length * (sample_day.length - 1) / 2 < 4) ∧
    ∃ m1 log,
      CorrelationsThread.worker_loop FLT_MIN sample_day 4
        (CorrelationsThread.initialize_day (CrossCorrelation.init (Correlations ℚ))
          sample_day, []) = some (m1, log) ∧
      log.length = sample_day.length * (sample_day.length - 1) / 2 ∧
      (∀ x ∈ log, x.2 = true) ∧
      (log.map (fun x => x.1.rc)).Nodup ∧
      (∀ rc, rc ∈ log.map (fun x => x.1.rc) ↔ valid_rc sample_day.length rc) ∧
      (∀ rc, valid_rc sample_day.length rc → ∃ sr sc,
        sample_day[rc.row]? = some sr ∧ sample_day[rc.col]? = some sc ∧
        m1.slice[rc.row * (rc.row - 1) / 2 + rc.col]? =
          some ⟨CorrelatorN.compute FLT_MIN sr.ten_day sc.ten_day,
                CorrelatorN.compute FLT_MIN sr.fifty_day sc.fifty_day⟩) :=
  ⟨by decide,
   worker_loop_fills_matrix FLT_MIN sample_day (CrossCorrelation.init (Correlations ℚ))
     (by decide) (by decide) 4 (by decide)⟩

/-- C20 (as stated) fails for a day with `n = 65537` series: the matrix gets 32768
cells, the loop returns after dispatching them, and the cell `(65536, 0)`, a pair with
`0 ≤ col < row < n`, is never dispatched and has no place in the store. -/
theorem worker_loop_oversized_day :
    oversized_day.length = 65537 ∧ valid_rc 65537 ⟨65536, 0⟩ ∧
    ∃ m1 log,
      CorrelationsThread.worker_loop FLT_MIN oversized_day 32769
        (CorrelationsThread.initialize_day (CrossCorrelation.init (Correlations ℚ))
          oversized_day, []) = some (m1, log) ∧
      (⟨65536, 0⟩ : RowColPair) ∉ log.map (fun x => x.1.rc) ∧
      m1.slice[65536 * (65536 - 1) / 2 + 0]? = none := by
  have hn : oversized_day.length = 65537 := List.length_replicate _ _
  have hinit : CorrelationsThread.initialize_day (CrossCorrelation.init (Correlations ℚ))
      oversized_day = fresh 65537 := by
    rw [CorrelationsThread.initialize_day, CorrelationsVisitor.size, hn]
    rfl
  have hlen := fresh_65537_length
  have hM := UINT_MOD_eq
  obtain ⟨m1, hloop, hcells⟩ := worker_loop_returns FLT_MIN oversized_day (fresh 65537) rfl
    (by rw [hlen, hM]; decide) 32769 (by rw [hlen]; decide)
  refine ⟨hn, by decide, m1, _, by rw [hinit]; exact hloop, ?_, ?_⟩
  · intro hmem
    simp only [List.map_map, List.mem_map, List.mem_range, Function.comp, hlen] at hmem
    obtain ⟨j, hj, hrc⟩ := hmem
    obtain ⟨r, c, hc, hk1, hst⟩ := nth_call_small (fresh 65537) rfl j (by omega)
    rw [hst] at hrc
    simp only [RowColPair.mk.injEq] at hrc
    have hr : r = 65535 := by omega
    have ht : tri 65535 = 2147450880 := by rw [← tri_eq]
    rw [hr, ht] at hk1
    omega
  · rw [hcells, List.getElem?_eq_none (by rw [hlen]; decide)]
    rfl

/-! ## The transitivity predicate -/

section Transitive

variable {K : Type} [LinearOrderedField K]

end Transitive

theorem at_index_ok {α : Type} (m : CrossCorrelation α) (index : Nat)
    (h : index < m.slice.length) :
    m.at_index index = Except.ok (m.slice.get ⟨index, h⟩) := by
  unfold CrossCorrelation.at_index
  rw [dif_neg (by omega)]

theorem at_index_error {α : Type} (m : CrossCorrelation α) (index : Nat)
    (h : m.slice.length ≤ index) :
    m.at_index index = Except.error "Element outside of the slice." := by
  unfold CrossCorrelation.at_index
  rw [dif_pos h]

/-- C29 (amended): `at(index)` returns cell number `index` of the flat store when
`index` is below the store length and fails with `out_of_range` exactly when `index`
is at least the store length; on a matrix sized with `size_for(n)`, `2 ≤ n ≤ 65536`,
for every coordinate with `1 ≤ row < n` and `col < row` the call `at(row, col)`
returns the same cell as `at(row(row-1)/2 + col)`. -/
theorem at_index_checked {α : Type} [Inhabited α] (m : CrossCorrelation α)
    (index n : Nat) (rc : RowColPair) :
    (index < m.slice.length →
      ∃ cell, m.slice[index]? = some cell ∧ m.at_index index = Except.ok cell) ∧
    ((∃ msg, m.at_index index = Except.error msg) ↔ m.slice.length ≤ index) ∧
    (2 ≤ n → n ≤ 65536 → valid_rc n rc →
      ∃ cell, (m.size_for n).at_index (rc.row * (rc.row - 1) / 2 + rc.col)
          = Except.ok cell ∧
        (m.size_for n).at_rc rc = Except.ok cell) := by
  refine ⟨?_, ?_, ?_⟩
  · intro h
    exact ⟨m.slice.get ⟨index, h⟩, by rw [List.getElem?_eq_getElem h]; rfl,
      at_index_ok m index h⟩
  · constructor
    · rintro ⟨msg, hmsg⟩
      by_contra hlt
      rw [at_index_ok m index (by omega)] at hmsg
      cases hmsg
    · intro h
      exact ⟨_, at_index_error m index h⟩
  · rintro h2 h ⟨hr1, hrn, hcr⟩
    have hlen : (m.size_for n).slice.length = tri (n - 1) :=
      size_for_length_exact m (by omega) h
    have hidx : at_rc_index rc = tri (rc.row - 1) + rc.col :=
      at_rc_index_exact hr1 (by omega) hcr
    have hlt : at_rc_index rc < (m.size_for n).slice.length := by
      have := tri_succ_le (show rc.row - 1 < n - 1 by omega)
      omega
    refine ⟨(m.size_for n).slice.get ⟨at_rc_index rc, hlt⟩, ?_, at_rc_ok _ rc hcr hlt⟩
    have he : rc.row * (rc.row - 1) / 2 + rc.col = at_rc_index rc := by
      rw [tri_pred, hidx]
    rw [at_index_ok _ _ (by rw [he]; exact hlt)]
    congr 2
    exact Fin.ext he

/-- C29 at `n = 4`: `at(4)` and `at(3, 1)` on the six-cell store, `at(6)` refused. -/
theorem at_index_checked_witness :
    (4 < (fresh 4).slice.length ∧ (∃ cell, (fresh 4).slice[4]? = some cell ∧
      (fresh 4).at_index 4 = Except.ok cell)) ∧
    (2 ≤ 4 ∧ 4 ≤ 65536 ∧ valid_rc 4 ⟨3, 1⟩ ∧
      ∃ cell, ((fresh 4).size_for 4).at_index (3 * (3 - 1) / 2 + 1) = Except.ok cell ∧
        ((fresh 4).size_for 4).at_rc ⟨3, 1⟩ = Except.ok cell) :=
  ⟨⟨by decide, (at_index_checked (fresh 4) 4 4 ⟨3, 1⟩).1 (by decide)⟩,
   by decide, by decide, by decide,
   (at_index_checked (fresh 4) 4 4 ⟨3, 1⟩).2.2 (by decide) (by decide) (by decide)⟩

/-- C29 (as stated) fails on the matrix sized for `n = 65538`: the coordinate
`(65537, 0)` satisfies `1 ≤ row < n` and `col < row`, `at(65537, 0)` returns cell
32768 (its index wraps in 32 bits), and `at(65537 * 65536 / 2 + 0)` is refused. -/
theorem at_index_65538_differs :
    valid_rc 65538 ⟨65537, 0⟩ ∧
    (∃ cell, (fresh 65538).slice[32768]? = some cell ∧
      (fresh 65538).at_rc ⟨65537, 0⟩ = Except.ok cell) ∧
    (fresh 65538).at_index (65537 * (65537 - 1) / 2 + 0)
      = Except.error "Element outside of the slice." := by
  have hlen : (fresh 65538).slice.length = 98305 := by rw [fresh_length]; rfl
  have hidx : at_rc_index ⟨65537, 0⟩ = 32768 := rfl
  have hlt : at_rc_index ⟨65537, 0⟩ < (fresh 65538).slice.length := by
    rw [hlen, hidx]; decide
  refine ⟨by decide, ⟨(fresh 65538).slice.get ⟨at_rc_index ⟨65537, 0⟩, hlt⟩, ?_,
    at_rc_ok _ _ (by decide) hlt⟩, ?_⟩
  · rw [List.getElem?_eq_getElem (by rw [hlen]; decide)]
    rfl
  · apply at_index_error
    rw [hlen]
    decide

/-! ## visit_element -/

theorem visit_element_stateful_pure {α σ : Type} (m : CrossCorrelation α) (e : Element)
    (fn : RowColPair → α → α) (s : σ) :
    m.visit_element_stateful e (fun t rc cell => (t, fn rc cell)) s
      = (s, m.visit_element e fn) := by
  unfold CrossCorrelation.visit_element_stateful CrossCorrelation.visit_element
  by_cases h : m.slice.length > e.index
  · rw [dif_pos h, dif_pos h]
  · rw [dif_neg h, dif_neg h]

theorem visit_element_stateful_in {α σ : Type} (m : CrossCorrelation α) (e : Element)
    (v : σ → RowColPair → α → σ × α) (s : σ) (h : e.index < m.slice.length) :
    m.visit_element_stateful e v s
      = ((v s e.rc (m.slice.get ⟨e.index, h⟩)).1,
         { m with slice := m.slice.set e.index (v s e.rc (m.slice.get ⟨e.index, h⟩)).2 }) := by
  unfold CrossCorrelation.visit_element_stateful
  rw [dif_pos h]

theorem visit_element_stateful_out {α σ : Type} (m : CrossCorrelation α) (e : Element)
    (v : σ → RowColPair → α → σ × α) (s : σ) (h : m.slice.length ≤ e.index) :
    m.visit_element_stateful e v s = (s, m) := by
  unfold CrossCorrelation.visit_element_stateful
  rw [dif_neg (by omega)]

/-- C28: when `e.index` is below the store length, `visit_element(e, fn)` invokes
`fn` exactly once, on `e.rc` and the cell at index `e.index`: the record of
invocations grows by that one entry, the cell at `e.index` becomes what `fn` made of
it, every other cell and the cursor are unchanged; when `e.index` is at least the
store length, `fn` is not invoked and the matrix is unchanged. -/
theorem visit_element_invokes_once {α : Type} (m : CrossCorrelation α) (e : Element)
    (fn : RowColPair → α → α) (log : List (RowColPair × α)) :
    (e.index < m.slice.length →
      ∃ cell, m.slice[e.index]? = some cell ∧
        (m.visit_element_stateful e (recording_visitor fn) log).1
          = log ++ [(e.rc, cell)] ∧
        (m.visit_element_stateful e (recording_visitor fn) log).2.slice[e.index]?
          = some (fn e.rc cell) ∧
        (∀ j, j ≠ e.index →
          (m.visit_element_stateful e (recording_visitor fn) log).2.slice[j]?
            = m.slice[j]?) ∧
        (m.visit_element_stateful e (recording_visitor fn) log).2.slice.length
          = m.slice.length ∧
        (m.visit_element_stateful e (recording_visitor fn) log).2.queued_element
          = m.queued_element) ∧
    (m.slice.length ≤ e.index →
      m.visit_element_stateful e (recording_visitor fn) log = (log, m)) := by
  refine ⟨?_, visit_element_stateful_out m e _ log⟩
  intro h
  refine ⟨m.slice.get ⟨e.index, h⟩, by rw [List.getElem?_eq_getElem h]; rfl, ?_⟩
  rw [visit_element_stateful_in m e _ log h]
  refine ⟨rfl, ?_, ?_, ?_, rfl⟩
  · simp only [recording_visitor]
    rw [List.getElem?_eq_getElem (by rw [List.length_set]; exact h), List.getElem_set_self]
  · intro j hj
    simp only [recording_visitor]
    rw [List.getElem?_set_ne (Ne.symm hj)]
  · simp only [List.length_set]

/-- C28 on the six-cell store: a visit of cell 4 and a visit of index 6. -/
theorem visit_element_invokes_once_witness :
    (4 < (fresh 4).slice.length ∧
      ∃ cell, (fresh 4).slice[4]? = some cell ∧
        ((fresh 4).visit_element_stateful ⟨⟨3, 1⟩, 4⟩
          (recording_visitor (fun _ _ => ⟨RealType.num 1, RealType.num 2⟩)) []).1
          = [] ++ [(⟨3, 1⟩, cell)]) ∧
    ((fresh 4).slice.length ≤ 6 ∧
      (fresh 4).visit_element_stateful ⟨⟨4, 0⟩, 6⟩
          (recording_visitor (fun _ _ => ⟨RealType.num 1, RealType.num 2⟩)) []
        = ([], fresh 4)) :=
  ⟨⟨by decide,
    let ⟨cell, h1, h2, _⟩ := (visit_element_invokes_once (fresh 4) ⟨⟨3, 1⟩, 4⟩
      (fun _ _ => ⟨RealType.num 1, RealType.num 2⟩) []).1 (by decide)
    ⟨cell, h1, h2⟩⟩,
   by decide,
   (visit_element_invokes_once (fresh 4) ⟨⟨4, 0⟩, 6⟩
      (fun _ _ => ⟨RealType.num 1, RealType.num 2⟩) []).2 (by decide)⟩

/-! ## DateIndex -/

theorem s_zero_date_eq : DateIndex.s_zero_date = 2455637 := by decide

theorem s_max_index_eq : DateIndex.s_max_index = 366 := by decide

/-- C26 (amended): `from_string` returns `-1` for every string the date parser
rejects, and for every string parsed as a date it returns the Julian day of the date
minus the Julian day of `start_date`, whether the date lies in
`[start_date, end_date]` or not: the result is in `[0, last()]` exactly for the dates
of the range, negative before `start_date` and above `last()` after `end_date`. -/
theorem from_string_difference (from_simple_string : String → Option Date)
    (in_date : String) :
    (from_simple_string in_date = none →
      DateIndex.from_string from_simple_string in_date = -1) ∧
    (∀ d, from_simple_string in_date = some d →
      DateIndex.from_string from_simple_string in_date
        = d.julian_day - constants.start_date.julian_day ∧
      ((0 ≤ DateIndex.from_string from_simple_string in_date ∧
          DateIndex.from_string from_simple_string in_date ≤ DateIndex.last) ↔
        (constants.start_date.julian_day ≤ d.julian_day ∧
          d.julian_day ≤ constants.end_date.julian_day)) ∧
      (d.julian_day < constants.start_date.julian_day ↔
        DateIndex.from_string from_simple_string in_date < 0) ∧
      (constants.end_date.julian_day < d.julian_day ↔
        DateIndex.last < DateIndex.from_string from_simple_string in_date)) := by
  constructor
  · intro h
    simp only [DateIndex.from_string, h]
  · intro d h
    have he : DateIndex.from_string from_simple_string in_date
        = d.julian_day - constants.start_date.julian_day := by
      simp only [DateIndex.from_string, h, DateIndex.s_zero_date]
    rw [he]
    simp only [DateIndex.last, DateIndex.s_max_index, DateIndex.s_zero_date]
    refine ⟨trivial, ?_, ?_, ?_⟩
    · constructor
      · rintro ⟨h1, h2⟩; constructor <;> omega
      · rintro ⟨h1, h2⟩; constructor <;> omega
    · constructor <;> intro h1 <;> omega
    · constructor <;> intro h1 <;> omega

/-- C26 on a string that is not a date and on the date `2011-12-30`, index 289. -/
theorem from_string_difference_witness :
    (sample_from_simple_string "yesterday" = none ∧
      DateIndex.from_string sample_from_simple_string "yesterday" = -1) ∧
    (sample_from_simple_string "2011-12-30" = some ⟨2011, 12, 30⟩ ∧
      DateIndex.from_string sample_from_simple_string "2011-12-30" = 289) :=
  ⟨⟨by decide,
    (from_string_difference sample_from_simple_string "yesterday").1 (by decide)⟩,
   by decide,
   ((from_string_difference sample_from_simple_string "2011-12-30").2 ⟨2011, 12, 30⟩
      (by decide)).1.trans (by decide)⟩

/-- C26 (as stated) fails on the dates `2010-01-01`, before `start_date`, and
`2013-01-01`, after `end_date`: `from_string` returns `-439` and `657`, not `-1`. -/
theorem from_string_out_of_range :
    sample_from_simple_string "2010-01-01" = some ⟨2010, 1, 1⟩ ∧
    (⟨2010, 1, 1⟩ : Date).julian_day < constants.start_date.julian_day ∧
    DateIndex.from_string sample_from_simple_string "2010-01-01" = -439 ∧
    sample_from_simple_string "2013-01-01" = some ⟨2013, 1, 1⟩ ∧
    constants.end_date.julian_day < (⟨2013, 1, 1⟩ : Date).julian_day ∧
    DateIndex.from_string sample_from_simple_string "2013-01-01" = 657 := by
  decide

/-- C27 (the code): `valid(index)` is true for every index, in particular for `-1`
and for `last() + 1`: `0 <= index < s_max_index` compares the 0 or 1 of `0 <= index`
with `s_max_index = 366`. -/
theorem valid_accepts_every_index (index : Int) :
    DateIndex.valid index = true ∧ DateIndex.valid (-1) = true ∧
    DateIndex.valid (DateIndex.last + 1) = true := by
  refine ⟨?_, by decide, by decide⟩
  unfold DateIndex.valid
  rw [s_max_index_eq]
  by_cases h : 0 ≤ index
  · rw [if_pos h]; decide
  · rw [if_neg h]; decide

/-! ## BufferedRecordReader -/

section Reader

variable {S R F : Type}

theorem read_refused (io : Ifstream S R F) (size : Int) (r : BufferedRecordReader S R)
    (index : Int) (out : R)
    (h : io.is_open r.file = false ∨ io.good r.file = false ∨ index < 0) :
    BufferedRecordReader.read io size r index out = (false, out, r) := by
  unfold BufferedRecordReader.read
  rw [if_pos]
  rcases h with h | h | h
  · simp [h]
  · simp [h]
  · simp [h]

theorem read_entered (io : Ifstream S R F) (size : Int) (r : BufferedRecordReader S R)
    (index : Int) (out : R)
    (h1 : io.is_open r.file = true) (h2 : io.good r.file = true) (h3 : 0 ≤ index) :
    BufferedRecordReader.read io size r index out
      = if index = r.lastread.value then (true, r.buffer, r)
        else if io.good (io.seekg r.file (int_mul index size)) = true then
          if io.good (io.extract (io.seekg r.file (int_mul index size)) r.buffer).1 = true then
            (true, (io.extract (io.seekg r.file (int_mul index size)) r.buffer).2,
              { buffer := (io.extract (io.seekg r.file (int_mul index size)) r.buffer).2,
                lastread := ⟨index⟩,
                file := (io.extract (io.seekg r.file (int_mul index size)) r.buffer).1 })
          else (false, out,
            { r with buffer := (io.extract (io.seekg r.file (int_mul index size)) r.buffer).2,
                     file := (io.extract (io.seekg r.file (int_mul index size)) r.buffer).1 })
        else (false, out, { r with file := io.seekg r.file (int_mul index size) }) := by
  unfold BufferedRecordReader.read
  rw [if_neg]
  simp [h1, h2, h3]

/-- C23: `read(index, out)` returns false exactly when the file is not open, or the
stream is not good, or `index < 0`, or, the index not being the cached one, the
stream is not good after the seek or not good after the extraction of the record; and
on every call that returns false `out` holds what it held before. -/
theorem read_false_keeps_out (io : Ifstream S R F) (size : Int)
    (r : BufferedRecordReader S R) (index : Int) (out : R) :
    ((BufferedRecordReader.read io size r index out).1 = false ↔
      (io.is_open r.file = false ∨ io.good r.file = false ∨ index < 0 ∨
        (index ≠ r.lastread.value ∧
          (io.good (io.seekg r.file (int_mul index size)) = false ∨
           io.good (io.extract (io.seekg r.file (int_mul index size)) r.buffer).1 = false)))) ∧
    ((BufferedRecordReader.read io size r index out).1 = false →
      (BufferedRecordReader.read io size r index out).2.1 = out) := by
  by_cases h1 : io.is_open r.file = true
  · by_cases h2 : io.good r.file = true
    · by_cases h3 : 0 ≤ index
      · rw [read_entered io size r index out h1 h2 h3]
        by_cases h4 : index = r.lastread.value
        · rw [if_pos h4]
          subst h4
          simp [h1, h2, h3]
        · rw [if_neg h4]
          by_cases h5 : io.good (io.seekg r.file (int_mul index size)) = true
          · rw [if_pos h5]
            by_cases h6 :
                io.good (io.extract (io.seekg r.file (int_mul index size)) r.buffer).1 = true
            · rw [if_pos h6]
              simp [h1, h2, h3, h4, h5, h6]
            · rw [if_neg h6]
              simp [h1, h2, h3, h4, h5, h6]
          · rw [if_neg h5]
            simp [h1, h2, h3, h4, h5]
      · rw [read_refused io size r index out (Or.inr (Or.inr (by omega)))]
        exact ⟨⟨fun _ => Or.inr (Or.inr (Or.inl (by omega))), fun _ => rfl⟩, fun _ => rfl⟩
    · have h2f : io.good r.file = false := by simpa using h2
      rw [read_refused io size r index out (Or.inr (Or.inl h2f))]
      exact ⟨⟨fun _ => Or.inr (Or.inl h2f), fun _ => rfl⟩, fun _ => rfl⟩
  · have h1f : io.is_open r.file = false := by simpa using h1
    rw [read_refused io size r index out (Or.inl h1f)]
    exact ⟨⟨fun _ => Or.inl h1f, fun _ => rfl⟩, fun _ => rfl⟩

end Reader

/-- C23 on the file `[10, 20]` of 4-byte records: the read of index 5 finds no record,
returns false and leaves `out = 7`; the read of index -1 is refused. -/
theorem read_false_keeps_out_witness :
    (BufferedRecordReader.read (record_stream Nat 4) 4 sample_reader 5 7).1 = false ∧
    (BufferedRecordReader.read (record_stream Nat 4) 4 sample_reader 5 7).2.1 = 7 ∧
    (BufferedRecordReader.read (record_stream Nat 4) 4 sample_reader (-1) 7).1 = false :=
  ⟨by decide,
   (read_false_keeps_out (record_stream Nat 4) 4 sample_reader 5 7).2 (by decide),
   ((read_false_keeps_out (record_stream Nat 4) 4 sample_reader (-1) 7).1).2
     (Or.inr (Or.inr (Or.inl (by decide))))⟩

section RecordFile

variable {R : Type}

theorem open_file_serves (size : Int) (r0 : BufferedRecordReader (RecordStream R) R)
    (records : List R) :
    (BufferedRecordReader.open_file (record_stream R size) r0 (some records)).1 = true ∧
    BufferedRecordReader.serves records
      (BufferedRecordReader.open_file (record_stream R size) r0 (some records)).2 := by
  unfold BufferedRecordReader.open_file BufferedRecordReader.close
    BufferedRecordReader.serves
  cases h : r0.file.opened <;> simp [record_stream, h]

theorem int_mul_overflow (a b : Int) (h0 : INT_MAX < a * b) (h1 : a * b ≤ INT_MOD - 1) :
    int_mul a b = a * b - INT_MOD ∧ int_mul a b < 0 := by
  unfold int_mul
  unfold INT_MAX at h0
  unfold INT_MOD at h1
  unfold INT_MAX INT_MOD
  omega

/-- A read whose offset `index * size` lies above the largest `int` and below `2^32`
is refused on an open and healthy reader that does not hold the index in its buffer:
the offset handed to `seekg` is negative, the seek fails, `read` returns false and
leaves `out` as it was. -/
theorem read_offset_wraps (size : Int) (records : List R)
    (r : BufferedRecordReader (RecordStream R) R)
    (hr : BufferedRecordReader.serves records r) (index : Int) (out : R)
    (h0 : 0 ≤ index) (hl : index ≠ r.lastread.value) (h1 : INT_MAX < index * size)
    (h2 : index * size ≤ INT_MOD - 1) :
    (BufferedRecordReader.read (record_stream R size) size r index out).1 = false ∧
    (BufferedRecordReader.read (record_stream R size) size r index out).2.1 = out := by
  obtain ⟨ho, hok, _, _⟩ := hr
  rw [read_entered (record_stream R size) size r index out ho hok h0, if_neg hl]
  have hneg := (int_mul_overflow index size h1 h2).2
  have hseek : (record_stream R size).good
      ((record_stream R size).seekg r.file (int_mul index size)) = false := by
    simp [record_stream, hok, hneg]
  rw [if_neg (by rw [hseek]; exact Bool.false_ne_true)]
  exact ⟨rfl, rfl⟩

end RecordFile

/-- C22 (the claim as stated fails): a file of 8134409 records of 264 bytes, the size
of an indexed record of statistical data, just opened.  The index 8134408 is in range,
its offset 2147483712 is no `int`; `read` hands `seekg` the offset -2147483584,
returns false and leaves `out = 5` as it was. -/
theorem read_offset_overflows :
    (0 : Int) ≤ 8134408 ∧ (8134408 : Int) < (List.replicate 8134409 (7 : Nat)).length ∧
    int_mul 8134408 264 = -2147483584 ∧
    (BufferedRecordReader.read (record_stream Nat 264) 264
      (BufferedRecordReader.open_file (record_stream Nat 264) sample_reader
        (some (List.replicate 8134409 7))).2 8134408 5).1 = false ∧
    (BufferedRecordReader.read (record_stream Nat 264) 264
      (BufferedRecordReader.open_file (record_stream Nat 264) sample_reader
        (some (List.replicate 8134409 7))).2 8134408 5).2.1 = 5 := by
  refine ⟨by decide, by rw [List.length_replicate]; decide, by decide, ?_⟩
  exact read_offset_wraps 264 _ _ (open_file_serves 264 sample_reader _).2 8134408 5
    (by decide) (by decide) (by decide) (by decide)

theorem save_to_foldl {α χ : Type} (write : α → List χ) (c : List α) (outfile : List χ) :
    c.foldl (fun o x => o ++ write x) outfile = outfile ++ save_to write c := by
  induction c generalizing outfile with
  | nil => simp [save_to]
  | cons x c ih =>
    unfold save_to
    rw [List.foldl_cons, List.foldl_cons, ih, ih ([] ++ write x), List.nil_append,
      List.append_assoc]

theorem save_to_nil {α χ : Type} (write : α → List χ) : save_to write [] = [] := rfl

theorem save_to_cons {α χ : Type} (write : α → List χ) (x : α) (c : List α) :
    save_to write (x :: c) = write x ++ save_to write c := by
  have h := save_to_foldl write c ([] ++ write x)
  rw [List.nil_append] at h
  exact h

section TextTokens

variable {K : Type} [Zero K]

end TextTokens

/-- C25 (the code): from the text `- 5 6` the first read stores the invalid value
and the second read delivers 6, the token 5 having been dropped with the failed
read; from the text `12abc 7` the first read delivers 12 and the second read stores
the invalid value for the rest `abc` of the first token; from the text `nan 5` the
reads store the invalid value and 5. -/
theorem read_text_drops_wrong_token :
    RealType.read_text_values (char_stream ℚ) 2 ⟨"- 5 6".toList, false⟩
      = [RealType.nan, RealType.num 6] ∧
    RealType.read_text_values (char_stream ℚ) 3 ⟨"12abc 7".toList, false⟩
      = [RealType.num 12, RealType.nan, RealType.num 7] ∧
    RealType.read_text_values (char_stream ℚ) 2 ⟨"nan 5".toList, false⟩
      = [RealType.nan, RealType.num 5] := by
  refine ⟨?_, ?_, ?_⟩ <;>
    simp [RealType.read_text_values, RealType.read_text, char_stream, extract_float,
      extract_word, skip_space, scan_mantissa, scan_exponent, scan_digits, FloatScan.value]

/-! ## The significance predicate -/

section Significance

variable {K : Type} [LinearOrderedField K]

theorem nday_correlated_num (x m : K) :
    Correlations.nday_correlated (RealType.num x) (RealType.num m) = decide (m ≤ |x|) := by
  simp [Correlations.nday_correlated, RealType.is_valid, RealType.is_invalid,
    RealType.prim_le, RealType.prim_abs]

theorem nday_correlated_nan (m : RealType K) :
    Correlations.nday_correlated RealType.nan m = false := by
  simp [Correlations.nday_correlated, RealType.is_valid, RealType.is_invalid]

theorem nday_correlated_iff (t : RealType K) (m : K) :
    Correlations.nday_correlated t (RealType.num m) = true ↔
      RealType.is_valid t = true ∧ ∃ x, t = RealType.num x ∧ m ≤ |x| := by
  cases t with
  | nan => simp [nday_correlated_nan, RealType.is_valid, RealType.is_invalid]
  | num x =>
    rw [nday_correlated_num]
    simp [RealType.is_valid, RealType.is_invalid]

/-- C31: `ten_day_correlated()` is true exactly when the ten-day coefficient is a
valid number `x` with `|x| ≥ 0.8`, and `fifty_day_correlated()` exactly when the
fifty-day coefficient is a valid number `x` with `|x| ≥ 0.4`; an invalid coefficient
is never reported as significant; a coefficient `x ≤ -0.8` (`x ≤ -0.4`) is. -/
theorem correlated_iff (c : Correlations K) :
    (Correlations.ten_day_correlated c = true ↔
      RealType.is_valid c.ten_day = true ∧
        ∃ x, c.ten_day = RealType.num x ∧ 8 / 10 ≤ |x|) ∧
    (Correlations.fifty_day_correlated c = true ↔
      RealType.is_valid c.fifty_day = true ∧
        ∃ x, c.fifty_day = RealType.num x ∧ 4 / 10 ≤ |x|) ∧
    (RealType.is_invalid c.ten_day = true → Correlations.ten_day_correlated c = false) ∧
    (RealType.is_invalid c.fifty_day = true →
      Correlations.fifty_day_correlated c = false) ∧
    (∀ x, c.ten_day = RealType.num x → x ≤ -(8 / 10) →
      Correlations.ten_day_correlated c = true) ∧
    (∀ x, c.fifty_day = RealType.num x → x ≤ -(4 / 10) →
      Correlations.fifty_day_correlated c = true) := by
  refine ⟨nday_correlated_iff _ _, nday_correlated_iff _ _, ?_, ?_, ?_, ?_⟩
  · intro h
    unfold Correlations.ten_day_correlated
    rw [RealType.eq_nan_of_is_invalid h, nday_correlated_nan]
  · intro h
    unfold Correlations.fifty_day_correlated
    rw [RealType.eq_nan_of_is_invalid h, nday_correlated_nan]
  · intro x hx hle
    unfold Correlations.ten_day_correlated Correlations.ten_day_min_r
    rw [hx, nday_correlated_num, decide_eq_true_iff]
    exact le_trans (by linarith) (neg_le_abs x)
  · intro x hx hle
    unfold Correlations.fifty_day_correlated Correlations.fifty_day_min_r
    rw [hx, nday_correlated_num, decide_eq_true_iff]
    exact le_trans (by linarith) (neg_le_abs x)

end Significance

/-- C31 on the cell with the ten-day coefficient `-9/10` and an invalid fifty-day
coefficient, and on the ten-day coefficient `79/100`. -/
theorem correlated_iff_witness :
    Correlations.ten_day_correlated
      (⟨RealType.num (-9 / 10), RealType.nan⟩ : Correlations ℚ) = true ∧
    Correlations.fifty_day_correlated
      (⟨RealType.num (-9 / 10), RealType.nan⟩ : Correlations ℚ) = false ∧
    Correlations.ten_day_correlated
      (⟨RealType.num (79 / 100), RealType.num (2 / 5)⟩ : Correlations ℚ) = false ∧
    Correlations.fifty_day_correlated
      (⟨RealType.num (79 / 100), RealType.num (2 / 5)⟩ : Correlations ℚ) = true :=
  ⟨(correlated_iff (⟨RealType.num (-9 / 10), RealType.nan⟩ : Correlations ℚ)).2.2.2.2.1
      (-9 / 10) rfl (by norm_num),
   (correlated_iff (⟨RealType.num (-9 / 10), RealType.nan⟩ : Correlations ℚ)).2.2.2.1 rfl,
   by
    unfold Correlations.ten_day_correlated Correlations.ten_day_min_r
    rw [nday_correlated_num, decide_eq_false_iff_not]
    norm_num [abs_of_pos],
   by
    unfold Correlations.fifty_day_correlated Correlations.fifty_day_min_r
    rw [nday_correlated_num, decide_eq_true_iff]
    norm_num [abs_of_pos]⟩

/-! ## Symmetry of the pair correlator -/

section Symmetry

variable {K : Type} [LinearOrderedField K]

theorem RealType.mul_comm_sentinel (a b : RealType K) : RealType.mul a b = RealType.mul b a := by
  cases a <;> cases b <;> simp [RealType.mul, RealType.prim_mul, mul_comm]

theorem numerator_loop_comm {N : Nat} (nd_one nd_two : NDayType K N) (acc : RealType K)
    (is : List (Fin N)) :
    CorrelatorN.numerator_loop nd_one nd_two acc is
      = CorrelatorN.numerator_loop nd_two nd_one acc is := by
  unfold CorrelatorN.numerator_loop
  congr 1
  funext num i
  rw [RealType.mul_comm_sentinel]

/-- C34: `compute` is symmetric: for all residual sets `A` and `B` of the same window
length, `compute(A, B)` and `compute(B, A)` are the same value, invalid or a
number. -/
theorem compute_symmetric {N : Nat} (fmin : K) (nd_one nd_two : NDayType K N) :
    CorrelatorN.compute fmin nd_one nd_two = CorrelatorN.compute fmin nd_two nd_one := by
  unfold CorrelatorN.compute
  rw [Bool.or_comm, RealType.mul_comm_sentinel nd_one.root_mean_square,
    numerator_loop_comm]

end Symmetry

/-! ## The bound of sum_first_n_numbers -/

theorem sum_first_n_numbers_lt (n : Nat) : sum_first_n_numbers n < 2147483648 := by
  simp only [sum_first_n_numbers, Nat.shiftRight_eq_div_pow, pow_one]
  have h := Nat.mod_lt ((n + 1) % UINT_MOD * n) (show 0 < UINT_MOD by decide)
  rw [UINT_MOD_eq] at h ⊢
  omega

/-- C36: `sum_first_n_numbers(n)` is `n(n+1)/2` for every `n < 65536`; for every
`n ≥ 65536` the product `(n+1)*n` is at least `2^32`, so the product formed in
`unsigned int` differs from it, and the value returned differs from `n(n+1)/2`. -/
theorem sum_first_n_numbers_bound (n : Nat) :
    (n < 65536 → sum_first_n_numbers n = n * (n + 1) / 2) ∧
    (65536 ≤ n →
      UINT_MOD ≤ (n + 1) * n ∧
      ((n + 1) % UINT_MOD * n) % UINT_MOD ≠ (n + 1) * n ∧
      sum_first_n_numbers n ≠ n * (n + 1) / 2) := by
  constructor
  · intro h
    rw [sum_first_n_numbers_exact h, tri_eq]
  · intro h
    have hprod : 65537 * 65536 ≤ (n + 1) * n := Nat.mul_le_mul (by omega) h
    have hM : UINT_MOD ≤ (n + 1) * n := by rw [UINT_MOD_eq]; omega
    refine ⟨hM, ?_, ?_⟩
    · have := Nat.mod_lt ((n + 1) % UINT_MOD * n) (show 0 < UINT_MOD by decide)
      omega
    · have h1 := sum_first_n_numbers_lt n
      have h2 : 2147483648 ≤ n * (n + 1) / 2 := by
        rw [Nat.mul_comm]
        omega
      omega

/-- C36 at `n = 65535`, the last exact argument, and at `n = 65536`, where 32768 is
returned. -/
theorem sum_first_n_numbers_bound_witness :
    sum_first_n_numbers 65535 = 65535 * (65535 + 1) / 2 ∧
    sum_first_n_numbers 65536 = 32768 ∧
    sum_first_n_numbers 65536 ≠ 65536 * (65536 + 1) / 2 :=
  ⟨(sum_first_n_numbers_bound 65535).1 (by decide), rfl,
   ((sum_first_n_numbers_bound 65536).2 (by decide)).2.2⟩

/-! ## The integer sentinel -/

/-- C39: for `IntegerType` the numbers 1 and -2 are valid and their sum `1 + (-2)` is
the invalid value -1; `(1 + (-2)) + 5` is 5 and `1 + ((-2) + 5)` is 4, so the addition
is not associative. -/
theorem integer_sentinel_collides :
    IntegerType.is_valid 1 = true ∧ IntegerType.is_valid (-2) = true ∧
    IntegerType.add ⟨1⟩ ⟨-2⟩ = ⟨-1⟩ ∧
    IntegerType.is_invalid (IntegerType.add ⟨1⟩ ⟨-2⟩).value = true ∧
    IntegerType.add (IntegerType.add ⟨1⟩ ⟨-2⟩) ⟨5⟩ = ⟨5⟩ ∧
    IntegerType.add ⟨1⟩ (IntegerType.add ⟨-2⟩ ⟨5⟩) = ⟨4⟩ ∧
    ¬ (∀ a b c : IntegerType,
        IntegerType.add (IntegerType.add a b) c = IntegerType.add a (IntegerType.add b c)) := by
  refine ⟨by decide, by decide, by decide, by decide, by decide, by decide, ?_⟩
  intro h
  exact absurd (h ⟨1⟩ ⟨-2⟩ ⟨5⟩) (by decide)

/-! ## The invariant of the dispatch cursor -/

theorem init_cursor (α : Type) :
    (CrossCorrelation.init α).queued_element = ⟨⟨1, 0⟩, 0⟩ := rfl

theorem size_for_length_lt {α : Type} [Inhabited α] (m : CrossCorrelation α) (n : Nat) :
    (m.size_for n).slice.length < 2147483648 := by
  rw [size_for_length]
  exact sum_first_n_numbers_lt _

theorem tri_65536 : tri 65536 = 2147516416 := by rw [← tri_eq]

/-- The cursor after fewer than `2^32` calls from the reset cursor, and the element
that the next call returns. -/
theorem cursor_after_calls {α : Type} (m : CrossCorrelation α)
    (hq : m.queued_element = ⟨⟨1, 0⟩, 0⟩) (k : Nat) (hk : k < UINT_MOD) :
    1 ≤ (m.after_calls k).queued_element.rc.row ∧
    (m.after_calls k).queued_element.rc.col < (m.after_calls k).queued_element.rc.row ∧
    (m.after_calls k).queued_element.index
      = (m.after_calls k).queued_element.rc.row
          * ((m.after_calls k).queued_element.rc.row - 1) / 2
        + (m.after_calls k).queued_element.rc.col ∧
    (m.after_calls k).queued_element.index = k ∧
    (m.nth_call k).2 = (m.after_calls k).queued_element := by
  obtain ⟨r, c, hc, hrc, hst⟩ :=
    after_calls_cursor m hq k (Nat.lt_of_lt_of_le hk tri_UINT_lt)
  rw [hst, Nat.mod_eq_of_lt hk]
  refine ⟨by simp, by simp; omega, ?_, rfl, ?_⟩
  · simp only [Nat.add_sub_cancel]
    rw [Nat.mul_comm, tri_eq, hrc]
  · unfold CrossCorrelation.nth_call CrossCorrelation.get_next_element
    simp only [hst, Nat.mod_eq_of_lt hk]

theorem returned_element_cell {α : Type} (m : CrossCorrelation α)
    (hq : m.queued_element = ⟨⟨1, 0⟩, 0⟩) (hlen : m.slice.length < 2147483648)
    (k : Nat) (hk : k < UINT_MOD) (e : Element) (he : m.nth_call k = (true, e)) :
    ∃ h : e.index < m.slice.length,
      at_rc_index e.rc = e.index ∧
      m.at_rc e.rc = Except.ok (m.slice.get ⟨e.index, h⟩) ∧
      m.at_index e.index = Except.ok (m.slice.get ⟨e.index, h⟩) := by
  obtain ⟨r, c, hc, hrc, hst⟩ := nth_call_small m hq k hk
  rw [hst] at he
  have he1 : decide (m.slice.length > k) = true := congrArg Prod.fst he
  have he2 : (⟨⟨r + 1, c⟩, k⟩ : Element) = e := congrArg Prod.snd he
  have hlt : k < m.slice.length := of_decide_eq_true he1
  subst he2
  have hr : r < 65536 := by
    by_contra hcon
    have := tri_mono (show 65536 ≤ r by omega)
    rw [tri_65536] at this
    omega
  have hidx : at_rc_index ⟨r + 1, c⟩ = k := by
    rw [at_rc_index_exact (by simp) (by simp; omega) (by simp; omega)]
    simpa using hrc
  refine ⟨hlt, hidx, ?_, at_index_ok m k hlt⟩
  have h1 := at_rc_ok m ⟨r + 1, c⟩ (by simp; omega) (by rw [hidx]; exact hlt)
  rw [h1]
  congr 2
  exact Fin.ext hidx

theorem at_rc_slice_congr {α : Type} (m m' : CrossCorrelation α) (h : m.slice = m'.slice)
    (rc : RowColPair) : m.at_rc rc = m'.at_rc rc := by
  obtain ⟨s, q⟩ := m
  obtain ⟨s', q'⟩ := m'
  simp only at h
  subst h
  rfl

theorem at_index_slice_congr {α : Type} (m m' : CrossCorrelation α)
    (h : m.slice = m'.slice) (index : Nat) : m.at_index index = m'.at_index index := by
  obtain ⟨s, q⟩ := m
  obtain ⟨s', q'⟩ := m'
  simp only at h
  subst h
  rfl

theorem visit_element_stateful_slice_congr {α σ : Type} (m m' : CrossCorrelation α)
    (h : m.slice = m'.slice) (e : Element) (v : σ → RowColPair → α → σ × α) (s : σ) :
    (m.visit_element_stateful e v s).1 = (m'.visit_element_stateful e v s).1 := by
  obtain ⟨l, q⟩ := m
  obtain ⟨l', q'⟩ := m'
  simp only at h
  subst h
  unfold CrossCorrelation.visit_element_stateful
  by_cases hlt : l.length > e.index
  · simp only [dif_pos hlt]
  · simp only [dif_neg hlt]

/-- C32 (amended): in every state reached from the default constructor or from
`size_for(n)` by `k < 2^32` calls of `get_next_element`, the cursor satisfies
`row ≥ 1`, `col < row` and `index = row(row-1)/2 + col`, so `col %= row` does not
divide by zero; and for every element `e` that call number `k` returns with true,
`at(e.rc)` succeeds and returns the cell `at(e.index)`, the cell that
`visit_element(e, fn)` hands to `fn`. -/
theorem cursor_invariant {α : Type} [Inhabited α] (m0 : CrossCorrelation α) (n k : Nat)
    (hk : k < UINT_MOD) (fn : RowColPair → α → α) (log : List (RowColPair × α)) :
    (1 ≤ ((CrossCorrelation.init α).after_calls k).queued_element.rc.row ∧
      ((CrossCorrelation.init α).after_calls k).queued_element.rc.col
        < ((CrossCorrelation.init α).after_calls k).queued_element.rc.row ∧
      ((CrossCorrelation.init α).after_calls k).queued_element.index
        = ((CrossCorrelation.init α).after_calls k).queued_element.rc.row
            * (((CrossCorrelation.init α).after_calls k).queued_element.rc.row - 1) / 2
          + ((CrossCorrelation.init α).after_calls k).queued_element.rc.col ∧
      ((CrossCorrelation.init α).nth_call k).1 = false) ∧
    (1 ≤ ((m0.size_for n).after_calls k).queued_element.rc.row ∧
      ((m0.size_for n).after_calls k).queued_element.rc.col
        < ((m0.size_for n).after_calls k).queued_element.rc.row ∧
      ((m0.size_for n).after_calls k).queued_element.index
        = ((m0.size_for n).after_calls k).queued_element.rc.row
            * (((m0.size_for n).after_calls k).queued_element.rc.row - 1) / 2
          + ((m0.size_for n).after_calls k).queued_element.rc.col) ∧
    (∀ e, (m0.size_for n).nth_call k = (true, e) →
      ∃ cell,
        ((m0.size_for n).after_calls (k + 1)).at_rc e.rc = Except.ok cell ∧
        ((m0.size_for n).after_calls (k + 1)).at_index e.index = Except.ok cell ∧
        (((m0.size_for n).after_calls (k + 1)).visit_element_stateful e
          (recording_visitor fn) log).1 = log ++ [(e.rc, cell)]) := by
  have hi := cursor_after_calls (CrossCorrelation.init α) (init_cursor α) k hk
  have hs := cursor_after_calls (m0.size_for n) (size_for_cursor m0 n) k hk
  refine ⟨⟨hi.1, hi.2.1, hi.2.2.1, ?_⟩, ⟨hs.1, hs.2.1, hs.2.2.1⟩, ?_⟩
  · obtain ⟨r, c, _, _, hst⟩ := nth_call_small (CrossCorrelation.init α) (init_cursor α) k hk
    rw [hst]
    simp [CrossCorrelation.init]
  · intro e he
    have hq1 : ((m0.size_for n).after_calls (k + 1)).slice = (m0.size_for n).slice :=
      after_calls_slice _ _
    obtain ⟨h, _, h2, h3⟩ := returned_element_cell (m0.size_for n) (size_for_cursor m0 n)
      (size_for_length_lt m0 n) k hk e he
    refine ⟨(m0.size_for n).slice.get ⟨e.index, h⟩, ?_, ?_, ?_⟩
    · rw [at_rc_slice_congr _ _ hq1]
      exact h2
    · rw [at_index_slice_congr _ _ hq1]
      exact h3
    · rw [visit_element_stateful_slice_congr _ _ hq1, visit_element_stateful_in _ e _ log h]
      rfl

/-- C32 on the matrix sized for `n = 4`: call number 4 returns the element
`((3, 1), 4)`, the cell of `at(3, 1)` and of `at(4)`. -/
theorem cursor_invariant_witness :
    (4 < UINT_MOD ∧ (fresh 4).nth_call 4 = (true, ⟨⟨3, 1⟩, 4⟩)) ∧
    ∃ cell,
      ((fresh 4).after_calls (4 + 1)).at_rc ⟨3, 1⟩ = Except.ok cell ∧
      ((fresh 4).after_calls (4 + 1)).at_index 4 = Except.ok cell ∧
      (((fresh 4).after_calls (4 + 1)).visit_element_stateful ⟨⟨3, 1⟩, 4⟩
        (recording_visitor (fun _ c => c)) []).1 = [] ++ [(⟨3, 1⟩, cell)] :=
  ⟨⟨by decide, by decide⟩,
   (cursor_invariant (CrossCorrelation.init (Correlations ℚ)) 4 4 (by decide)
      (fun _ c => c) []).2.2 ⟨⟨3, 1⟩, 4⟩ (by decide)⟩

theorem tri_92681 : tri 92681 + 37075 = 4294967296 := by rw [← tri_eq]

/-- C32 (as stated) fails after `2^32` calls on the matrix sized for `n = 2`: the
cursor is `(row = 92682, col = 37075)` with the index wrapped to 0, not
`92682 * 92681 / 2 + 37075 = 2^32`; call number `2^32` returns this element with
true, `at(92682, 37075)` is refused and `at(0)` is the one cell of the store. -/
theorem cursor_index_wraps :
    ((fresh 2).after_calls 4294967296).queued_element = ⟨⟨92682, 37075⟩, 0⟩ ∧
    (0 : Nat) ≠ 92682 * (92682 - 1) / 2 + 37075 ∧
    (fresh 2).nth_call 4294967296 = (true, ⟨⟨92682, 37075⟩, 0⟩) ∧
    (fresh 2).at_rc ⟨92682, 37075⟩ = Except.error "Element outside of the slice." ∧
    ∃ cell, (fresh 2).at_index 0 = Except.ok cell := by
  have hlen : (fresh 2).slice.length = 1 := by rw [fresh_length]; rfl
  have hb : 4294967296 < tri (UINT_MOD - 1) := Nat.lt_trans (by decide) tri_UINT_bound
  obtain ⟨r, c, hc, hrc, hst⟩ := after_calls_cursor (fresh 2) rfl 4294967296 hb
  obtain ⟨r', c', hc', hrc', hst'⟩ := nth_call_closed (fresh 2) rfl 4294967296 hb
  obtain ⟨hr, hcc⟩ := tri_decomp_unique hc (show 37075 ≤ 92681 by decide)
    (hrc.trans tri_92681.symm)
  obtain ⟨hr', hcc'⟩ := tri_decomp_unique hc' (show 37075 ≤ 92681 by decide)
    (hrc'.trans tri_92681.symm)
  subst hr hcc hr' hcc'
  have hmod : 4294967296 % UINT_MOD = 0 := rfl
  rw [hmod] at hst hst'
  have hne : (fresh 2).slice.isEmpty = false := by
    cases hs : (fresh 2).slice with
    | nil => rw [hs] at hlen; simp at hlen
    | cons _ _ => rfl
  have hidx : at_rc_index ⟨92682, 37075⟩ = 2147483648 := rfl
  refine ⟨hst, by decide, ?_, ?_, ?_⟩
  · rw [hst', hlen]; rfl
  · simp [CrossCorrelation.at_rc, hne, hidx, hlen]
  · exact ⟨_, at_index_ok (fresh 2) 0 (by rw [hlen]; decide)⟩

/-! ## The range of the coefficient -/

theorem eq_replicate_of_const {α : Type} {l : List α} {v : α} (h : ∀ x ∈ l, x = v) :
    l = List.replicate l.length v :=
  List.eq_replicate_iff.mpr ⟨rfl, h⟩

section Range

variable {K : Type} [LinearOrderedField K]

/-- The coefficient of two residual sets with valid residuals whose root mean squares
square to the sums of the squared residuals lies in `[-1, 1]`. -/
theorem compute_abs_le_one {N : Nat} (fmin : K) (hfmin : 0 < fmin) (hN : 0 < N)
    (nd_one nd_two : NDayType K N) (a b : Fin N → K) (ra rb : K)
    (hra : nd_one.root_mean_square = RealType.num ra)
    (hrb : nd_two.root_mean_square = RealType.num rb)
    (ha : ∀ i, nd_one.residual i = RealType.num (a i))
    (hb : ∀ i, nd_two.residual i = RealType.num (b i))
    (hsa : ra ^ 2 = ∑ i, a i ^ 2) (hsb : rb ^ 2 = ∑ i, b i ^ 2)
    (hguard : fmin ≤ |ra * rb|) :
    ∃ r, CorrelatorN.compute fmin nd_one nd_two = RealType.num r ∧ -1 ≤ r ∧ r ≤ 1 := by
  refine ⟨_, compute_valid_of_values fmin hfmin hN nd_one nd_two a b ra rb hra hrb ha hb
    hguard, ?_⟩
  have hpos : 0 < |ra * rb| := lt_of_lt_of_le hfmin hguard
  have hcs : (∑ i, a i * b i) ^ 2 ≤ (ra * rb) ^ 2 := by
    rw [mul_pow, hsa, hsb]
    exact Finset.sum_mul_sq_le_sq_mul_sq Finset.univ a b
  have habs : |∑ i, a i * b i| ≤ |ra * rb| := sq_le_sq.mp hcs
  have hdiv : |(∑ i, a i * b i) / (ra * rb)| ≤ 1 := by
    rw [abs_div, div_le_one hpos]
    exact habs
  exact abs_le.mp hdiv

/-- C33: with `fsqrt` a square root on the non-negative numbers and `fmin > 0`, for
two accumulators of window length `N ≥ 1` that were each fed at least `N` valid
values, the residual sets written by `update` have numbers `ra`, `rb` as root mean
squares, and whenever their product passes the guard of `compute`
(`fmin ≤ |ra * rb|`), the coefficient returned by `compute` is a number in
`[-1, 1]`. -/
theorem compute_within_unit_interval {N : Nat} (fsqrt : K → K)
    (hsqrt : ∀ x, 0 ≤ x → 0 ≤ fsqrt x ∧ fsqrt x ^ 2 = x) (fmin : K) (hfmin : 0 < fmin)
    (hN : 0 < N) (vs ws : List K) (hv : N ≤ vs.length) (hw : N ≤ ws.length)
    (nd1 nd2 : NDayType K N) :
    ∃ ra rb,
      (MovingAverageN.feed fsqrt (vs.map RealType.num)
        (MovingAverageN.init K N, nd1)).2.root_mean_square = RealType.num ra ∧
      (MovingAverageN.feed fsqrt (ws.map RealType.num)
        (MovingAverageN.init K N, nd2)).2.root_mean_square = RealType.num rb ∧
      (fmin ≤ |ra * rb| →
        ∃ r, CorrelatorN.compute fmin
            (MovingAverageN.feed fsqrt (vs.map RealType.num)
              (MovingAverageN.init K N, nd1)).2
            (MovingAverageN.feed fsqrt (ws.map RealType.num)
              (MovingAverageN.init K N, nd2)).2 = RealType.num r ∧
          -1 ≤ r ∧ r ≤ 1) := by
  rw [feed_fresh fsqrt hN, feed_fresh fsqrt hN, if_neg (by omega), if_neg (by omega)]
  have hnn : ∀ w : List K, 0 ≤ ∑ i : Fin N,
      (w.getD i.val 0 - mean_from_scratch N w) ^ 2 :=
    fun w => Finset.sum_nonneg (fun i _ => sq_nonneg _)
  refine ⟨_, _, rfl, rfl, ?_⟩
  intro hguard
  exact compute_abs_le_one fmin hfmin hN _ _ _ _ _ _ rfl rfl (fun _ => rfl) (fun _ => rfl)
    (hsqrt _ (hnn _)).2 (hsqrt _ (hnn _)).2 hguard

/-! ## A window of equal values -/

theorem mean_from_scratch_const {N : Nat} (hN : 0 < N) (v : K) :
    mean_from_scratch N (List.replicate N v) = v := by
  have hK : (N : K) ≠ 0 := Nat.cast_ne_zero.mpr (by omega)
  rw [mean_from_scratch, List.sum_replicate, nsmul_eq_mul, mul_comm, mul_div_assoc,
    div_self hK, mul_one]

theorem residual_set_of_const {N : Nat} (fsqrt : K → K) (hN : 0 < N) (v : K) :
    residual_set_of fsqrt N (List.replicate N v)
      = { mean := RealType.num v, residual := fun _ => RealType.num 0,
          root_mean_square := RealType.num (fsqrt 0) } := by
  have hres : ∀ i : Fin N,
      (List.replicate N v).getD i.val 0 - mean_from_scratch N (List.replicate N v) = 0 := by
    intro i
    rw [mean_from_scratch_const hN, List.getD_eq_getElem _ _ (by simp),
      List.getElem_replicate, sub_self]
  unfold residual_set_of
  simp only [hres, mean_from_scratch_const hN]
  simp

/-- C35: with `fsqrt 0 = 0` and `fmin > 0`, when the last `N` of the valid values fed
to an accumulator of window length `N ≥ 1` are all equal to `v`, the residual set
written by `update` has mean `v`, every residual 0 and root mean square 0, and
`compute` of it with any residual set, on either side, returns the invalid value
without executing the division. -/
theorem constant_window_guarded {N : Nat} (fsqrt : K → K) (h0 : fsqrt 0 = 0) (fmin : K)
    (hfmin : 0 < fmin) (hN : 0 < N) (vs : List K) (v : K) (hm : N ≤ vs.length)
    (hconst : ∀ x ∈ last_n N vs, x = v) (nd0 other : NDayType K N) :
    (MovingAverageN.feed fsqrt (vs.map RealType.num)
      (MovingAverageN.init K N, nd0)).2.mean = RealType.num v ∧
    (∀ i, (MovingAverageN.feed fsqrt (vs.map RealType.num)
      (MovingAverageN.init K N, nd0)).2.residual i = RealType.num 0) ∧
    (MovingAverageN.feed fsqrt (vs.map RealType.num)
      (MovingAverageN.init K N, nd0)).2.root_mean_square = RealType.num 0 ∧
    CorrelatorN.compute_traced fmin
      (MovingAverageN.feed fsqrt (vs.map RealType.num) (MovingAverageN.init K N, nd0)).2
      other = (RealType.invalid_value, none) ∧
    CorrelatorN.compute_traced fmin other
      (MovingAverageN.feed fsqrt (vs.map RealType.num) (MovingAverageN.init K N, nd0)).2
      = (RealType.invalid_value, none) ∧
    CorrelatorN.compute fmin
      (MovingAverageN.feed fsqrt (vs.map RealType.num) (MovingAverageN.init K N, nd0)).2
      other = RealType.invalid_value ∧
    CorrelatorN.compute fmin other
      (MovingAverageN.feed fsqrt (vs.map RealType.num) (MovingAverageN.init K N, nd0)).2
      = RealType.invalid_value := by
  have hlen : (last_n N vs).length = N := by rw [last_n_length]; omega
  have hrep : last_n N vs = List.replicate N v := by
    have := eq_replicate_of_const hconst
    rw [hlen] at this
    exact this
  rw [feed_fresh fsqrt hN, if_neg (by omega), hrep, residual_set_of_const fsqrt hN, h0]
  have hA : ∀ o : NDayType K N, CorrelatorN.compute_traced fmin
      { mean := RealType.num v, residual := fun _ => RealType.num 0,
        root_mean_square := RealType.num 0 } o = (RealType.invalid_value, none) := by
    intro o
    cases ho : o.root_mean_square with
    | nan => simp [CorrelatorN.compute_traced, ho, RealType.is_invalid]
    | num rb =>
      simp [CorrelatorN.compute_traced, ho, RealType.is_invalid, RealType.mul,
        RealType.prim_mul, RealType.prim_abs, RealType.prim_gt, hfmin]
  have hB : ∀ o : NDayType K N, CorrelatorN.compute_traced fmin o
      { mean := RealType.num v, residual := fun _ => RealType.num 0,
        root_mean_square := RealType.num 0 } = (RealType.invalid_value, none) := by
    intro o
    cases ho : o.root_mean_square with
    | nan => simp [CorrelatorN.compute_traced, ho, RealType.is_invalid]
    | num rb =>
      simp [CorrelatorN.compute_traced, ho, RealType.is_invalid, RealType.mul,
        RealType.prim_mul, RealType.prim_abs, RealType.prim_gt, hfmin]
  refine ⟨rfl, fun _ => rfl, rfl, hA other, hB other, ?_, ?_⟩
  · rw [← compute_traced_fst, hA]
  · rw [← compute_traced_fst, hB]

end Range

/-- C33 over the real numbers with `Real.sqrt`, at `N = 2` with the windows `1, 3`
and `2, 8`: the coefficient is 1. -/
theorem compute_within_unit_interval_witness :
    ((∀ x : ℝ, 0 ≤ x → 0 ≤ Real.sqrt x ∧ Real.sqrt x ^ 2 = x) ∧ (0 : ℝ) < 1 / 2 ^ 126 ∧
      0 < 2 ∧ 2 ≤ ([1, 3] : List ℝ).length ∧ 2 ≤ ([2, 8] : List ℝ).length) ∧
    ∃ ra rb : ℝ,
      (MovingAverageN.feed Real.sqrt (([1, 3] : List ℝ).map RealType.num)
        (MovingAverageN.init ℝ 2, NDayType.init ℝ 2)).2.root_mean_square = RealType.num ra ∧
      (MovingAverageN.feed Real.sqrt (([2, 8] : List ℝ).map RealType.num)
        (MovingAverageN.init ℝ 2, NDayType.init ℝ 2)).2.root_mean_square = RealType.num rb ∧
      (1 / 2 ^ 126 ≤ |ra * rb| →
        ∃ r, CorrelatorN.compute (1 / 2 ^ 126)
            (MovingAverageN.feed Real.sqrt (([1, 3] : List ℝ).map RealType.num)
              (MovingAverageN.init ℝ 2, NDayType.init ℝ 2)).2
            (MovingAverageN.feed Real.sqrt (([2, 8] : List ℝ).map RealType.num)
              (MovingAverageN.init ℝ 2, NDayType.init ℝ 2)).2 = RealType.num r ∧
          -1 ≤ r ∧ r ≤ 1) :=
  ⟨⟨fun x hx => ⟨Real.sqrt_nonneg x, Real.sq_sqrt hx⟩, by positivity, by decide, by decide,
    by decide⟩,
   compute_within_unit_interval Real.sqrt
     (fun x hx => ⟨Real.sqrt_nonneg x, Real.sq_sqrt hx⟩) (1 / 2 ^ 126) (by positivity)
     (by decide) [1, 3] [2, 8] (by decide) (by decide) (NDayType.init ℝ 2)
     (NDayType.init ℝ 2)⟩

/-- C35 at `N = 2` on the values 1, 7, 7 with the identity as `fsqrt`: the window
7, 7 gives root mean square 0, and an invalid coefficient against a residual set with
root mean square 3. -/
theorem constant_window_guarded_witness :
    ((fun x : ℚ => x) 0 = 0 ∧ 0 < FLT_MIN ∧ 0 < 2 ∧ 2 ≤ ([1, 7, 7] : List ℚ).length ∧
      last_n 2 ([1, 7, 7] : List ℚ) = [7, 7]) ∧
    (MovingAverageN.feed (fun x : ℚ => x) (([1, 7, 7] : List ℚ).map RealType.num)
      (MovingAverageN.init ℚ 2, NDayType.init ℚ 2)).2.root_mean_square = RealType.num 0 ∧
    CorrelatorN.compute FLT_MIN
      (MovingAverageN.feed (fun x : ℚ => x) (([1, 7, 7] : List ℚ).map RealType.num)
        (MovingAverageN.init ℚ 2, NDayType.init ℚ 2)).2
      { mean := RealType.num 2, residual := fun _ => RealType.num 1,
        root_mean_square := RealType.num 3 } = RealType.invalid_value :=
  ⟨⟨rfl, FLT_MIN_pos, by decide, by decide, by simp [last_n]⟩,
   (constant_window_guarded (fun x : ℚ => x) rfl FLT_MIN FLT_MIN_pos (by decide) [1, 7, 7] 7
      (by decide) (by simp [last_n]) (NDayType.init ℚ 2)
      { mean := RealType.num 2, residual := fun _ => RealType.num 1,
        root_mean_square := RealType.num 3 }).2.2.1,
   (constant_window_guarded (fun x : ℚ => x) rfl FLT_MIN FLT_MIN_pos (by decide) [1, 7, 7] 7
      (by decide) (by simp [last_n]) (NDayType.init ℚ 2)
      { mean := RealType.num 2, residual := fun _ => RealType.num 1,
        root_mean_square := RealType.num 3 }).2.2.2.2.2.1⟩

/-! ## The binary form of the records -/

theorem istream_read_written {α : Type} (rep : ObjectRep α)
    (hsize : ∀ x, (rep.bytes x).length = rep.size) (x x0 : α)
    (hvalue : rep.value (rep.bytes x) = x) (rest : List Nat) :
    istream_read rep ⟨rep.bytes x ++ rest, false⟩ x0 = (x, ⟨rest, false⟩) := by
  have hle : rep.size ≤ (rep.bytes x ++ rest).length := by
    rw [List.length_append, hsize]; omega
  unfold istream_read
  simp only [Bool.false_eq_true, if_false, if_pos hle]
  rw [← hsize x, List.take_left, List.drop_left, hvalue]

theorem istream_read_at_end {α : Type} (rep : ObjectRep α) (hpos : 0 < rep.size) (x0 : α) :
    (istream_read rep ⟨[], false⟩ x0).2.failed = true := by
  unfold istream_read
  have h : ¬ rep.size ≤ ([] : List Nat).length := by simp; omega
  simp only [Bool.false_eq_true, if_false, if_neg h]

theorem save_to_length {α χ : Type} (write : α → List χ) (size : Nat)
    (h : ∀ x, (write x).length = size) (l : List α) :
    (save_to write l).length = l.length * size := by
  induction l with
  | nil => simp [save_to_nil]
  | cons x l ih =>
    rw [save_to_cons, List.length_append, h, ih, List.length_cons, Nat.succ_mul]
    omega

theorem save_to_drop {α χ : Type} (write : α → List χ) (size : Nat)
    (h : ∀ x, (write x).length = size) (l : List α) (i : Nat) :
    (save_to write l).drop (i * size) = save_to write (l.drop i) := by
  induction i generalizing l with
  | zero => simp
  | succ i ih =>
    cases l with
    | nil => simp [save_to_nil]
    | cons x l =>
      rw [save_to_cons, List.drop_succ_cons, ← ih l, Nat.succ_mul, Nat.add_comm,
        ← List.drop_drop, ← h x, List.drop_left]

section Records

variable {K : Type}

theorem residual_bytes_loop {N : Nat} (rep : ObjectRep (RealType K))
    (res : Fin N → RealType K) (out : List Nat) (is : List (Fin N)) :
    is.foldl (fun o i => o ++ rep.bytes (res i)) out
      = out ++ save_to (fun i => rep.bytes (res i)) is :=
  save_to_foldl (fun i => rep.bytes (res i)) is out

theorem residual_read_loop {N : Nat} (rep : ObjectRep (RealType K))
    (hsize : ∀ x, (rep.bytes x).length = rep.size)
    (hvalue : ∀ x, rep.value (rep.bytes x) = x) (res : Fin N → RealType K)
    (rest : List Nat) (is : List (Fin N)) :
    ∀ r0 : Fin N → RealType K,
      is.foldl
        (fun (st : (Fin N → RealType K) × ByteStream) i =>
          (Function.update st.1 i (istream_read rep st.2 (st.1 i)).1,
            (istream_read rep st.2 (st.1 i)).2))
        (r0, ⟨save_to (fun i => rep.bytes (res i)) is ++ rest, false⟩)
      = (fun j => if j ∈ is then res j else r0 j, ⟨rest, false⟩) := by
  induction is with
  | nil => intro r0; simp [save_to_nil]
  | cons i is ih =>
    intro r0
    rw [List.foldl_cons, save_to_cons, List.append_assoc]
    simp only [istream_read_written rep hsize (res i) (r0 i) (hvalue _)]
    rw [ih]
    congr 1
    funext j
    by_cases hj : j = i
    · subst hj
      simp
    · simp [hj, Function.update_noteq hj]

theorem NDayType.write_binary_eq {N : Nat} (rep : ObjectRep (RealType K))
    (nd : NDayType K N) :
    NDayType.write_binary rep nd
      = rep.bytes nd.mean
        ++ (save_to (fun i => rep.bytes (nd.residual i)) (List.finRange N)
          ++ rep.bytes nd.root_mean_square) := by
  unfold NDayType.write_binary
  simp only [residual_bytes_loop, List.append_assoc]

theorem nday_write_length {N : Nat} (rep : ObjectRep (RealType K))
    (hsize : ∀ x, (rep.bytes x).length = rep.size) (nd : NDayType K N) :
    (NDayType.write_binary rep nd).length = NDayType.Size rep N := by
  rw [NDayType.write_binary_eq, List.length_append, List.length_append, hsize, hsize,
    save_to_length _ rep.size (fun i => hsize _), List.length_finRange, NDayType.Size]
  ring

theorem nday_read_written {N : Nat} (rep : ObjectRep (RealType K))
    (hsize : ∀ x, (rep.bytes x).length = rep.size)
    (hvalue : ∀ x, rep.value (rep.bytes x) = x) (nd nd0 : NDayType K N)
    (rest : List Nat) :
    NDayType.read_binary rep ⟨NDayType.write_binary rep nd ++ rest, false⟩ nd0
      = (nd, ⟨rest, false⟩) := by
  unfold NDayType.read_binary
  rw [NDayType.write_binary_eq, List.append_assoc, List.append_assoc]
  simp only [istream_read_written rep hsize nd.mean nd0.mean (hvalue _),
    residual_read_loop rep hsize hvalue nd.residual,
    istream_read_written rep hsize nd.root_mean_square nd0.root_mean_square (hvalue _)]
  congr 1
  apply NDayType.ext_fields
  · rfl
  · intro j
    simp [List.mem_finRange]
  · rfl

theorem statistical_write_length (rep : ObjectRep (RealType K))
    (hsize : ∀ x, (rep.bytes x).length = rep.size) (sd : StatisticalData K) :
    (StatisticalData.write_binary rep sd).length = StatisticalData.Size rep := by
  unfold StatisticalData.write_binary StatisticalData.Size
  rw [List.length_append, List.length_append, hsize, nday_write_length rep hsize,
    nday_write_length rep hsize]
  omega

theorem statistical_read_written (rep : ObjectRep (RealType K))
    (hsize : ∀ x, (rep.bytes x).length = rep.size)
    (hvalue : ∀ x, rep.value (rep.bytes x) = x) (sd sd0 : StatisticalData K)
    (rest : List Nat) :
    StatisticalData.read_binary rep ⟨StatisticalData.write_binary rep sd ++ rest, false⟩ sd0
      = (sd, ⟨rest, false⟩) := by
  unfold StatisticalData.read_binary StatisticalData.write_binary
  rw [List.append_assoc, List.append_assoc]
  simp only [istream_read_written rep hsize sd.value sd0.value (hvalue _),
    nday_read_written rep hsize hvalue]

theorem StatisticalData.Size_eq (rep : ObjectRep (RealType K)) :
    StatisticalData.Size rep = 65 * rep.size := by
  unfold StatisticalData.Size NDayType.Size
  ring

end Records

section Indexed

variable {C : Type}

theorem indexed_write_length (int_rep : ObjectRep Int)
    (hisize : ∀ i, (int_rep.bytes i).length = int_rep.size) (write_value : C → List Nat)
    (value_size : Nat) (hlen : ∀ c, (write_value c).length = value_size)
    (a : DateIndexedType C) :
    (DateIndexedType.write_binary int_rep write_value a).length
      = DateIndexedType.Size int_rep value_size := by
  unfold DateIndexedType.write_binary DateIndexedType.Size
  rw [List.length_append, hisize, hlen]

theorem indexed_read_written (int_rep : ObjectRep Int)
    (hisize : ∀ i, (int_rep.bytes i).length = int_rep.size) (write_value : C → List Nat)
    (read_value : ByteStream → C → C × ByteStream)
    (hread : ∀ c c0 rest, read_value ⟨write_value c ++ rest, false⟩ c0 = (c, ⟨rest, false⟩))
    (a a0 : DateIndexedType C) (hindex : int_rep.value (int_rep.bytes a.index) = a.index)
    (rest : List Nat) :
    DateIndexedType.read_binary int_rep read_value
        ⟨DateIndexedType.write_binary int_rep write_value a ++ rest, false⟩ a0
      = (a, ⟨rest, false⟩) := by
  unfold DateIndexedType.read_binary DateIndexedType.write_binary
  rw [List.append_assoc]
  simp only [istream_read_written int_rep hisize a.index a0.index hindex, hread]

end Indexed

/-- C37: when `sizeof(Real)` bytes are written for every number and read back as the
number (likewise for the `int` index of the records at hand), the binary
`operator<<` of `NDayType<Real, N>` writes `Size() = (N + 2) * sizeof(Real)` bytes,
that of `StatisticalData<Real>` writes `Size() = 65 * sizeof(Real)` bytes and that of
`DateIndexedType<C>` writes `Size() = sizeof(int) + C::Size()` bytes; the binary
`operator>>` applied to the bytes written, whatever follows them, consumes exactly
these bytes and restores the value written; and in a file of `DateIndexedType<C>`
records written one after the other, the bytes from offset `i * Size()` on are those
of record `i` and of the records after it, so reading there delivers record `i`. -/
theorem binary_size_matches {K C : Type} (rep : ObjectRep (RealType K))
    (hsize : ∀ x, (rep.bytes x).length = rep.size)
    (hvalue : ∀ x, rep.value (rep.bytes x) = x) (int_rep : ObjectRep Int)
    (hisize : ∀ i, (int_rep.bytes i).length = int_rep.size)
    (write_value : C → List Nat) (read_value : ByteStream → C → C × ByteStream)
    (value_size : Nat) (hlen : ∀ c, (write_value c).length = value_size)
    (hread : ∀ c c0 rest, read_value ⟨write_value c ++ rest, false⟩ c0 = (c, ⟨rest, false⟩))
    (l : List (DateIndexedType C))
    (hindex : ∀ a ∈ l, int_rep.value (int_rep.bytes a.index) = a.index) :
    (∀ (N : Nat) (nd nd0 : NDayType K N) (rest : List Nat),
      NDayType.Size rep N = (N + 2) * rep.size ∧
      (NDayType.write_binary rep nd).length = NDayType.Size rep N ∧
      NDayType.read_binary rep ⟨NDayType.write_binary rep nd ++ rest, false⟩ nd0
        = (nd, ⟨rest, false⟩)) ∧
    (∀ (sd sd0 : StatisticalData K) (rest : List Nat),
      StatisticalData.Size rep = 65 * rep.size ∧
      (StatisticalData.write_binary rep sd).length = StatisticalData.Size rep ∧
      StatisticalData.read_binary rep ⟨StatisticalData.write_binary rep sd ++ rest, false⟩ sd0
        = (sd, ⟨rest, false⟩)) ∧
    (∀ (a a0 : DateIndexedType C) (rest : List Nat), a ∈ l →
      DateIndexedType.Size int_rep value_size = int_rep.size + value_size ∧
      (DateIndexedType.write_binary int_rep write_value a).length
        = DateIndexedType.Size int_rep value_size ∧
      DateIndexedType.read_binary int_rep read_value
          ⟨DateIndexedType.write_binary int_rep write_value a ++ rest, false⟩ a0
        = (a, ⟨rest, false⟩)) ∧
    (∀ (i : Nat) (a a0 : DateIndexedType C), l[i]? = some a →
      (save_to (DateIndexedType.write_binary int_rep write_value) l).drop
          (i * DateIndexedType.Size int_rep value_size)
        = DateIndexedType.write_binary int_rep write_value a
          ++ (save_to (DateIndexedType.write_binary int_rep write_value) l).drop
            ((i + 1) * DateIndexedType.Size int_rep value_size) ∧
      DateIndexedType.read_binary int_rep read_value
          ⟨(save_to (DateIndexedType.write_binary int_rep write_value) l).drop
            (i * DateIndexedType.Size int_rep value_size), false⟩ a0
        = (a, ⟨(save_to (DateIndexedType.write_binary int_rep write_value) l).drop
            ((i + 1) * DateIndexedType.Size int_rep value_size), false⟩)) := by
  have hwlen := indexed_write_length int_rep hisize write_value value_size hlen
  refine ⟨?_, ?_, ?_, ?_⟩
  · intro N nd nd0 rest
    exact ⟨rfl, nday_write_length rep hsize nd,
      nday_read_written rep hsize hvalue nd nd0 rest⟩
  · intro sd sd0 rest
    exact ⟨StatisticalData.Size_eq rep, statistical_write_length rep hsize sd,
      statistical_read_written rep hsize hvalue sd sd0 rest⟩
  · intro a a0 rest ha
    exact ⟨rfl, hwlen a,
      indexed_read_written int_rep hisize write_value read_value hread a a0
        (hindex a ha) rest⟩
  · intro i a a0 hi
    have hlt : i < l.length := (List.getElem?_eq_some_iff.mp hi).1
    have hget : l[i] = a := (List.getElem?_eq_some_iff.mp hi).2
    have hdrop : l.drop i = a :: l.drop (i + 1) := by
      rw [← hget]; exact List.drop_eq_getElem_cons hlt
    have h1 : (save_to (DateIndexedType.write_binary int_rep write_value) l).drop
          (i * DateIndexedType.Size int_rep value_size)
        = DateIndexedType.write_binary int_rep write_value a
          ++ (save_to (DateIndexedType.write_binary int_rep write_value) l).drop
            ((i + 1) * DateIndexedType.Size int_rep value_size) := by
      rw [save_to_drop _ _ hwlen, save_to_drop _ _ hwlen, hdrop, save_to_cons]
    refine ⟨h1, ?_⟩
    rw [h1]
    exact indexed_read_written int_rep hisize write_value read_value hread a a0
      (hindex a (hget ▸ List.getElem_mem hlt)) _

theorem sample_real_rep_size (x : RealType (Fin 255)) :
    (sample_real_rep.bytes x).length = sample_real_rep.size := by
  cases x <;> rfl

theorem sample_real_rep_value (x : RealType (Fin 255)) :
    sample_real_rep.value (sample_real_rep.bytes x) = x := by
  cases x with
  | nan => rfl
  | num v =>
    obtain ⟨n, hn⟩ := v
    simp [sample_real_rep, hn]

theorem sample_index_value :
    ∀ a ∈ ([⟨3, sample_byte_sd⟩, ⟨-2, sample_byte_sd⟩] :
        List (DateIndexedType (StatisticalData (Fin 255)))),
      sample_int_rep.value (sample_int_rep.bytes a.index) = a.index := by
  intro a ha
  simp only [List.mem_cons, List.mem_singleton, List.not_mem_nil, or_false] at ha
  rcases ha with rfl | rfl <;> decide

/-- C37 over one-byte numbers and a four-byte `int`: a record of statistical data
takes 65 bytes, a date-indexed record 69 bytes, and in the file of the records with
the indices 3 and -2 the second record is read at byte 69. -/
theorem binary_size_matches_witness :
    (StatisticalData.write_binary sample_real_rep sample_byte_sd).length = 65 ∧
    (DateIndexedType.write_binary sample_int_rep
      (StatisticalData.write_binary sample_real_rep) ⟨3, sample_byte_sd⟩).length = 69 ∧
    DateIndexedType.read_binary sample_int_rep (StatisticalData.read_binary sample_real_rep)
        ⟨(save_to (DateIndexedType.write_binary sample_int_rep
            (StatisticalData.write_binary sample_real_rep))
            [⟨3, sample_byte_sd⟩, ⟨-2, sample_byte_sd⟩]).drop
          (1 * DateIndexedType.Size sample_int_rep (StatisticalData.Size sample_real_rep)),
          false⟩ ⟨0, StatisticalData.init (Fin 255)⟩
      = (⟨-2, sample_byte_sd⟩,
        ⟨(save_to (DateIndexedType.write_binary sample_int_rep
            (StatisticalData.write_binary sample_real_rep))
            [⟨3, sample_byte_sd⟩, ⟨-2, sample_byte_sd⟩]).drop
          ((1 + 1) * DateIndexedType.Size sample_int_rep
            (StatisticalData.Size sample_real_rep)), false⟩) :=
  ⟨((binary_size_matches sample_real_rep sample_real_rep_size sample_real_rep_value
      sample_int_rep (fun _ => rfl) (StatisticalData.write_binary sample_real_rep)
      (StatisticalData.read_binary sample_real_rep) (StatisticalData.Size sample_real_rep)
      (statistical_write_length sample_real_rep sample_real_rep_size)
      (statistical_read_written sample_real_rep sample_real_rep_size
        sample_real_rep_value)
      [⟨3, sample_byte_sd⟩, ⟨-2, sample_byte_sd⟩] sample_index_value).2.1
        sample_byte_sd sample_byte_sd []).2.1,
   ((binary_size_matches sample_real_rep sample_real_rep_size sample_real_rep_value
      sample_int_rep (fun _ => rfl) (StatisticalData.write_binary sample_real_rep)
      (StatisticalData.read_binary sample_real_rep) (StatisticalData.Size sample_real_rep)
      (statistical_write_length sample_real_rep sample_real_rep_size)
      (statistical_read_written sample_real_rep sample_real_rep_size
        sample_real_rep_value)
      [⟨3, sample_byte_sd⟩, ⟨-2, sample_byte_sd⟩] sample_index_value).2.2.1
        ⟨3, sample_byte_sd⟩ ⟨0, StatisticalData.init (Fin 255)⟩ []
        (List.mem_cons_self _ _)).2.1,
   ((binary_size_matches sample_real_rep sample_real_rep_size sample_real_rep_value
      sample_int_rep (fun _ => rfl) (StatisticalData.write_binary sample_real_rep)
      (StatisticalData.read_binary sample_real_rep) (StatisticalData.Size sample_real_rep)
      (statistical_write_length sample_real_rep sample_real_rep_size)
      (statistical_read_written sample_real_rep sample_real_rep_size
        sample_real_rep_value)
      [⟨3, sample_byte_sd⟩, ⟨-2, sample_byte_sd⟩] sample_index_value).2.2.2
        1 ⟨-2, sample_byte_sd⟩ ⟨0, StatisticalData.init (Fin 255)⟩ rfl).2⟩

/-! ## Signal -/

theorem interval_toNat : DateIndex.interval.toNat = 367 := by decide

section Signals

variable {T : Type}

theorem Signal.ext_sample {a b : Signal T} (h : a.sample = b.sample) : a = b := by
  cases a
  cases b
  simp only at h
  rw [h]

theorem Signal.assign_append (s : Signal T) (a b : List (DateIndexedType T)) :
    Signal.assign s (a ++ b) = Signal.assign (Signal.assign s a) b := by
  unfold Signal.assign
  rw [List.foldl_append]

theorem Signal.assign_one (s : Signal T) (i : Nat) (x : T) :
    Signal.assign s [⟨Int.ofNat i, x⟩] = ⟨s.sample.set i x⟩ := by
  unfold Signal.assign
  simp

/-- The recording built by the first `n` rounds of the loop of `save_to`. -/
theorem recording_step (is_valid : T → Bool) (s : Signal T) (n : Nat) :
    Signal.recording_loop is_valid s (n + 1)
      = match s.sample[n]? with
        | some x =>
          if is_valid x then
            Signal.recording_loop is_valid s n ++ [⟨Int.ofNat n, x⟩]
          else
            Signal.recording_loop is_valid s n
        | none =>
          Signal.recording_loop is_valid s n := by
  unfold Signal.recording_loop
  rw [List.range_succ, List.foldl_append]
  rfl

theorem recording_mem (is_valid : T → Bool) (s : Signal T) (n : Nat)
    (r : DateIndexedType T) :
    r ∈ Signal.recording_loop is_valid s n
      ↔ ∃ i : Nat, i < n ∧ r.index = Int.ofNat i ∧ s.sample[i]? = some r.value ∧
          is_valid r.value = true := by
  induction n with
  | zero => simp [Signal.recording_loop]
  | succ n ih =>
    rw [recording_step]
    cases hs : s.sample[n]? with
    | none =>
      simp only [ih]
      constructor
      · rintro ⟨i, hi, h1, h2, h3⟩
        exact ⟨i, by omega, h1, h2, h3⟩
      · rintro ⟨i, hi, h1, h2, h3⟩
        have hne : i ≠ n := by
          intro h; rw [h, hs] at h2; cases h2
        exact ⟨i, by omega, h1, h2, h3⟩
    | some x =>
      by_cases hv : is_valid x = true
      · simp only [hv, if_true, List.mem_append, List.mem_singleton, ih]
        constructor
        · rintro (⟨i, hi, h1, h2, h3⟩ | h)
          · exact ⟨i, by omega, h1, h2, h3⟩
          · subst h
            exact ⟨n, by omega, rfl, hs, hv⟩
        · rintro ⟨i, hi, h1, h2, h3⟩
          by_cases hin : i = n
          · right
            subst hin
            rw [hs] at h2
            obtain ⟨ri, rv⟩ := r
            simp only at h1 h2
            rw [h1, Option.some.inj h2]
          · left
            exact ⟨i, by omega, h1, h2, h3⟩
      · simp only [hv, if_false, ih, Bool.false_eq_true]
        constructor
        · rintro ⟨i, hi, h1, h2, h3⟩
          exact ⟨i, by omega, h1, h2, h3⟩
        · rintro ⟨i, hi, h1, h2, h3⟩
          have hne : i ≠ n := by
            intro h
            rw [h, hs] at h2
            rw [Option.some.inj h2] at hv
            exact hv h3
          exact ⟨i, by omega, h1, h2, h3⟩

theorem recording_sorted (is_valid : T → Bool) (s : Signal T) (n : Nat) :
    List.Pairwise (fun a b : DateIndexedType T => a.index < b.index)
      (Signal.recording_loop is_valid s n) := by
  induction n with
  | zero => simp [Signal.recording_loop]
  | succ n ih =>
    rw [recording_step]
    cases hs : s.sample[n]? with
    | none => exact ih
    | some x =>
      by_cases hv : is_valid x = true
      · simp only [hv, if_true]
        rw [List.pairwise_append]
        refine ⟨ih, List.pairwise_singleton _ _, ?_⟩
        intro a ha b hb
        rw [List.mem_singleton] at hb
        obtain ⟨i, hi, h1, _, _⟩ := (recording_mem is_valid s n a).mp ha
        subst hb
        rw [h1]
        exact Int.ofNat_lt.mpr hi
      · simp only [hv, if_false, Bool.false_eq_true]
        exact ih

theorem assign_recording [Inhabited T] (is_valid : T → Bool) (s : Signal T) (n : Nat)
    (hn : n ≤ DateIndex.interval.toNat) :
    (Signal.assign (Signal.init T)
      (Signal.recording_loop is_valid s n)).sample
      = (List.range DateIndex.interval.toNat).map
          (fun i => if i < n then
              (match s.sample[i]? with
                | some x => if is_valid x then x else default
                | none => default)
            else default) := by
  induction n with
  | zero =>
    apply List.ext_getElem?
    intro j
    simp only [Signal.recording_loop, List.range_zero, List.foldl_nil, Signal.assign,
      Signal.init,
      List.getElem?_replicate, List.getElem?_map, Nat.not_lt_zero, if_false]
    by_cases hj : j < DateIndex.interval.toNat
    · rw [if_pos hj, List.getElem?_range hj]; rfl
    · rw [if_neg hj, List.getElem?_eq_none (by rw [List.length_range]; omega)]; rfl
  | succ n ih =>
    have ih' := ih (by omega)
    rw [recording_step]
    have hkeep : ∀ (hd : (match s.sample[n]? with
          | some x => if is_valid x then x else default
          | none => default) = default),
        (List.range DateIndex.interval.toNat).map
          (fun i => if i < n then
              (match s.sample[i]? with
                | some x => if is_valid x then x else default
                | none => default)
            else default)
        = (List.range DateIndex.interval.toNat).map
          (fun i => if i < n + 1 then
              (match s.sample[i]? with
                | some x => if is_valid x then x else default
                | none => default)
            else default) := by
      intro hd
      apply List.map_congr_left
      intro i _
      by_cases hi : i < n
      · rw [if_pos hi, if_pos (by omega)]
      · rw [if_neg hi]
        by_cases hin : i = n
        · subst hin
          rw [if_pos (by omega), hd]
        · rw [if_neg (by omega)]
    cases hs : s.sample[n]? with
    | none =>
      simp only
      rw [ih']
      exact hkeep (by rw [hs])
    | some x =>
      by_cases hv : is_valid x = true
      · simp only [hv, if_true]
        rw [Signal.assign_append, Signal.assign_one, ih']
        apply List.ext_getElem?
        intro j
        rw [List.getElem?_set, List.length_map, List.length_range, List.getElem?_map,
          List.getElem?_map]
        by_cases hjn : n = j
        · subst hjn
          rw [if_pos rfl, if_pos (by omega), List.getElem?_range (by omega)]
          simp [hs, hv]
        · rw [if_neg hjn]
          by_cases hj : j < DateIndex.interval.toNat
          · rw [List.getElem?_range hj]
            simp only [Option.map_some']
            by_cases hlt : j < n
            · rw [if_pos hlt, if_pos (by omega)]
            · rw [if_neg hlt, if_neg (by omega)]
          · rw [List.getElem?_eq_none (by rw [List.length_range]; omega)]
            rfl
      · simp only [hv, if_false, Bool.false_eq_true]
        rw [ih']
        exact hkeep (by rw [hs]; simp [hv])

/-- C38: for a signal whose sample vector has `interval()` entries, the recording that
`save_to` hands to `::save_to` holds exactly the records `(i, sample[i])` with
`0 ≤ i < interval()` and `sample[i]` valid, in strictly ascending order of `i`; and
`load_from`, when `::load_from` delivers these records, applied to a freshly
constructed signal gives the signal with every valid sample at its index and a
default-constructed sample elsewhere: invalid when the default-constructed value is,
and the original sample vector when the default-constructed value is the only invalid
one. -/
theorem signal_round_trip [Inhabited T] (is_valid : T → Bool) (s : Signal T)
    (hlen : s.sample.length = DateIndex.interval.toNat) :
    (∀ r, r ∈ Signal.recording is_valid s ↔
      ∃ i : Nat, i < DateIndex.interval.toNat ∧ r.index = Int.ofNat i ∧
        s.sample[i]? = some r.value ∧ is_valid r.value = true) ∧
    List.Pairwise (fun a b : DateIndexedType T => a.index < b.index)
      (Signal.recording is_valid s) ∧
    (∀ (χ : Type) (write : DateIndexedType T → List χ),
      Signal.save_to write is_valid s = save_to write (Signal.recording is_valid s)) ∧
    (∀ (S : Type) (read : S → DateIndexedType T → DateIndexedType T × S)
        (fail : S → Bool) (fuel : Nat) (iFile : S),
      load_from read fail fuel [] iFile = some (Signal.recording is_valid s) →
      Signal.load_from read fail fuel (Signal.init T) iFile
        = some (Signal.valid_part is_valid s)) ∧
    (Signal.valid_part is_valid s).sample.length = s.sample.length ∧
    (∀ (i : Nat) (x : T), s.sample[i]? = some x →
      (Signal.valid_part is_valid s).sample[i]?
        = some (if is_valid x then x else default)) ∧
    ((∀ x, is_valid x = false → x = default) → Signal.valid_part is_valid s = s) := by
  have hassign : Signal.assign (Signal.init T) (Signal.recording is_valid s)
      = Signal.valid_part is_valid s := by
    apply Signal.ext_sample
    have h := assign_recording is_valid s DateIndex.interval.toNat (Nat.le_refl _)
    unfold Signal.recording
    rw [h]
    show List.map _ _ = List.map _ _
    apply List.map_congr_left
    intro i hi
    rw [if_pos (List.mem_range.mp hi)]
  have hget : ∀ (i : Nat) (x : T), s.sample[i]? = some x →
      (Signal.valid_part is_valid s).sample[i]?
        = some (if is_valid x then x else default) := by
    intro i x hx
    have hi : i < DateIndex.interval.toNat := by
      rw [← hlen]; exact (List.getElem?_eq_some_iff.mp hx).1
    unfold Signal.valid_part
    simp only [List.getElem?_map, List.getElem?_range hi, Option.map_some', hx]
  have hl : (Signal.valid_part is_valid s).sample.length = s.sample.length := by
    unfold Signal.valid_part
    rw [List.length_map, List.length_range, hlen]
  refine ⟨recording_mem is_valid s _, recording_sorted is_valid s _, fun _ _ => rfl, ?_, hl,
    hget, ?_⟩
  · intro S read fail fuel iFile hload
    unfold Signal.load_from
    rw [hload, Option.map_some', hassign]
  · intro huniq
    apply Signal.ext_sample
    apply List.ext_getElem?
    intro j
    by_cases hj : j < s.sample.length
    · have hx : s.sample[j]? = some s.sample[j] := List.getElem?_eq_getElem hj
      rw [hget j _ hx, hx]
      by_cases hv : is_valid s.sample[j] = true
      · rw [if_pos hv]
      · rw [if_neg hv, ← huniq s.sample[j] (by simpa using hv)]
    · rw [List.getElem?_eq_none (by omega), List.getElem?_eq_none (by omega)]

end Signals

theorem sample_signal_length : sample_signal.sample.length = DateIndex.interval.toNat := by
  unfold sample_signal
  rw [List.length_map, List.length_range]

/-- C38 on the signal of 367 numbers that is valid at the even indices: the recording
holds the record of index 4 and none of index 5, and the assignment of the recording
to a freshly constructed signal gives the signal back. -/
theorem signal_round_trip_witness :
    sample_signal.sample.length = DateIndex.interval.toNat ∧
    (⟨4, RealType.num 2⟩ : DateIndexedType (RealType ℚ))
      ∈ Signal.recording RealType.is_valid sample_signal ∧
    (⟨5, RealType.nan⟩ : DateIndexedType (RealType ℚ))
      ∉ Signal.recording RealType.is_valid sample_signal ∧
    Signal.valid_part RealType.is_valid sample_signal = sample_signal :=
  ⟨sample_signal_length,
   ((signal_round_trip RealType.is_valid sample_signal sample_signal_length).1 _).mpr
     ⟨4, by decide, rfl, by simp [sample_signal, interval_toNat]; norm_num, rfl⟩,
   fun h =>
     let ⟨_, _, _, _, hv⟩ :=
       ((signal_round_trip RealType.is_valid sample_signal sample_signal_length).1 _).mp h
     absurd hv (by decide),
   (signal_round_trip RealType.is_valid sample_signal sample_signal_length).2.2.2.2.2.2
     (fun x hx => RealType.eq_nan_of_is_invalid (by
       cases x with
       | nan => rfl
       | num v => simp [RealType.is_valid, RealType.is_invalid] at hx))⟩

end Correlator
